import Mathlib

/-!
Verification development for the package stub (RBI) generator
(src/packager/rbi_gen.cc).

The symbol/type model is shallowly embedded: symbols are natural-number
handles into a read-only table (`GlobalState`), types are the tagged union
`RType`, and the emitter's mutable state (`emittedSymbols` visited set,
`toEmit` worklist, indent-aware output buffer) is threaded explicitly
through pure functions.  The fatal "Invalid klass" raise is modelled with
`Except Unit`.  Ghost fields (`rendered`, `bodyDone`, `initRan`) record
which symbols' declarations were actually printed; they influence nothing
the source computes and exist only so theorems can speak about rendering
events.
-/

/-- Symbol kinds, mirroring core::SymbolRef::Kind. -/
inductive SymKind where
  | classOrModule
  | method
  | fieldOrStaticField
  | typeMember
  | typeArgument
deriving DecidableEq, Repr

/-- A name handle: the shown string plus whether the name kind is UNIQUE
(compiler-generated gensym names). -/
structure NRef where
  str : String
  unique : Bool
deriving DecidableEq, Repr

def initializeName : NRef := ⟨"initialize", false⟩
def staticInitName : NRef := ⟨"<static-init>", false⟩
def singletonName : NRef := ⟨"<singleton class>", false⟩
def attachedName : NRef := ⟨"<attached>", false⟩
def attachedClassName : NRef := ⟨"<AttachedClass>", false⟩
def sealedSubclassesName : NRef := ⟨"sealed_subclasses", false⟩
def testNamespaceName : NRef := ⟨"Test", false⟩

/-- The tagged type representation, mirroring core::TypePtr::Tag and the
payloads read by rbi_gen.cc.  `literalType` keeps its underlying class for
reference; the source's traversal reads no symbol out of it. -/
inductive RType where
  | aliasType (symbol : Nat)
  | andType (left right : RType)
  | appliedType (klass : Nat) (targs : List RType)
  | blamedUntyped
  | classType (symbol : Nat)
  | literalType (underlying : Nat)
  | metaType (wrapped : RType)
  | orType (left right : RType)
  | selfType
  | selfTypeParam (definition : Nat)
  | shapeType (keys : List RType) (values : List RType)
  | tupleType (elems : List RType)
  | typeVar
  | unresolvedAppliedType (klass : Nat) (symbol : Nat) (targs : List RType)
  | unresolvedClassType
  | lambdaParam (definition : Nat) (lowerBound : RType) (upperBound : RType)

/-- core::Types::untypedUntracked(), used when a null TypePtr is rendered. -/
def untypedUntracked : RType := RType.blamedUntyped

/-- Per-argument flags read by the formatters. -/
structure ArgFlags where
  isKeyword : Bool
  isRepeated : Bool
  isDefault : Bool
  isBlock : Bool
  isSyntheticBlock : Bool
deriving DecidableEq, Repr

/-- One method argument: shown name, declared type (none = null TypePtr),
flags. -/
structure ArgInfo where
  argName : String
  type : Option RType
  flags : ArgFlags

/-- Method flags read by the formatters. -/
structure MFlags where
  isPrivate : Bool
  isProtected : Bool
  isFinal : Bool
  isAbstract : Bool
  isOverridable : Bool
  isOverride : Bool
deriving DecidableEq, Repr

inductive VarianceK where
  | coVariant
  | invariant
  | contraVariant
deriving DecidableEq, Repr

/-- Everything the generator reads about one symbol (kind-dependent fields
are simply unused for other kinds). -/
structure SymData where
  kind : SymKind
  owner : Nat
  name : NRef
  showStr : String
  isSingletonClass : Bool
  attachedClass : Option Nat
  superClass : Option Nat
  isClassKind : Bool
  isAbstractC : Bool
  isFinalC : Bool
  isInterfaceC : Bool
  isSealedC : Bool
  mixins : List Nat
  typeMembers : List Nat
  members : List (NRef × Nat)
  singletonClassOf : Option Nat
  mflags : MFlags
  arguments : List ArgInfo
  resultType : Option RType
  hasSig : Bool
  typeArgNames : List String
  isFieldFlag : Bool
  tmIsFixed : Bool
  tmVariance : VarianceK

def defaultSymData : SymData where
  kind := SymKind.classOrModule
  owner := 0
  name := ⟨"", false⟩
  showStr := ""
  isSingletonClass := false
  attachedClass := none
  superClass := none
  isClassKind := true
  isAbstractC := false
  isFinalC := false
  isInterfaceC := false
  isSealedC := false
  mixins := []
  typeMembers := []
  members := []
  singletonClassOf := none
  mflags := ⟨false, false, false, false, false, false⟩
  arguments := []
  resultType := none
  hasSig := false
  typeArgNames := []
  isFieldFlag := false
  tmIsFixed := false
  tmVariance := VarianceK.invariant

/-- Distinguished symbol handles.  0 is the global root and 1 the synthetic
package registry (the two nodes at which owner-chain walks stop); the
well-known core symbols compared against in rbi_gen.cc get fixed small
ids. -/
def rootSym : Nat := 0
def pkgRegistrySym : Nat := 1
def tEnumSym : Nat := 2
def tStructSym : Nat := 3
def implicitModuleSuperClassSym : Nat := 4
def voidClassSym : Nat := 5

/-- core::Types::void_(). -/
def voidType : RType := RType.classType voidClassSym

/-- The shared read-only symbol table plus the external display primitives
(`show`/`toString` of types, spec section 6).  The two proof fields state
that owner chains descend toward the root and that a singleton class was
created after its attached class; both hold of the real symbol table and
make the owner-chain walks and the singleton redirection well-founded. -/
structure GlobalState where
  syms : Nat → SymData
  showT : RType → String
  toStringT : RType → String
  owner_lt : ∀ s : Nat, 2 ≤ s → (syms s).owner < s
  attached_lt : ∀ s a : Nat, (syms s).attachedClass = some a → a < s

def isCoM (gs : GlobalState) (s : Nat) : Bool :=
  (gs.syms s).kind = SymKind.classOrModule

/-- symbol.isClassOrModule() and isSingletonClass(gs). -/
def isSingletonCoM (gs : GlobalState) (s : Nat) : Bool :=
  isCoM gs s && (gs.syms s).isSingletonClass

/-- findMember: the member with the given name, if any. -/
def findMember (gs : GlobalState) (scope : Nat) (n : NRef) : Option Nat :=
  ((gs.syms scope).members.find? (fun p => p.1 = n)).map (fun p => p.2)

/-- lookupFQN: resolve a dotted name path against the root; none plays the
role of core::Symbols::noClassOrModule(). -/
def lookupFQN (gs : GlobalState) (fqn : List NRef) : Option Nat :=
  fqn.foldlM
    (fun scope n => if isCoM gs scope then findMember gs scope n else none)
    rootSym

/-- A package descriptor (spec section 3): mangled display name, declared
name path, export path list, test-export path list. -/
structure PackageInfo where
  mangledStr : String
  fullName : List NRef
  exportsL : List (List NRef)
  testExportsL : List (List NRef)
deriving DecidableEq, Repr

/-- The per-exporter package context: this package's namespace symbol, its
test-namespace variant (none when resolution failed, like the null
ClassOrModuleRef), and the global set of all registered package namespace
symbols. -/
structure PkgCtx where
  pkgNamespace : Option Nat
  pkgTestNamespace : Option Nat
  pkgNamespaces : List Nat
deriving DecidableEq, Repr

/-- RBIExporter::isInPackage: walk the owner chain toward the root; stop
false at the root or the package registry; stop true at this package's
namespace or test namespace; stop false at any other registered package
namespace. -/
def isInPackage (gs : GlobalState) (ctx : PkgCtx) (klass : Nat) : Bool :=
  if klass = rootSym ∨ klass = pkgRegistrySym then
    false
  else if some klass = ctx.pkgNamespace ∨ some klass = ctx.pkgTestNamespace then
    true
  else if isCoM gs klass ∧ klass ∈ ctx.pkgNamespaces then
    false
  else
    isInPackage gs ctx (gs.syms klass).owner
termination_by klass
decreasing_by
  refine gs.owner_lt klass ?_
  simp only [rootSym, pkgRegistrySym] at *
  omega

/-- RBIExporter::isInTestPackage: same walk, but only the test-namespace
variant counts as true. -/
def isInTestPackage (gs : GlobalState) (ctx : PkgCtx) (klass : Nat) : Bool :=
  if klass = rootSym ∨ klass = pkgRegistrySym then
    false
  else if some klass = ctx.pkgNamespace then
    false
  else if some klass = ctx.pkgTestNamespace then
    true
  else if isCoM gs klass ∧ klass ∈ ctx.pkgNamespaces then
    false
  else
    isInTestPackage gs ctx (gs.syms klass).owner
termination_by klass
decreasing_by
  refine gs.owner_lt klass ?_
  simp only [rootSym, pkgRegistrySym] at *
  omega

/-- The indent-aware append-only text sink (class Output). -/
structure Output where
  buf : String
  indentLevel : Nat
deriving DecidableEq, Repr

def emptyOutput : Output := ⟨"", 0⟩

def spacesStr (n : Nat) : String := String.mk (List.replicate n ' ')

def Output.tabStr (o : Output) : String := spacesStr (o.indentLevel * 2)

/-- The variadic println overload: tab string, formatted text, newline (no
re-indentation of embedded newlines). -/
def Output.printlnRaw (o : Output) (s : String) : Output :=
  { o with buf := o.buf ++ o.tabStr ++ s ++ "\n" }

/-- The string_view println overload: embedded newlines are re-indented by
the current tab string. -/
def Output.printlnInd (o : Output) (s : String) : Output :=
  { o with buf := o.buf ++ o.tabStr ++ (s.replace "\n" ("\n" ++ o.tabStr)) ++ "\n" }

def Output.tab (o : Output) : Output := { o with indentLevel := o.indentLevel + 1 }

def Output.untab (o : Output) : Output := { o with indentLevel := o.indentLevel - 1 }

/-- toString(): hand back the accumulated text and clear the buffer. -/
def Output.takeString (o : Output) : String × Output :=
  (o.buf, { o with buf := "" })

/-- Emission state: the `emittedSymbols` visited set (a duplicate-free list
standing for the UnorderedSet), the `toEmit` LIFO worklist, the output
buffer, and the ghost rendering trace (`rendered` = symbols whose
declaration text was printed; `bodyDone` = classes whose emit body ran;
`initRan` = classes whose constructor-synthesis phase ran). -/
structure EmitState where
  emittedSymbols : List Nat
  toEmit : List Nat
  out : Output
  rendered : List Nat
  bodyDone : List Nat
  initRan : List Nat
deriving DecidableEq, Repr

def initialEmitState : EmitState := ⟨[], [], emptyOutput, [], [], []⟩

def EmitState.withOut (st : EmitState) (f : Output → Output) : EmitState :=
  { st with out := f st.out }

/-- RBIExporter::maybeEmit: redirect a singleton (metaclass) to its
attached class; otherwise insert-and-push when not yet emitted and owned
by this package. -/
def maybeEmit (gs : GlobalState) (ctx : PkgCtx) (st : EmitState) (symbol : Nat) :
    EmitState :=
  if isSingletonCoM gs symbol then
    match h : (gs.syms symbol).attachedClass with
    | some a => maybeEmit gs ctx st a
    | none => st
  else if symbol ∉ st.emittedSymbols ∧ isInPackage gs ctx symbol then
    { st with
      emittedSymbols := symbol :: st.emittedSymbols
      toEmit := symbol :: st.toEmit }
  else st
termination_by symbol
decreasing_by exact gs.attached_lt _ _ h

-- RBIExporter::enqueueSymbolsInType: recursive visit of every sub-type,
-- calling maybeEmit on each embedded symbol; enqueueSymbolsList handles the
-- child lists of composite variants position by position.
mutual

def enqueueSymbolsInType (gs : GlobalState) (ctx : PkgCtx) (st : EmitState) :
    RType → EmitState
  | RType.aliasType symbol => maybeEmit gs ctx st symbol
  | RType.andType l r =>
      enqueueSymbolsInType gs ctx (enqueueSymbolsInType gs ctx st l) r
  | RType.appliedType klass targs =>
      enqueueSymbolsList gs ctx (maybeEmit gs ctx st klass) targs
  | RType.blamedUntyped => st
  | RType.classType symbol => maybeEmit gs ctx st symbol
  | RType.literalType _ => st
  | RType.metaType wrapped => enqueueSymbolsInType gs ctx st wrapped
  | RType.orType l r =>
      enqueueSymbolsInType gs ctx (enqueueSymbolsInType gs ctx st l) r
  | RType.selfType => st
  | RType.selfTypeParam definition => maybeEmit gs ctx st definition
  | RType.shapeType keys values =>
      enqueueSymbolsList gs ctx (enqueueSymbolsList gs ctx st keys) values
  | RType.tupleType elems => enqueueSymbolsList gs ctx st elems
  | RType.typeVar => st
  | RType.unresolvedAppliedType klass symbol targs =>
      enqueueSymbolsList gs ctx
        (maybeEmit gs ctx (maybeEmit gs ctx st klass) symbol) targs
  | RType.unresolvedClassType => st
  | RType.lambdaParam _ lowerBound upperBound =>
      enqueueSymbolsInType gs ctx (enqueueSymbolsInType gs ctx st lowerBound)
        upperBound

def enqueueSymbolsList (gs : GlobalState) (ctx : PkgCtx) (st : EmitState) :
    List RType → EmitState
  | [] => st
  | t :: rest =>
      enqueueSymbolsList gs ctx (enqueueSymbolsInType gs ctx st t) rest

end

/-- getResultType for the only configuration rbi_gen.cc uses (receiver and
constraint are nullptr at every call site): the substitution pipeline
degenerates to filling a null type with untypedUntracked. -/
def getResultTypeNR (t : Option RType) : RType := t.getD untypedUntracked

/-- retType == core::Types::void_() (ClassType of the void class). -/
def isVoidT : RType → Bool
  | RType.classType s => s = voidClassSym
  | _ => false

-- iff a sig has more than this many parameters, then print it as a multi-line sig.
def MAX_PRETTY_SIG_ARGS : Nat := 4
-- iff a def would be this wide or wider, expand it to be a multi-line def.
def MAX_PRETTY_WIDTH : Nat := 80

/-- The resolved return type of prettySigForMethod: the passed retType, or
the method's declared result type filled against a null receiver. -/
def sigRetTypeOf (gs : GlobalState) (method : Nat) (retTypeArg : Option RType) :
    RType :=
  match retTypeArg with
  | some t => t
  | none => getResultTypeNR (gs.syms method).resultType

/-- The "void" / "returns(...)" piece of a sig. -/
def sigReturnTextOf (gs : GlobalState) (method : Nat) (retTypeArg : Option RType) :
    String :=
  let retType := sigRetTypeOf gs method retTypeArg
  if isVoidT retType then "void" else "returns(" ++ gs.showT retType ++ ")"

/-- sig vs sig(:final). -/
def sigCallOf (gs : GlobalState) (method : Nat) : String :=
  if (gs.syms method).mflags.isFinal then "sig(:final)" else "sig"

/-- The ordered abstract/overridable/override flag words of a sig. -/
def sigFlagsOf (gs : GlobalState) (method : Nat) : List String :=
  (if (gs.syms method).mflags.isAbstract then ["abstract"] else []) ++
  (if (gs.syms method).mflags.isOverridable then ["overridable"] else []) ++
  (if (gs.syms method).mflags.isOverride then ["override"] else [])

/-- The :T type-parameter words of a sig. -/
def sigTypeArgsOf (gs : GlobalState) (method : Nat) : List String :=
  (gs.syms method).typeArgNames.map (fun ta => ":" ++ ta)

/-- The already-substituted, already-rendered name:type texts of the
non-synthetic arguments of a sig. -/
def sigArgTexts (gs : GlobalState) (method : Nat) : List String :=
  ((gs.syms method).arguments.filter (fun a => ¬a.flags.isSyntheticBlock)).map
    (fun a => a.argName ++ ": " ++ gs.showT (getResultTypeNR a.type))

/-- The single-line rendering of a sig. -/
def sigOnelineOf (gs : GlobalState) (method : Nat) (retTypeArg : Option RType) :
    String :=
  let flags := sigFlagsOf gs method
  let typeArguments := sigTypeArgsOf gs method
  let typeAndArgNames := sigArgTexts gs method
  let flagString :=
    if flags.isEmpty then "" else String.intercalate "." flags ++ "."
  let typeParamsString :=
    if typeArguments.isEmpty then ""
    else "type_parameters(" ++ String.intercalate ", " typeArguments ++ ")."
  let paramsString :=
    if typeAndArgNames.isEmpty then ""
    else "params(" ++ String.intercalate ", " typeAndArgNames ++ ")."
  sigCallOf gs method ++ " \x7b" ++ flagString ++ typeParamsString ++
    paramsString ++ sigReturnTextOf gs method retTypeArg ++ "\x7d"

/-- The multi-line rendering of a sig: one argument per line, flags chained
one per line. -/
def sigMultilineOf (gs : GlobalState) (method : Nat) (retTypeArg : Option RType) :
    String :=
  let flags := sigFlagsOf gs method
  let typeArguments := sigTypeArgsOf gs method
  let typeAndArgNames := sigArgTexts gs method
  let flagString :=
    if flags.isEmpty then "" else String.intercalate "\n  ." flags ++ "\n  ."
  let typeParamsString :=
    if typeArguments.isEmpty then ""
    else "type_parameters(" ++ String.intercalate ", " typeArguments ++ ")\n  ."
  let paramsString :=
    if typeAndArgNames.isEmpty then ""
    else "params(\n    " ++ String.intercalate ",\n    " typeAndArgNames ++
      "\n  )\n  ."
  sigCallOf gs method ++ " do\n  " ++ flagString ++ typeParamsString ++
    paramsString ++ sigReturnTextOf gs method retTypeArg ++ "\nend"

/-- RBIExporter::prettySigForMethod (receiver/constraint are nullptr at all
call sites and are dropped): renders the sig text and, as a side effect,
enqueues the symbols of the return type and of each non-synthetic
argument type, in that order.  The text pieces are computed by the pure
helpers above; they do not depend on the emitter state, so the source's
single loop over arguments is split into the text list and the enqueue
fold. -/
def prettySigForMethod (gs : GlobalState) (ctx : PkgCtx) (st : EmitState)
    (method : Nat) (retTypeArg : Option RType) : String × EmitState :=
  let retType := sigRetTypeOf gs method retTypeArg
  let st := enqueueSymbolsInType gs ctx st retType
  let st := (gs.syms method).arguments.foldl
    (fun s argSym =>
      if argSym.flags.isSyntheticBlock then s
      else enqueueSymbolsInType gs ctx s (getResultTypeNR argSym.type)) st
  if (sigOnelineOf gs method retTypeArg).length ≤ MAX_PRETTY_WIDTH ∧
      (sigArgTexts gs method).length ≤ MAX_PRETTY_SIG_ARGS then
    (sigOnelineOf gs method retTypeArg, st)
  else (sigMultilineOf gs method retTypeArg, st)

/-- One pretty argument of a def header, with argument-kind decoration. -/
def prettyArgOf (argSym : ArgInfo) : String :=
  let pre :=
    if argSym.flags.isRepeated then (if argSym.flags.isKeyword then "**" else "*")
    else if argSym.flags.isBlock ∧ ¬argSym.flags.isKeyword then "&"
    else ""
  let suf :=
    if argSym.flags.isRepeated then ""
    else if argSym.flags.isKeyword then
      (if argSym.flags.isDefault then ": T.let(T.unsafe(nil), T.untyped)" else ":")
    else if argSym.flags.isBlock then ""
    else if argSym.flags.isDefault then "= T.let(T.unsafe(nil), T.untyped)"
    else ""
  pre ++ argSym.argName ++ suf

/-- RBIExporter::prettyDefForMethod: the def header with visibility and
self-qualification, re-wrapped one argument per line at the width
threshold.  dealiasMethod is the identity here, as the ENFORCE at the sig
call site asserts. -/
def prettyDefForMethod (gs : GlobalState) (method : Nat) : String :=
  let methodData := gs.syms method
  let visibility :=
    if methodData.mflags.isPrivate then "private "
    else if methodData.mflags.isProtected then "protected "
    else ""
  let methodName := methodData.name.str
  let methodSelfQual :=
    if (gs.syms methodData.owner).attachedClass ≠ none then "self." else ""
  let prettyArgs :=
    (methodData.arguments.filter (fun a => ¬a.flags.isSyntheticBlock)).map
      prettyArgOf
  let argHead := if prettyArgs.length > 0 then "(" else ""
  let argTail := if prettyArgs.length > 0 then ")" else ""
  let result := visibility ++ "def " ++ methodSelfQual ++ methodName ++ argHead ++
    String.intercalate ", " prettyArgs ++ argTail
  if prettyArgs.length > 0 ∧ result.length ≥ MAX_PRETTY_WIDTH then
    visibility ++ "def " ++ methodSelfQual ++ methodName ++ "(\n  " ++
      String.intercalate ",\n  " prettyArgs ++ "\n)"
  else result

/-- RBIExporter::typeDeclaration: the right-hand side printed for a field. -/
def typeDeclaration (gs : GlobalState) (t : Option RType) : String :=
  match t with
  | none => "T.let(T.unsafe(nil), " ++ gs.showT untypedUntracked ++ ")"
  | some (RType.aliasType s) => (gs.syms s).showStr
  | some t => "T.let(T.unsafe(nil), " ++ gs.showT t ++ ")"

/-- RBIExporter::showVariance.  The fixed branch casts the type member's
result type to LambdaParam; a non-LambdaParam there is unreachable and
yields the empty bound. -/
def showVariance (gs : GlobalState) (tm : Nat) : String :=
  if (gs.syms tm).tmIsFixed then
    match (gs.syms tm).resultType with
    | some (RType.lambdaParam _ _ upperBound) => "fixed: " ++ gs.toStringT upperBound
    | _ => "fixed: "
  else
    match (gs.syms tm).tmVariance with
    | VarianceK.coVariant => ":out"
    | VarianceK.invariant => ":invariant"
    | VarianceK.contraVariant => ":in"

/-- RBIExporter::shouldSkipMember. -/
def shouldSkipMember (n : NRef) : Bool :=
  n.unique || n = singletonName || n = attachedClassName || n = attachedName

/-- RBIExporter::emit(MethodRef): skip already-processed, static-init and
private methods; otherwise enqueue argument-type symbols and print sig and
header.  A null argument TypePtr is skipped by the enqueue (the source
never encounters one there). -/
def emitMethod (gs : GlobalState) (ctx : PkgCtx) (st : EmitState) (method : Nat) :
    EmitState :=
  if method ∈ st.emittedSymbols then st
  else if (gs.syms method).name = staticInitName then st
  else
    let st := { st with emittedSymbols := method :: st.emittedSymbols }
    if (gs.syms method).mflags.isPrivate then st
    else
      let st := (gs.syms method).arguments.foldl
        (fun s arg =>
          match arg.type with
          | some t => enqueueSymbolsInType gs ctx s t
          | none => s) st
      let st := { st with rendered := method :: st.rendered }
      let st :=
        if (gs.syms method).hasSig then
          let p := prettySigForMethod gs ctx st method (gs.syms method).resultType
          p.2.withOut (fun o => o.printlnInd p.1)
        else st
      st.withOut (fun o => o.printlnInd (prettyDefForMethod gs method ++ "; end"))

/-- The static-field suppression tests of RBIExporter::emit(FieldRef):
type_template companion aliases and TEnum-rewriter statics are not
printed. -/
def staticFieldSuppressed (gs : GlobalState) (field : Nat) : Bool :=
  match (gs.syms field).resultType with
  | some (RType.aliasType s) =>
      (gs.syms s).kind = SymKind.typeMember &&
      (gs.syms ((gs.syms s).owner)).isSingletonClass
  | some (RType.classType k) =>
      ((gs.syms k).superClass.bind (fun sk => (gs.syms sk).superClass)) =
        some tEnumSym
  | _ => false

/-- RBIExporter::emit(FieldRef, isCVar). -/
def emitField (gs : GlobalState) (st : EmitState) (field : Nat) (isCVar : Bool) :
    EmitState :=
  if ¬(gs.syms field).isFieldFlag then
    if staticFieldSuppressed gs field then st
    else
      let st := { st with rendered := field :: st.rendered }
      if isCVar then
        st.withOut (fun o => o.printlnRaw ((gs.syms field).name.str ++ " = " ++
          typeDeclaration gs (gs.syms field).resultType))
      else
        st.withOut (fun o => o.printlnRaw ((gs.syms field).showStr ++ " = " ++
          typeDeclaration gs (gs.syms field).resultType))
  else
    let st := { st with rendered := field :: st.rendered }
    st.withOut (fun o => o.printlnRaw ((gs.syms field).name.str ++ " = " ++
      typeDeclaration gs (gs.syms field).resultType))

/-- RBIExporter::emit(TypeMemberRef): visited-set guarded; the
compiler-attached AttachedClass pseudo-member is inserted but not
printed. -/
def emitTypeMember (gs : GlobalState) (st : EmitState) (tm : Nat) : EmitState :=
  if tm ∈ st.emittedSymbols then st
  else
    let st := { st with emittedSymbols := tm :: st.emittedSymbols }
    if (gs.syms tm).name = attachedClassName then st
    else
      let st := { st with rendered := tm :: st.rendered }
      if (gs.syms ((gs.syms tm).owner)).isSingletonClass then
        st.withOut (fun o => o.printlnRaw ((gs.syms tm).name.str ++
          " = type_template(" ++ showVariance gs tm ++ ")"))
      else
        st.withOut (fun o => o.printlnRaw ((gs.syms tm).name.str ++
          " = type_member(" ++ showVariance gs tm ++ ")"))

/-- Shared tail of maybeEmitInitialized: print the constructor header and
nest the collected instance fields in its body. -/
def renderInitBody (gs : GlobalState) (st : EmitState) (methodDef : String)
    (fields : List Nat) : EmitState :=
  if fields.isEmpty then st.withOut (fun o => o.printlnInd (methodDef ++ "; end"))
  else
    let st := st.withOut (fun o => o.printlnInd methodDef)
    let st := st.withOut Output.tab
    let st := fields.foldl (fun s f => emitField gs s f false) st
    let st := st.withOut Output.untab
    st.withOut (fun o => o.printlnInd "end")

/-- RBIExporter::maybeEmitInitialized: constructor synthesis (spec 4.4a). -/
def maybeEmitInitialized (gs : GlobalState) (ctx : PkgCtx) (st : EmitState)
    (method : Option Nat) (fields : List Nat) : EmitState :=
  match method with
  | none =>
      if fields.isEmpty then st
      else
        let st := st.withOut (fun o => o.printlnInd "sig \x7bvoid\x7d")
        renderInitBody gs st "def initialize" fields
  | some m =>
      if (gs.syms ((gs.syms m).owner)).superClass = some tStructSym then st
      else
        let st :=
          if (gs.syms m).hasSig then
            let p := prettySigForMethod gs ctx st m (gs.syms m).resultType
            p.2.withOut (fun o => o.printlnInd p.1)
          else st
        let st := { st with rendered := m :: st.rendered }
        renderInitBody gs st (prettyDefForMethod gs m) fields

/-- Accumulator of the member iteration of a class body: emitter state plus
the deferred initialize method, instance fields and enum-value classes. -/
structure MemberAcc where
  st : EmitState
  initMethod : Option Nat
  pendingFields : List Nat
  pendingEnums : List Nat

/-- The member iteration of RBIExporter::emit(ClassOrModuleRef) over
membersStableOrderSlow: route each member by kind, deferring `initialize`
and instance fields, collecting enum-value classes. -/
def processMembers (gs : GlobalState) (ctx : PkgCtx) (klass : Nat) (isEnum : Bool) :
    MemberAcc → List (NRef × Nat) → MemberAcc
  | acc, [] => acc
  | acc, (nm, member) :: rest =>
      let acc' :=
        if shouldSkipMember nm then acc
        else
          match (gs.syms member).kind with
          | SymKind.classOrModule =>
              if isEnum ∧ (gs.syms member).superClass = some klass then
                { acc with pendingEnums := acc.pendingEnums ++ [member] }
              else { acc with st := maybeEmit gs ctx acc.st member }
          | SymKind.typeMember => acc
          | SymKind.typeArgument => acc
          | SymKind.method =>
              if nm = initializeName then { acc with initMethod := some member }
              else { acc with st := emitMethod gs ctx acc.st member }
          | SymKind.fieldOrStaticField =>
              if (gs.syms member).isFieldFlag then
                { acc with pendingFields := acc.pendingFields ++ [member] }
              else if (gs.syms member).name.str.startsWith "@@" then
                { acc with st := emitField gs acc.st member true }
              else { acc with st := maybeEmit gs ctx acc.st member }
      processMembers gs ctx klass isEnum acc' rest

/-- The member iteration over the singleton (static) scope of a class. -/
def processSingletonMembers (gs : GlobalState) (ctx : PkgCtx) (isEnum : Bool) :
    EmitState → List (NRef × Nat) → EmitState
  | st, [] => st
  | st, (nm, member) :: rest =>
      let st' :=
        if shouldSkipMember nm then st
        else
          match (gs.syms member).kind with
          | SymKind.classOrModule => maybeEmit gs ctx st member
          | SymKind.typeMember => st
          | SymKind.typeArgument => st
          | SymKind.method =>
              if isEnum ∧ nm = sealedSubclassesName then st
              else emitMethod gs ctx st member
          | SymKind.fieldOrStaticField =>
              if (gs.syms member).isFieldFlag then emitField gs st member false
              else if (gs.syms member).name.str.startsWith "@@" then
                emitField gs st member true
              else maybeEmit gs ctx st member
      processSingletonMembers gs ctx isEnum st' rest

/-- Mixin lines of the main class scope: include/extend by singleton-ness,
then enqueue the mixin. -/
def emitMixins (gs : GlobalState) (ctx : PkgCtx) :
    EmitState → List Nat → EmitState
  | st, [] => st
  | st, mixin :: rest =>
      let keyword := if (gs.syms mixin).isSingletonClass then "extend" else "include"
      let st := st.withOut (fun o =>
        o.printlnRaw (keyword ++ " " ++ (gs.syms mixin).showStr))
      emitMixins gs ctx (maybeEmit gs ctx st mixin) rest

/-- Mixin lines of the singleton scope (always extend). -/
def emitSingletonMixins (gs : GlobalState) (ctx : PkgCtx) :
    EmitState → List Nat → EmitState
  | st, [] => st
  | st, mixin :: rest =>
      let st := st.withOut (fun o =>
        o.printlnRaw ("extend " ++ (gs.syms mixin).showStr))
      emitSingletonMixins gs ctx (maybeEmit gs ctx st mixin) rest

def emitTypeMembersList (gs : GlobalState) :
    EmitState → List Nat → EmitState
  | st, [] => st
  | st, tm :: rest => emitTypeMembersList gs (emitTypeMember gs st tm) rest

def emitEnumValues (gs : GlobalState) : EmitState → List Nat → EmitState
  | st, [] => st
  | st, enumVal :: rest =>
      emitEnumValues gs
        (st.withOut (fun o =>
          o.printlnRaw ((gs.syms enumVal).name.str ++ " = new"))) rest

/-- The `class|module Name [< Superclass]` declaration line, enqueueing the
superclass unless it is the synthetic implicit module base. -/
def classSuperLine (gs : GlobalState) (ctx : PkgCtx) (st : EmitState)
    (klass : Nat) : EmitState :=
  let defType := if (gs.syms klass).isClassKind then "class" else "module"
  let fullName := (gs.syms klass).showStr
  match (gs.syms klass).superClass with
  | some sup =>
      if sup ≠ implicitModuleSuperClassSym then
        (maybeEmit gs ctx st sup).withOut (fun o =>
          o.printlnRaw (defType ++ " " ++ fullName ++
            (" < " ++ (gs.syms sup).showStr)))
      else st.withOut (fun o => o.printlnRaw (defType ++ " " ++ fullName))
  | none => st.withOut (fun o => o.printlnRaw (defType ++ " " ++ fullName))

/-- The abstract!/final!/interface!/sealed! modifier lines. -/
def classFlagLines (gs : GlobalState) (st : EmitState) (klass : Nat) :
    EmitState :=
  let st := if (gs.syms klass).isAbstractC then
      st.withOut (fun o => o.printlnInd "abstract!") else st
  let st := if (gs.syms klass).isFinalC then
      st.withOut (fun o => o.printlnInd "final!") else st
  let st := if (gs.syms klass).isInterfaceC then
      st.withOut (fun o => o.printlnInd "interface!") else st
  if (gs.syms klass).isSealedC then
    st.withOut (fun o => o.printlnInd "sealed!") else st

/-- The singleton (static) scope section: mixins, type templates and
members of the singleton class, when one exists. -/
def classSingletonSection (gs : GlobalState) (ctx : PkgCtx) (isEnum : Bool)
    (st : EmitState) (klass : Nat) : EmitState :=
  match (gs.syms klass).singletonClassOf with
  | some singletonK =>
      let st := emitSingletonMixins gs ctx st (gs.syms singletonK).mixins
      let st := emitTypeMembersList gs st (gs.syms singletonK).typeMembers
      processSingletonMembers gs ctx isEnum st (gs.syms singletonK).members
  | none => st

/-- The `enums do ... end` closing block of an enum-like class. -/
def classEnumBlock (gs : GlobalState) (isEnum : Bool) (pendingEnums : List Nat)
    (st : EmitState) : EmitState :=
  if isEnum ∧ ¬pendingEnums.isEmpty then
    let st := st.withOut (fun o => o.printlnInd "enums do")
    let st := st.withOut Output.tab
    let st := emitEnumValues gs st pendingEnums
    let st := st.withOut Output.untab
    st.withOut (fun o => o.printlnInd "end")
  else st

/-- The body of RBIExporter::emit(ClassOrModuleRef) after its guard: the
class/module declaration with flags, mixins, type members, members,
synthesized constructor, singleton scope and enum block. -/
def emitClassBody (gs : GlobalState) (ctx : PkgCtx) (st : EmitState)
    (klass : Nat) : EmitState :=
  let st := { st with bodyDone := klass :: st.bodyDone }
  if ((gs.syms klass).superClass.bind (fun s => (gs.syms s).superClass)) =
      some tEnumSym then
    st
  else
    let isEnum := (gs.syms klass).superClass = some tEnumSym
    let st := { st with rendered := klass :: st.rendered }
    let st := classSuperLine gs ctx st klass
    let st := st.withOut Output.tab
    let st := classFlagLines gs st klass
    let st := emitMixins gs ctx st (gs.syms klass).mixins
    let st := emitTypeMembersList gs st (gs.syms klass).typeMembers
    let acc := processMembers gs ctx klass isEnum ⟨st, none, [], []⟩
      (gs.syms klass).members
    let st := { acc.st with initRan := klass :: acc.st.initRan }
    let st := maybeEmitInitialized gs ctx st acc.initMethod acc.pendingFields
    let st := classSingletonSection gs ctx isEnum st klass
    let st := classEnumBlock gs isEnum acc.pendingEnums st
    let st := st.withOut Output.untab
    st.withOut (fun o => o.printlnInd "end")

/-- RBIExporter::emit(ClassOrModuleRef): raise "Invalid klass" unless the
class is in-package and already in the visited set. -/
def emitClass (gs : GlobalState) (ctx : PkgCtx) (st : EmitState) (klass : Nat) :
    Except Unit EmitState :=
  if ¬(isInPackage gs ctx klass ∧ klass ∈ st.emittedSymbols) then
    Except.error ()
  else
    Except.ok (emitClassBody gs ctx st klass)

/-- RBIExporter::emitLoop: drain the LIFO worklist, dispatching on symbol
kind (type members and type arguments popped from the list are dropped).
Fuel bounds the iteration count; the C++ loop terminates because the
symbol table is finite. -/
def emitLoop (gs : GlobalState) (ctx : PkgCtx) :
    Nat → EmitState → Except Unit EmitState
  | 0, st => Except.ok st
  | Nat.succ fuel, st =>
      match st.toEmit with
      | [] => Except.ok st
      | symbol :: rest =>
          let st := { st with toEmit := rest }
          match (gs.syms symbol).kind with
          | SymKind.classOrModule =>
              (emitClass gs ctx st symbol).bind (emitLoop gs ctx fuel)
          | SymKind.method => emitLoop gs ctx fuel (emitMethod gs ctx st symbol)
          | SymKind.fieldOrStaticField =>
              emitLoop gs ctx fuel (emitField gs st symbol false)
          | SymKind.typeMember => emitLoop gs ctx fuel st
          | SymKind.typeArgument => emitLoop gs ctx fuel st

/-- RBIGenerator::RBIOutput plus ghost observations: the rendering trace at
the end of the regular pass and the final emitter state. -/
structure RBIOutput where
  baseFilePath : String
  rbi : String
  testRBI : String
  renderedAfterRegular : List Nat
  finalState : EmitState
deriving DecidableEq

/-- The exporter's package context: resolve the package namespace and its
Test:: variant (getPkgTestNamespace prepends the Test name). -/
def mkPkgCtx (gs : GlobalState) (pkg : PackageInfo) (namespaces : List Nat) :
    PkgCtx :=
  ⟨lookupFQN gs pkg.fullName,
   lookupFQN gs (testNamespaceName :: pkg.fullName),
   namespaces⟩

/-- The export-routing pass of RBIExporter::emit: resolve each regular
export path, dropping unresolved ones, and divert symbols under the test
namespace into the test-export list. -/
def routeExports (gs : GlobalState) (ctx : PkgCtx) (paths : List (List NRef)) :
    List Nat × List Nat :=
  paths.foldl
    (fun acc e =>
      match lookupFQN gs e with
      | some exportSymbol =>
          if isInTestPackage gs ctx exportSymbol then
            (acc.1, acc.2 ++ [exportSymbol])
          else (acc.1 ++ [exportSymbol], acc.2)
      | none => acc)
    ([], [])

/-- RBIExporter::emit (the public entry): run the regular-export pass and
then the test-export pass on the same exporter state, capturing each
pass's accumulated text.  The regular blob is produced whenever the
resolved regular export list is non-empty; the test blob additionally
requires non-empty text. -/
def regularPass (gs : GlobalState) (ctx : PkgCtx) (exportsR : List Nat)
    (fuel : Nat) : Except Unit (String × EmitState) :=
  if exportsR.isEmpty then Except.ok ("", initialEmitState)
  else
    match emitLoop gs ctx fuel
        (exportsR.foldl (maybeEmit gs ctx) initialEmitState) with
    | Except.error e => Except.error e
    | Except.ok st =>
        let p := st.out.takeString
        Except.ok ("# typed: true\n\n" ++ p.1, { st with out := p.2 })

def testPass (gs : GlobalState) (ctx : PkgCtx) (testExports : List Nat)
    (fuel : Nat) (st1 : EmitState) : Except Unit (String × EmitState) :=
  if testExports.isEmpty then Except.ok ("", st1)
  else
    match emitLoop gs ctx fuel (testExports.foldl (maybeEmit gs ctx) st1) with
    | Except.error e => Except.error e
    | Except.ok st =>
        let p := st.out.takeString
        Except.ok ((if p.1 = "" then "" else "# typed: true\n\n" ++ p.1),
          { st with out := p.2 })

def exporterEmit (gs : GlobalState) (pkg : PackageInfo) (namespaces : List Nat)
    (fuel : Nat) : Except Unit RBIOutput :=
  let ctx := mkPkgCtx gs pkg namespaces
  let routed := routeExports gs ctx pkg.exportsL
  let exportsR := routed.1
  let testExports := routed.2 ++ pkg.testExportsL.filterMap (lookupFQN gs)
  match regularPass gs ctx exportsR fuel with
  | Except.error e => Except.error e
  | Except.ok p1 =>
      match testPass gs ctx testExports fuel p1.2 with
      | Except.error e => Except.error e
      | Except.ok p2 =>
          Except.ok ⟨pkg.mangledStr, p1.1, p2.1, p1.2.rendered, p2.2⟩

/-- RBIGenerator::runOnce: build one exporter for the package against the
global namespace set and run it. -/
def runOnce (gs : GlobalState) (pkg : PackageInfo) (namespaces : List Nat)
    (fuel : Nat) : Except Unit RBIOutput :=
  exporterEmit gs pkg namespaces fuel

/-- Build a GlobalState from a finite symbol table (ids beyond the table
are the inert default symbol); the two well-foundedness conditions only
have to be checked on the table. -/
def mkGS (table : List SymData) (showT toStringT : RType → String)
    (h1 : ∀ s < table.length, 2 ≤ s → (table.getD s defaultSymData).owner < s)
    (h2 : ∀ s < table.length, ∀ a,
      (table.getD s defaultSymData).attachedClass = some a → a < s) :
    GlobalState where
  syms := fun s => table.getD s defaultSymData
  showT := showT
  toStringT := toStringT
  owner_lt := by
    intro s hs
    show (table.getD s defaultSymData).owner < s
    by_cases h : s < table.length
    · exact h1 s h hs
    · rw [List.getD_eq_default _ _ (by omega)]
      show defaultSymData.owner < s
      simp only [defaultSymData]
      omega
  attached_lt := by
    intro s a h
    replace h : (table.getD s defaultSymData).attachedClass = some a := h
    by_cases hl : s < table.length
    · exact h2 s hl a h
    · rw [List.getD_eq_default _ _ (by omega)] at h
      simp only [defaultSymData] at h
      exact absurd h (by simp)

-- Concrete models used by witnesses and counterexamples ---------------------

def nP : NRef := ⟨"P", false⟩
def nTest : NRef := ⟨"Test", false⟩
def nR : NRef := ⟨"R", false⟩
def nE : NRef := ⟨"E", false⟩
def nQ : NRef := ⟨"Q", false⟩

/-- Model A: a program with one package P (namespace symbol 6, test
namespace Test::P = symbol 8), a class P::R (9) whose superclass is the
test-namespace class Test::P::E (10), and a package-external class Q (12)
that is a member of the root. -/
def tableA : List SymData := [
  { defaultSymData with
      showStr := "<root>"
      members := [(nP, 6), (nTest, 7), (nQ, 12)] },
  { defaultSymData with showStr := "<PackageSpecRegistry>" },
  { defaultSymData with showStr := "T::Enum" },
  { defaultSymData with showStr := "T::Struct" },
  { defaultSymData with showStr := "ImplicitModuleSuperClass" },
  { defaultSymData with showStr := "void" },
  { defaultSymData with
      showStr := "P"
      name := nP
      members := [(nR, 9)] },
  { defaultSymData with
      showStr := "Test"
      name := nTest
      members := [(nP, 8)] },
  { defaultSymData with
      showStr := "Test::P"
      name := nP
      owner := 7
      members := [(nE, 10)] },
  { defaultSymData with
      showStr := "P::R"
      name := nR
      owner := 6
      superClass := some 10 },
  { defaultSymData with
      showStr := "Test::P::E"
      name := nE
      owner := 8
      superClass := some 4 },
  defaultSymData,
  { defaultSymData with
      showStr := "Q"
      name := nQ } ]

def gsA : GlobalState :=
  mkGS tableA (fun _ => "T.untyped") (fun _ => "T.untyped")
    (by decide) (by decide)

def pkgNamespacesA : List Nat := [6, 8]

/-- Package P exporting only the package-external class Q. -/
def pkgAQ : PackageInfo := ⟨"P_pkg", [nP], [[nQ]], []⟩

/-- Package P exporting P::R both regularly and as a test export. -/
def pkgARR : PackageInfo := ⟨"P_pkg", [nP], [[nP, nR]], [[nP, nR]]⟩

/-- Package P exporting P::R and the test-namespace class Test::P::E. -/
def pkgARE : PackageInfo := ⟨"P_pkg", [nP], [[nP, nR], [nTest, nP, nE]], []⟩

def ctxA : PkgCtx := mkPkgCtx gsA pkgAQ pkgNamespacesA

-- Specification-side definitions and observation helpers --------------------

-- The embedded-symbol list of a type, in traversal order: exactly the
-- symbols on which enqueueSymbolsInType calls maybeEmit.
mutual

def embeddedSyms : RType → List Nat
  | RType.aliasType symbol => [symbol]
  | RType.andType l r => embeddedSyms l ++ embeddedSyms r
  | RType.appliedType klass targs => klass :: embeddedSymsList targs
  | RType.blamedUntyped => []
  | RType.classType symbol => [symbol]
  | RType.literalType _ => []
  | RType.metaType wrapped => embeddedSyms wrapped
  | RType.orType l r => embeddedSyms l ++ embeddedSyms r
  | RType.selfType => []
  | RType.selfTypeParam definition => [definition]
  | RType.shapeType keys values =>
      embeddedSymsList keys ++ embeddedSymsList values
  | RType.tupleType elems => embeddedSymsList elems
  | RType.typeVar => []
  | RType.unresolvedAppliedType klass symbol targs =>
      klass :: symbol :: embeddedSymsList targs
  | RType.unresolvedClassType => []
  | RType.lambdaParam _ lowerBound upperBound =>
      embeddedSyms lowerBound ++ embeddedSyms upperBound

def embeddedSymsList : List RType → List Nat
  | [] => []
  | t :: rest => embeddedSyms t ++ embeddedSymsList rest

end

/-- The owner chain of a symbol up to (and including) the first of the
root / package-registry stop nodes. -/
def ancestorChain (gs : GlobalState) (s : Nat) : List Nat :=
  s :: (if s = rootSym ∨ s = pkgRegistrySym then []
    else ancestorChain gs (gs.syms s).owner)
termination_by s
decreasing_by
  refine gs.owner_lt s ?_
  simp only [rootSym, pkgRegistrySym] at *
  omega

/-- A node at which the ownership walk stops: the root, the registry, this
package's namespace or test namespace, or any registered package
namespace. -/
def stopsWalk (gs : GlobalState) (ctx : PkgCtx) (a : Nat) : Bool :=
  decide (a = rootSym ∨ a = pkgRegistrySym ∨ some a = ctx.pkgNamespace ∨
    some a = ctx.pkgTestNamespace ∨
    (isCoM gs a = true ∧ a ∈ ctx.pkgNamespaces))

/-- The specification reading of isInPackage (first-match-wins): find the
nearest stop node on the owner chain; the symbol is in-package exactly
when that node is this package's namespace or test namespace and not the
root or registry. -/
def isInPackageSpec (gs : GlobalState) (ctx : PkgCtx) (s : Nat) : Bool :=
  match (ancestorChain gs s).find? (stopsWalk gs ctx) with
  | some a =>
      decide (¬(a = rootSym ∨ a = pkgRegistrySym) ∧
        (some a = ctx.pkgNamespace ∨ some a = ctx.pkgTestNamespace))
  | none => false

def exceptOutput : Except Unit RBIOutput → Option RBIOutput
  | Except.ok o => some o
  | Except.error _ => none

def outRbiOf (r : Except Unit RBIOutput) : Option String :=
  (exceptOutput r).map RBIOutput.rbi

def outTestRbiOf (r : Except Unit RBIOutput) : Option String :=
  (exceptOutput r).map RBIOutput.testRBI

def outRenderedRegOf (r : Except Unit RBIOutput) : Option (List Nat) :=
  (exceptOutput r).map RBIOutput.renderedAfterRegular

/-- The symbols enqueued by the direct argument loop of emit(MethodRef), in
order. -/
def methodArgSyms (gs : GlobalState) (m : Nat) : List Nat :=
  ((gs.syms m).arguments.map (fun a =>
    match a.type with
    | some t => embeddedSyms t
    | none => [])).flatten

/-- The symbols enqueued by prettySigForMethod (return type first, then
each non-synthetic argument type), or none when the method has no sig. -/
def sigSymsRM (gs : GlobalState) (m : Nat) (r : Option RType) : List Nat :=
  embeddedSyms (sigRetTypeOf gs m r) ++
    (((gs.syms m).arguments.filter (fun a => ¬a.flags.isSyntheticBlock)).map
      (fun a => embeddedSyms (getResultTypeNR a.type))).flatten

def methodSigSyms (gs : GlobalState) (m : Nat) : List Nat :=
  if (gs.syms m).hasSig then sigSymsRM gs m (gs.syms m).resultType
  else []

/-- The sig text prettySigForMethod chooses. -/
def sigChosenOf (gs : GlobalState) (m : Nat) (r : Option RType) : String :=
  if (sigOnelineOf gs m r).length ≤ MAX_PRETTY_WIDTH ∧
      (sigArgTexts gs m).length ≤ MAX_PRETTY_SIG_ARGS then
    sigOnelineOf gs m r
  else sigMultilineOf gs m r

/-- The text a println of `s` appends at the given indent level (string
overload: embedded newlines re-indented). -/
def printedLine (indentLevel : Nat) (s : String) : String :=
  spacesStr (indentLevel * 2) ++
    (s.replace "\n" ("\n" ++ spacesStr (indentLevel * 2))) ++ "\n"

/-- The sig block emit(MethodRef) prints (empty without a sig). -/
def sigBlockOf (gs : GlobalState) (m : Nat) (indentLevel : Nat) : String :=
  if (gs.syms m).hasSig then
    printedLine indentLevel (sigChosenOf gs m (gs.syms m).resultType)
  else ""

/-- The def block emit(MethodRef) prints. -/
def defBlockOf (gs : GlobalState) (m : Nat) (indentLevel : Nat) : String :=
  printedLine indentLevel (prettyDefForMethod gs m ++ "; end")

-- C1 invariant: every worklist entry is already in the visited set and is
-- owned by the package; this is what makes the "Invalid klass" raise
-- unreachable.
def WorklistInv (gs : GlobalState) (ctx : PkgCtx) (st : EmitState) : Prop :=
  ∀ s ∈ st.toEmit, s ∈ st.emittedSymbols ∧ isInPackage gs ctx s = true

/-- A field symbol that the generator renders outside the worklist
(instance fields and class-variable statics). -/
def badFieldSym (gs : GlobalState) (s : Nat) : Bool :=
  (gs.syms s).kind = SymKind.fieldOrStaticField &&
    ((gs.syms s).isFieldFlag || (gs.syms s).name.str.startsWith "@@")

/-- Well-formedness of the external symbol table and the package's export
lists, as guaranteed by the resolver that builds them: member lists are
duplicate-free and a symbol occurs as a member in at most one place;
singleton classes are distinct from and determined by their attached
class; superclasses, mixins, attached classes, symbols embedded in
method types, and resolved export seeds are never instance fields or
class-variable statics (those are rendered only inside their owner's
body). -/
structure SymTableWF (gs : GlobalState) (pkg : PackageInfo) : Prop where
  membersSndNodup : ∀ c, ((gs.syms c).members.map Prod.snd).Nodup
  membersInj : ∀ c c' n n' m, (n, m) ∈ (gs.syms c).members →
    (n', m) ∈ (gs.syms c').members → c = c' ∧ n = n'
  singletonNe : ∀ c sc, (gs.syms c).singletonClassOf = some sc →
    sc ≠ c ∧ (gs.syms sc).isSingletonClass = true
  singletonInj : ∀ c c' sc, (gs.syms c).singletonClassOf = some sc →
    (gs.syms c').singletonClassOf = some sc → c = c'
  superNotBad : ∀ c sup, (gs.syms c).superClass = some sup →
    badFieldSym gs sup = false
  mixinsNotBad : ∀ c x, x ∈ (gs.syms c).mixins → badFieldSym gs x = false
  attachedNotBad : ∀ c a, (gs.syms c).attachedClass = some a →
    badFieldSym gs a = false
  argTypesNotBad : ∀ m a, a ∈ (gs.syms m).arguments → ∀ t, a.type = some t →
    ∀ x ∈ embeddedSyms t, badFieldSym gs x = false
  retTypeNotBad : ∀ m t, (gs.syms m).resultType = some t →
    ∀ x ∈ embeddedSyms t, badFieldSym gs x = false
  seedsNotBad : ∀ p s, p ∈ pkg.exportsL ++ pkg.testExportsL →
    lookupFQN gs p = some s → badFieldSym gs s = false
  typeMembersKind : ∀ c tm, tm ∈ (gs.syms c).typeMembers →
    (gs.syms tm).kind = SymKind.typeMember

/-- Model B: two methods for the signature formatter, one with five
non-synthetic arguments (6) and one with a single argument (7), both with
sigs and void result types. -/
def argAllFalse : ArgFlags := ⟨false, false, false, false, false⟩

def mkArg (s : String) : ArgInfo := ⟨s, some RType.blamedUntyped, argAllFalse⟩

def tableB : List SymData := [
  defaultSymData,
  defaultSymData,
  defaultSymData,
  defaultSymData,
  defaultSymData,
  defaultSymData,
  { defaultSymData with
      kind := SymKind.method
      name := ⟨"many", false⟩
      hasSig := true
      resultType := some voidType
      arguments := [mkArg "a", mkArg "b", mkArg "c", mkArg "d", mkArg "e"] },
  { defaultSymData with
      kind := SymKind.method
      name := ⟨"one", false⟩
      hasSig := true
      resultType := some voidType
      arguments := [mkArg "a"] },
  { defaultSymData with
      kind := SymKind.method
      name := ⟨"priv", false⟩
      mflags := ⟨true, false, false, false, false, false⟩
      arguments := [mkArg "a"] },
  { defaultSymData with
      kind := SymKind.method
      name := staticInitName } ]

def gsB : GlobalState :=
  mkGS tableB (fun _ => "T.untyped") (fun _ => "T.untyped")
    (by decide) (by decide)

def ctxB : PkgCtx := ⟨none, none, []⟩

/-- One emitter state extends another when each of the grow-only lists
(the visited set and the three ghost traces) has gained a prefix; the
worklist and output buffer are unconstrained. -/
def Extends (st' st : EmitState) : Prop :=
  (∃ p, st'.emittedSymbols = p ++ st.emittedSymbols) ∧
  (∃ p, st'.rendered = p ++ st.rendered) ∧
  (∃ p, st'.bodyDone = p ++ st.bodyDone) ∧
  (∃ p, st'.initRan = p ++ st.initRan)

def junkOutput : RBIOutput := ⟨"", "", "", [], initialEmitState⟩

def outOrJunk (r : Except Unit RBIOutput) : RBIOutput :=
  match r with
  | Except.ok o => o
  | Except.error _ => junkOutput

/-- The concrete run of package pkgARR (P::R exported regularly and as a
test export). -/
def oARR : RBIOutput := outOrJunk (exporterEmit gsA pkgARR pkgNamespacesA 50)

/-- The concrete run of package pkgAQ (only the foreign class Q exported). -/
def oAQ : RBIOutput := outOrJunk (exporterEmit gsA pkgAQ pkgNamespacesA 50)

/-- A body-position justification for a rendering event: the symbol sits in
the member list of a class whose body ran (under a non-initialize name
when it is a method), or in the member list of that class's singleton. -/
def DirectJust (gs : GlobalState) (st : EmitState) (s : Nat) : Prop :=
  ∃ c, c ∈ st.bodyDone ∧
    ((∃ n, (n, s) ∈ (gs.syms c).members ∧
      ((gs.syms s).kind = SymKind.method → n ≠ initializeName)) ∨
     (∃ sc, (gs.syms c).singletonClassOf = some sc ∧
       ∃ n, (n, s) ∈ (gs.syms sc).members))

/-- The constructor-synthesis justification: the symbol is the initialize
member of a class whose constructor phase ran. -/
def InitJust (gs : GlobalState) (st : EmitState) (s : Nat) : Prop :=
  ∃ c, c ∈ st.initRan ∧ (initializeName, s) ∈ (gs.syms c).members

/-- Why a symbol may legitimately sit in the rendering trace, by kind:
classes were popped and their body ran; methods were either directly
emitted (and are then in the visited set) or synthesized as constructors;
type members are visited-set guarded; worklist fields are visited-set
guarded and no longer pending, while instance/class-variable fields carry
a body position.  Type arguments are never rendered. -/
def RenderJust (gs : GlobalState) (st : EmitState) (s : Nat) : Prop :=
  match (gs.syms s).kind with
  | SymKind.classOrModule => s ∈ st.bodyDone
  | SymKind.method =>
      (s ∈ st.emittedSymbols ∧ DirectJust gs st s) ∨ InitJust gs st s
  | SymKind.typeMember => s ∈ st.emittedSymbols
  | SymKind.fieldOrStaticField =>
      if badFieldSym gs s then DirectJust gs st s
      else s ∈ st.emittedSymbols ∧ s ∉ st.toEmit
  | SymKind.typeArgument => False

/-- The no-duplicates invariant: the visited set, worklist and ghost
traces are duplicate-free, the worklist is visited, singleton-free and
free of body-rendered fields, ran bodies are popped non-singleton
classes, and every rendering event is justified. -/
structure KInv (gs : GlobalState) (st : EmitState) : Prop where
  emN : st.emittedSymbols.Nodup
  teN : st.toEmit.Nodup
  teE : ∀ s ∈ st.toEmit, s ∈ st.emittedSymbols
  teS : ∀ s ∈ st.toEmit, isSingletonCoM gs s = false
  teB : ∀ s ∈ st.toEmit, badFieldSym gs s = false
  rnN : st.rendered.Nodup
  bdN : st.bodyDone.Nodup
  bdE : ∀ c ∈ st.bodyDone, c ∈ st.emittedSymbols
  bdT : ∀ c ∈ st.bodyDone, c ∉ st.toEmit
  bdS : ∀ c ∈ st.bodyDone, (gs.syms c).isSingletonClass = false
  irB : ∀ c ∈ st.initRan, c ∈ st.bodyDone
  just : ∀ s ∈ st.rendered, RenderJust gs st s

/-- The state-evolution facts under which every rendering justification
persists: the visited set and the two body traces only grow, and every
worklist entry is an old entry or was unvisited before. -/
def KStep (st st' : EmitState) : Prop :=
  (∀ x ∈ st.emittedSymbols, x ∈ st'.emittedSymbols) ∧
  (∀ x ∈ st.bodyDone, x ∈ st'.bodyDone) ∧
  (∀ x ∈ st.initRan, x ∈ st'.initRan) ∧
  (∀ x ∈ st'.toEmit, x ∈ st.toEmit ∨ x ∉ st.emittedSymbols)

/-- A silent phase: justification-compatible evolution with the body
traces and the rendering trace untouched. -/
def KSil (st st' : EmitState) : Prop :=
  KStep st st' ∧ st'.bodyDone = st.bodyDone ∧ st'.initRan = st.initRan ∧
  st'.rendered = st.rendered

/-- A phase whose rendering events all satisfy P, with the body traces
untouched. -/
def KOut (P : Nat → Prop) (st st' : EmitState) : Prop :=
  KStep st st' ∧ st'.bodyDone = st.bodyDone ∧ st'.initRan = st.initRan ∧
  (∀ x ∈ st'.rendered, P x ∨ x ∈ st.rendered)

/-- Owner linkage, as the resolver guarantees it: a symbol listed in a
class's member table or type-member list is owned by that class and is
neither the root nor the package registry.  (Nothing is assumed about the
owner of a singleton class: in the real symbol table a singleton class is
entered as a sibling of its attached class, so its owner chain skips the
attached class itself.) -/
structure OwnerWF (gs : GlobalState) : Prop where
  membersOwner : ∀ c n s, (n, s) ∈ (gs.syms c).members →
    (gs.syms s).owner = c ∧ s ≠ rootSym ∧ s ≠ pkgRegistrySym
  typeMembersOwner : ∀ c tm, tm ∈ (gs.syms c).typeMembers →
    (gs.syms tm).owner = c ∧ tm ≠ rootSym ∧ tm ≠ pkgRegistrySym

/-- The boundary verdict the generator actually guarantees for a rendered
symbol: it is in-package, or it belongs to the singleton (static) scope of
an in-package class — the one scope whose owner-chain walk does not pass
through the class that caused the rendering. -/
def InPkgRender (gs : GlobalState) (ctx : PkgCtx) (s : Nat) : Prop :=
  isInPackage gs ctx s = true ∨
  ∃ c sc, (gs.syms c).singletonClassOf = some sc ∧
    ((∃ n, (n, s) ∈ (gs.syms sc).members) ∨ s ∈ (gs.syms sc).typeMembers) ∧
    isInPackage gs ctx c = true

/-- The positions from which emit(ClassOrModuleRef) renders a symbol: the
class itself, a method/field member of its main scope, one of its type
members, or the singleton scope. -/
def BodyPos (gs : GlobalState) (klass x : Nat) : Prop :=
  x = klass ∨
  ((∃ n, (n, x) ∈ (gs.syms klass).members) ∧
    ((gs.syms x).kind = SymKind.method ∨
      (gs.syms x).kind = SymKind.fieldOrStaticField)) ∨
  x ∈ (gs.syms klass).typeMembers ∨
  (∃ sc, (gs.syms klass).singletonClassOf = some sc ∧
    ((∃ n, (n, x) ∈ (gs.syms sc).members) ∨ x ∈ (gs.syms sc).typeMembers))

def nFoo : NRef := ⟨"foo", false⟩

/-- Model C: a package whose namespace module P (symbol 6) is itself
exported and carries a static method foo (symbol 8) on its singleton
class (symbol 7); the singleton is a sibling of P, as in the real symbol
table, so the owner chain of foo is foo → singleton → root. -/
def tableC : List SymData := [
  { defaultSymData with
      showStr := "<root>"
      members := [(nP, 6)] },
  defaultSymData,
  defaultSymData,
  defaultSymData,
  defaultSymData,
  defaultSymData,
  { defaultSymData with
      showStr := "P"
      name := nP
      isClassKind := false
      singletonClassOf := some 7 },
  { defaultSymData with
      showStr := "T.class_of(P)"
      name := nP
      isSingletonClass := true
      attachedClass := some 6
      members := [(nFoo, 8)] },
  { defaultSymData with
      kind := SymKind.method
      showStr := "P.foo"
      name := nFoo
      owner := 7 } ]

def gsC : GlobalState :=
  mkGS tableC (fun _ => "T.untyped") (fun _ => "T.untyped")
    (by decide) (by decide)

/-- Package P exporting its own namespace module. -/
def pkgC : PackageInfo := ⟨"P_pkg", [nP], [[nP]], []⟩

def nsC : List Nat := [6]

-- The owner-chain walks and the singleton redirection are compiled by
-- well-founded recursion; make them semireducible so that concrete runs
-- evaluate inside the kernel (decide) as well as in the compiler.
set_option allowUnsafeReducibility true in
attribute [semireducible] isInPackage isInTestPackage maybeEmit ancestorChain

set_option maxRecDepth 100000

-- Theorems -------------------------------------------------------------------

theorem enqueue_eq_foldl (gs : GlobalState) (ctx : PkgCtx) (st : EmitState)
    (t : RType) :
    enqueueSymbolsInType gs ctx st t =
      (embeddedSyms t).foldl (maybeEmit gs ctx) st := by
  refine enqueueSymbolsInType.induct gs ctx
    (fun st t => enqueueSymbolsInType gs ctx st t =
      (embeddedSyms t).foldl (maybeEmit gs ctx) st)
    (fun st ts => enqueueSymbolsList gs ctx st ts =
      (embeddedSymsList ts).foldl (maybeEmit gs ctx) st)
    ?_ ?_ ?_ ?_ ?_ ?_ ?_ ?_ ?_ ?_ ?_ ?_ ?_ ?_ ?_ ?_ ?_ ?_ st t <;>
    intros <;>
    simp_all [enqueueSymbolsInType, enqueueSymbolsList, embeddedSyms,
      embeddedSymsList, List.foldl_append]

theorem enqueueList_eq_foldl (gs : GlobalState) (ctx : PkgCtx) :
    ∀ (ts : List RType) (st : EmitState),
    enqueueSymbolsList gs ctx st ts =
      (embeddedSymsList ts).foldl (maybeEmit gs ctx) st := by
  intro ts
  induction ts with
  | nil => intro st; simp [enqueueSymbolsList, embeddedSymsList]
  | cons t rest ih =>
      intro st
      simp only [enqueueSymbolsList, embeddedSymsList, List.foldl_append]
      rw [ih, enqueue_eq_foldl]

/-- C6: isInPackage is the first-match-wins ownership test: walking the
owner chain toward the root, it answers false at the root or the package
registry, true when this package's namespace or test namespace is reached
first, false when another registered package namespace is reached first —
equivalently, the verdict is decided by the nearest stop node among the
symbol's ancestors. -/
theorem C6_first_match_ownership (gs : GlobalState) (ctx : PkgCtx) (s : Nat) :
    isInPackage gs ctx s = isInPackageSpec gs ctx s := by
  induction s using isInPackage.induct gs ctx with
  | case1 x hx =>
      rw [isInPackage, isInPackageSpec, ancestorChain]
      simp only [hx, if_pos, if_true]
      have hstop : stopsWalk gs ctx x = true := by
        simp [stopsWalk]
        tauto
      simp [List.find?, hstop, hx]
  | case2 x hx hns =>
      rw [isInPackage, isInPackageSpec, ancestorChain]
      have hstop : stopsWalk gs ctx x = true := by
        simp [stopsWalk]
        tauto
      simp [List.find?, hstop, hx, hns]
  | case3 x hx hns hmem =>
      rw [isInPackage, isInPackageSpec, ancestorChain]
      have hstop : stopsWalk gs ctx x = true := by
        simp [stopsWalk]
        tauto
      simp [List.find?, hstop, hx, hns, hmem]
  | case4 x hx hns hmem ih =>
      rw [isInPackage, isInPackageSpec, ancestorChain]
      have hstop : stopsWalk gs ctx x = false := by
        simp [stopsWalk]
        tauto
      simp only [hx, if_false, hns, hmem, if_neg, ite_false]
      rw [isInPackageSpec] at ih
      simp [List.find?, hstop, hx, hns, hmem]
      simpa using ih

/-- C3 (as stated, counterexample): on a bounded-parameter type the
traversal enqueues nothing — in particular it does not call maybeEmit on
the definition symbol 9, although 9 is eligible (unvisited and
in-package, so that maybeEmit would have changed the state); on a literal
type the underlying class is likewise not enqueued. -/
theorem C3_counterexample :
    enqueueSymbolsInType gsA ctxA initialEmitState
        (RType.lambdaParam 9 RType.typeVar RType.typeVar) = initialEmitState
    ∧ enqueueSymbolsInType gsA ctxA initialEmitState (RType.literalType 9) =
        initialEmitState
    ∧ maybeEmit gsA ctxA initialEmitState 9 ≠ initialEmitState
    ∧ isInPackage gsA ctxA 9 = true := by decide

/-- C3 (amended): the symbol-enqueueing traversal visits every sub-type
position of every composite variant and calls maybeEmit, in traversal
order, on exactly the embedded symbols — the aliased target, the applied
class, the plain class, the self-type-parameter's definition symbol, and
the unresolved-applied's class and symbol — while literal types (their
underlying class included), self-type, type-variable placeholders and
unresolved-class markers enqueue nothing, and a bounded-parameter
recurses into both bounds without enqueueing its definition symbol. -/
theorem C3_enqueue_traversal (gs : GlobalState) (ctx : PkgCtx) (st : EmitState)
    (t : RType) :
    enqueueSymbolsInType gs ctx st t =
      (embeddedSyms t).foldl (maybeEmit gs ctx) st :=
  enqueue_eq_foldl gs ctx st t

theorem Extends.rfl (st : EmitState) : Extends st st :=
  ⟨⟨[], by simp⟩, ⟨[], by simp⟩, ⟨[], by simp⟩, ⟨[], by simp⟩⟩

theorem Extends.trans {c b a : EmitState} (h1 : Extends c b) (h2 : Extends b a) :
    Extends c a := by
  obtain ⟨⟨p1, e1⟩, ⟨p2, e2⟩, ⟨p3, e3⟩, ⟨p4, e4⟩⟩ := h1
  obtain ⟨⟨q1, f1⟩, ⟨q2, f2⟩, ⟨q3, f3⟩, ⟨q4, f4⟩⟩ := h2
  exact ⟨⟨p1 ++ q1, by simp [e1, f1]⟩, ⟨p2 ++ q2, by simp [e2, f2]⟩,
    ⟨p3 ++ q3, by simp [e3, f3]⟩, ⟨p4 ++ q4, by simp [e4, f4]⟩⟩

theorem extends_emitted_mem {st' st : EmitState} (h : Extends st' st) :
    ∀ x ∈ st.emittedSymbols, x ∈ st'.emittedSymbols := by
  obtain ⟨⟨p, e⟩, _, _, _⟩ := h
  intro x hx
  simp [e, hx]

theorem foldl_extends {α : Type} (f : EmitState → α → EmitState)
    (hf : ∀ st x, Extends (f st x) st) :
    ∀ (l : List α) (st : EmitState), Extends (l.foldl f st) st := by
  intro l
  induction l with
  | nil => intro st; exact Extends.rfl st
  | cons x rest ih =>
      intro st
      simpa using Extends.trans (ih (f st x)) (hf st x)

theorem maybeEmit_extends (gs : GlobalState) (ctx : PkgCtx) (st : EmitState)
    (s : Nat) : Extends (maybeEmit gs ctx st s) st := by
  induction s using maybeEmit.induct gs ctx st with
  | case1 x hx a ha ih =>
      rw [maybeEmit]
      simp only [hx, if_true]
      split
      · next a' ha' =>
          rw [ha'] at ha
          injection ha with haa
          subst haa
          exact ih
      · next ha' => rw [ha'] at ha; simp at ha
  | case2 x hx ha =>
      rw [maybeEmit]
      simp only [hx, if_true]
      split
      · next a' ha' => rw [ha'] at ha; simp at ha
      · next _ => exact Extends.rfl st
  | case3 x hx hcond =>
      rw [maybeEmit]
      simp only [hx, Bool.false_eq_true, if_false, hcond, if_pos]
      exact ⟨⟨[x], by simp⟩, ⟨[], by simp⟩, ⟨[], by simp⟩, ⟨[], by simp⟩⟩
  | case4 x hx hcond =>
      rw [maybeEmit]
      simp only [hx, Bool.false_eq_true, if_false, hcond, if_neg]
      exact Extends.rfl st

theorem enqueue_extends (gs : GlobalState) (ctx : PkgCtx) (st : EmitState)
    (t : RType) : Extends (enqueueSymbolsInType gs ctx st t) st := by
  rw [enqueue_eq_foldl]
  exact foldl_extends _ (fun st x => maybeEmit_extends gs ctx st x) _ st

theorem withOut_extends (st : EmitState) (f : Output → Output) :
    Extends (st.withOut f) st :=
  ⟨⟨[], by simp [EmitState.withOut]⟩, ⟨[], by simp [EmitState.withOut]⟩,
   ⟨[], by simp [EmitState.withOut]⟩, ⟨[], by simp [EmitState.withOut]⟩⟩

theorem prettySig_extends (gs : GlobalState) (ctx : PkgCtx) (st : EmitState)
    (m : Nat) (r : Option RType) :
    Extends (prettySigForMethod gs ctx st m r).2 st := by
  rw [prettySigForMethod]
  have hbase : Extends ((gs.syms m).arguments.foldl
      (fun s argSym =>
        if argSym.flags.isSyntheticBlock then s
        else enqueueSymbolsInType gs ctx s (getResultTypeNR argSym.type))
      (enqueueSymbolsInType gs ctx st (sigRetTypeOf gs m r))) st := by
    refine Extends.trans (foldl_extends _ (fun s a => ?_) _ _)
      (enqueue_extends gs ctx st _)
    by_cases h : a.flags.isSyntheticBlock
    · simp only [h]; exact Extends.rfl s
    · simp only [h]; exact enqueue_extends gs ctx s _
  split
  · exact hbase
  · exact hbase

theorem emitMethod_extends (gs : GlobalState) (ctx : PkgCtx) (st : EmitState)
    (m : Nat) : Extends (emitMethod gs ctx st m) st := by
  rw [emitMethod]
  split
  · exact Extends.rfl st
  · split
    · exact Extends.rfl st
    · split
      · exact ⟨⟨[m], by simp⟩, ⟨[], by simp⟩, ⟨[], by simp⟩, ⟨[], by simp⟩⟩
      · refine Extends.trans (withOut_extends _ _) ?_
        have harg : ∀ (s : EmitState) (a : ArgInfo),
            Extends (match a.type with
              | some t => enqueueSymbolsInType gs ctx s t
              | none => s) s := by
          intro s a
          match a.type with
          | some t => exact enqueue_extends gs ctx s t
          | none => exact Extends.rfl s
        have h1 : Extends ((gs.syms m).arguments.foldl
            (fun s arg =>
              match arg.type with
              | some t => enqueueSymbolsInType gs ctx s t
              | none => s)
            { st with emittedSymbols := m :: st.emittedSymbols }) st := by
          refine Extends.trans (foldl_extends _ harg _ _) ?_
          exact ⟨⟨[m], by simp⟩, ⟨[], by simp⟩, ⟨[], by simp⟩, ⟨[], by simp⟩⟩
        set stA := (gs.syms m).arguments.foldl
            (fun s arg =>
              match arg.type with
              | some t => enqueueSymbolsInType gs ctx s t
              | none => s)
            { st with emittedSymbols := m :: st.emittedSymbols } with hstA
        have h2 : Extends { stA with rendered := m :: stA.rendered } st := by
          refine Extends.trans ?_ h1
          exact ⟨⟨[], by simp⟩, ⟨[m], by simp⟩, ⟨[], by simp⟩, ⟨[], by simp⟩⟩
        split
        · refine Extends.trans (withOut_extends _ _) ?_
          exact Extends.trans (prettySig_extends gs ctx _ m _) h2
        · exact h2

theorem emitField_extends (gs : GlobalState) (st : EmitState) (f : Nat)
    (isCVar : Bool) : Extends (emitField gs st f isCVar) st := by
  rw [emitField]
  have hmark : Extends { st with rendered := f :: st.rendered } st :=
    ⟨⟨[], by simp⟩, ⟨[f], by simp⟩, ⟨[], by simp⟩, ⟨[], by simp⟩⟩
  split
  · split
    · exact Extends.rfl st
    · split
      · exact Extends.trans (withOut_extends _ _) hmark
      · exact Extends.trans (withOut_extends _ _) hmark
  · exact Extends.trans (withOut_extends _ _) hmark

theorem emitTypeMember_extends (gs : GlobalState) (st : EmitState) (tm : Nat) :
    Extends (emitTypeMember gs st tm) st := by
  rw [emitTypeMember]
  have hins : Extends { st with emittedSymbols := tm :: st.emittedSymbols } st :=
    ⟨⟨[tm], by simp⟩, ⟨[], by simp⟩, ⟨[], by simp⟩, ⟨[], by simp⟩⟩
  have hmark : Extends
      { st with
          emittedSymbols := tm :: st.emittedSymbols
          rendered := tm :: st.rendered } st :=
    ⟨⟨[tm], by simp⟩, ⟨[tm], by simp⟩, ⟨[], by simp⟩, ⟨[], by simp⟩⟩
  split
  · exact Extends.rfl st
  · split
    · exact hins
    · split
      · exact Extends.trans (withOut_extends _ _) hmark
      · exact Extends.trans (withOut_extends _ _) hmark

theorem renderInitBody_extends (gs : GlobalState) (st : EmitState)
    (methodDef : String) (fields : List Nat) :
    Extends (renderInitBody gs st methodDef fields) st := by
  rw [renderInitBody]
  split
  · exact withOut_extends _ _
  · refine Extends.trans (withOut_extends _ _) ?_
    refine Extends.trans (withOut_extends _ _) ?_
    refine Extends.trans (foldl_extends _ (fun s f => emitField_extends gs s f false) _ _) ?_
    exact Extends.trans (withOut_extends _ _) (withOut_extends _ _)

theorem maybeEmitInitialized_extends (gs : GlobalState) (ctx : PkgCtx)
    (st : EmitState) (method : Option Nat) (fields : List Nat) :
    Extends (maybeEmitInitialized gs ctx st method fields) st := by
  cases method with
  | none =>
      rw [maybeEmitInitialized]
      split
      · exact Extends.rfl st
      · exact Extends.trans (renderInitBody_extends gs _ _ _) (withOut_extends _ _)
  | some m =>
      rw [maybeEmitInitialized]
      split
      · exact Extends.rfl st
      · refine Extends.trans (renderInitBody_extends gs _ _ _) ?_
        have hmark : ∀ s : EmitState, Extends { s with rendered := m :: s.rendered } s :=
          fun s => ⟨⟨[], by simp⟩, ⟨[m], by simp⟩, ⟨[], by simp⟩, ⟨[], by simp⟩⟩
        split
        · exact Extends.trans (hmark _)
            (Extends.trans (withOut_extends _ _) (prettySig_extends gs ctx st m _))
        · exact hmark st

theorem emitMixins_extends (gs : GlobalState) (ctx : PkgCtx) :
    ∀ (l : List Nat) (st : EmitState), Extends (emitMixins gs ctx st l) st := by
  intro l
  induction l with
  | nil => intro st; exact Extends.rfl st
  | cons x rest ih =>
      intro st
      rw [emitMixins]
      exact Extends.trans (ih _)
        (Extends.trans (maybeEmit_extends gs ctx _ x) (withOut_extends _ _))

theorem emitSingletonMixins_extends (gs : GlobalState) (ctx : PkgCtx) :
    ∀ (l : List Nat) (st : EmitState),
    Extends (emitSingletonMixins gs ctx st l) st := by
  intro l
  induction l with
  | nil => intro st; exact Extends.rfl st
  | cons x rest ih =>
      intro st
      rw [emitSingletonMixins]
      exact Extends.trans (ih _)
        (Extends.trans (maybeEmit_extends gs ctx _ x) (withOut_extends _ _))

theorem emitTypeMembersList_extends (gs : GlobalState) :
    ∀ (l : List Nat) (st : EmitState),
    Extends (emitTypeMembersList gs st l) st := by
  intro l
  induction l with
  | nil => intro st; exact Extends.rfl st
  | cons x rest ih =>
      intro st
      rw [emitTypeMembersList]
      exact Extends.trans (ih _) (emitTypeMember_extends gs st x)

theorem emitEnumValues_extends (gs : GlobalState) :
    ∀ (l : List Nat) (st : EmitState), Extends (emitEnumValues gs st l) st := by
  intro l
  induction l with
  | nil => intro st; exact Extends.rfl st
  | cons x rest ih =>
      intro st
      rw [emitEnumValues]
      exact Extends.trans (ih _) (withOut_extends _ _)

theorem processMembers_extends (gs : GlobalState) (ctx : PkgCtx) (klass : Nat)
    (isEnum : Bool) :
    ∀ (l : List (NRef × Nat)) (acc : MemberAcc),
    Extends (processMembers gs ctx klass isEnum acc l).st acc.st := by
  intro l
  induction l with
  | nil => intro acc; exact Extends.rfl acc.st
  | cons p rest ih =>
      intro acc
      rw [processMembers]
      refine Extends.trans (ih _) ?_
      split
      · exact Extends.rfl acc.st
      · split
        · split
          · exact Extends.rfl acc.st
          · exact maybeEmit_extends gs ctx acc.st _
        · exact Extends.rfl acc.st
        · exact Extends.rfl acc.st
        · split
          · exact Extends.rfl acc.st
          · exact emitMethod_extends gs ctx acc.st _
        · split
          · exact Extends.rfl acc.st
          · split
            · exact emitField_extends gs acc.st _ true
            · exact maybeEmit_extends gs ctx acc.st _

theorem processSingletonMembers_extends (gs : GlobalState) (ctx : PkgCtx)
    (isEnum : Bool) :
    ∀ (l : List (NRef × Nat)) (st : EmitState),
    Extends (processSingletonMembers gs ctx isEnum st l) st := by
  intro l
  induction l with
  | nil => intro st; exact Extends.rfl st
  | cons p rest ih =>
      intro st
      rw [processSingletonMembers]
      refine Extends.trans (ih _) ?_
      split
      · exact Extends.rfl st
      · split
        · exact maybeEmit_extends gs ctx st _
        · exact Extends.rfl st
        · exact Extends.rfl st
        · split
          · exact Extends.rfl st
          · exact emitMethod_extends gs ctx st _
        · split
          · exact emitField_extends gs st _ false
          · split
            · exact emitField_extends gs st _ true
            · exact maybeEmit_extends gs ctx st _

theorem classSuperLine_extends (gs : GlobalState) (ctx : PkgCtx)
    (st : EmitState) (klass : Nat) : Extends (classSuperLine gs ctx st klass) st := by
  rw [classSuperLine]
  split
  · split
    · exact Extends.trans (withOut_extends _ _) (maybeEmit_extends gs ctx st _)
    · exact withOut_extends _ _
  · exact withOut_extends _ _

theorem ite_withOut_extends (a : EmitState) (c : Prop) [Decidable c]
    (f : Output → Output) : Extends (if c then a.withOut f else a) a := by
  split
  · exact withOut_extends a f
  · exact Extends.rfl a

theorem classFlagLines_extends (gs : GlobalState) (st : EmitState)
    (klass : Nat) : Extends (classFlagLines gs st klass) st := by
  rw [classFlagLines]
  refine Extends.trans (ite_withOut_extends _ _ _) ?_
  refine Extends.trans (ite_withOut_extends _ _ _) ?_
  exact Extends.trans (ite_withOut_extends _ _ _) (ite_withOut_extends _ _ _)

theorem classSingletonSection_extends (gs : GlobalState) (ctx : PkgCtx)
    (isEnum : Bool) (st : EmitState) (klass : Nat) :
    Extends (classSingletonSection gs ctx isEnum st klass) st := by
  rw [classSingletonSection]
  split
  · exact Extends.trans (processSingletonMembers_extends gs ctx isEnum _ _)
      (Extends.trans (emitTypeMembersList_extends gs _ _)
        (emitSingletonMixins_extends gs ctx _ st))
  · exact Extends.rfl st

theorem classEnumBlock_extends (gs : GlobalState) (isEnum : Bool)
    (pendingEnums : List Nat) (st : EmitState) :
    Extends (classEnumBlock gs isEnum pendingEnums st) st := by
  rw [classEnumBlock]
  split
  · refine Extends.trans (withOut_extends _ _) ?_
    refine Extends.trans (withOut_extends _ _) ?_
    refine Extends.trans (emitEnumValues_extends gs _ _) ?_
    exact Extends.trans (withOut_extends _ _) (withOut_extends _ _)
  · exact Extends.rfl st

theorem mark_bodyDone_extends (a : EmitState) (k : Nat) :
    Extends { a with bodyDone := k :: a.bodyDone } a :=
  ⟨⟨[], by simp⟩, ⟨[], by simp⟩, ⟨[k], by simp⟩, ⟨[], by simp⟩⟩

theorem mark_rendered_extends (a : EmitState) (k : Nat) :
    Extends { a with rendered := k :: a.rendered } a :=
  ⟨⟨[], by simp⟩, ⟨[k], by simp⟩, ⟨[], by simp⟩, ⟨[], by simp⟩⟩

theorem mark_initRan_extends (a : EmitState) (k : Nat) :
    Extends { a with initRan := k :: a.initRan } a :=
  ⟨⟨[], by simp⟩, ⟨[], by simp⟩, ⟨[], by simp⟩, ⟨[k], by simp⟩⟩

theorem emitClassBody_extends (gs : GlobalState) (ctx : PkgCtx) (st : EmitState)
    (klass : Nat) : Extends (emitClassBody gs ctx st klass) st := by
  rw [emitClassBody]
  split
  · exact mark_bodyDone_extends st klass
  · refine Extends.trans (withOut_extends _ _) ?_
    refine Extends.trans (withOut_extends _ _) ?_
    refine Extends.trans (classEnumBlock_extends gs _ _ _) ?_
    refine Extends.trans (classSingletonSection_extends gs ctx _ _ klass) ?_
    refine Extends.trans (maybeEmitInitialized_extends gs ctx _ _ _) ?_
    refine Extends.trans (mark_initRan_extends _ klass) ?_
    refine Extends.trans (processMembers_extends gs ctx klass _ _ _) ?_
    refine Extends.trans (emitTypeMembersList_extends gs _ _) ?_
    refine Extends.trans (emitMixins_extends gs ctx _ _) ?_
    refine Extends.trans (classFlagLines_extends gs _ klass) ?_
    refine Extends.trans (withOut_extends _ _) ?_
    refine Extends.trans (classSuperLine_extends gs ctx _ klass) ?_
    exact Extends.trans (mark_rendered_extends _ klass)
      (mark_bodyDone_extends st klass)

theorem pop_extends (a : EmitState) (rest : List Nat) :
    Extends { a with toEmit := rest } a :=
  ⟨⟨[], by simp⟩, ⟨[], by simp⟩, ⟨[], by simp⟩, ⟨[], by simp⟩⟩

theorem out_set_extends (a : EmitState) (o : Output) :
    Extends { a with out := o } a :=
  ⟨⟨[], by simp⟩, ⟨[], by simp⟩, ⟨[], by simp⟩, ⟨[], by simp⟩⟩

theorem emitClass_ok {gs : GlobalState} {ctx : PkgCtx} {st : EmitState}
    {klass : Nat} {st' : EmitState}
    (h : emitClass gs ctx st klass = Except.ok st') :
    st' = emitClassBody gs ctx st klass ∧
      isInPackage gs ctx klass = true ∧ klass ∈ st.emittedSymbols := by
  rw [emitClass] at h
  split at h
  · cases h
  · next hg =>
      rw [not_not] at hg
      injection h with h
      exact ⟨h.symm, hg.1, hg.2⟩

theorem emitLoop_extends (gs : GlobalState) (ctx : PkgCtx) :
    ∀ (fuel : Nat) (st st' : EmitState),
    emitLoop gs ctx fuel st = Except.ok st' → Extends st' st := by
  intro fuel
  induction fuel with
  | zero =>
      intro st st' h
      injection h with h
      rw [← h]
      exact Extends.rfl st
  | succ f ih =>
      intro st st' h
      rw [emitLoop] at h
      split at h
      · injection h with h
        rw [← h]
        exact Extends.rfl st
      · next s rest hrest =>
          split at h
          · dsimp only at h
            match hc : emitClass gs ctx { st with toEmit := rest } s with
            | Except.error e => rw [hc] at h; cases h
            | Except.ok stC =>
                rw [hc] at h
                have hb := emitClass_ok hc
                refine Extends.trans (ih _ _ h) ?_
                rw [hb.1]
                exact Extends.trans
                  (emitClassBody_extends gs ctx _ s) (pop_extends st rest)
          · exact Extends.trans (ih _ _ h)
              (Extends.trans (emitMethod_extends gs ctx _ s) (pop_extends st rest))
          · exact Extends.trans (ih _ _ h)
              (Extends.trans (emitField_extends gs _ s false) (pop_extends st rest))
          · exact Extends.trans (ih _ _ h) (pop_extends st rest)
          · exact Extends.trans (ih _ _ h) (pop_extends st rest)

theorem regularPass_extends (gs : GlobalState) (ctx : PkgCtx)
    (exportsR : List Nat) (fuel : Nat) (p : String × EmitState)
    (h : regularPass gs ctx exportsR fuel = Except.ok p) :
    Extends p.2 initialEmitState := by
  rw [regularPass] at h
  split at h
  · injection h with h
    rw [← h]
    exact Extends.rfl initialEmitState
  · split at h
    · cases h
    · next st hloop =>
        injection h with h
        rw [← h]
        refine Extends.trans (out_set_extends st _) ?_
        exact Extends.trans (emitLoop_extends gs ctx fuel _ st hloop)
          (foldl_extends _ (fun a x => maybeEmit_extends gs ctx a x) _ _)

theorem testPass_extends (gs : GlobalState) (ctx : PkgCtx)
    (testExports : List Nat) (fuel : Nat) (st1 : EmitState)
    (p : String × EmitState)
    (h : testPass gs ctx testExports fuel st1 = Except.ok p) :
    Extends p.2 st1 := by
  rw [testPass] at h
  split at h
  · injection h with h
    rw [← h]
    exact Extends.rfl st1
  · split at h
    · cases h
    · next st hloop =>
        injection h with h
        rw [← h]
        refine Extends.trans (out_set_extends st _) ?_
        exact Extends.trans (emitLoop_extends gs ctx fuel _ st hloop)
          (foldl_extends _ (fun a x => maybeEmit_extends gs ctx a x) _ _)

theorem inv_mono {gs : GlobalState} {ctx : PkgCtx} {st st' : EmitState}
    (h : WorklistInv gs ctx st)
    (ht : ∀ x ∈ st'.toEmit, x ∈ st.toEmit)
    (he : ∀ x ∈ st.emittedSymbols, x ∈ st'.emittedSymbols) :
    WorklistInv gs ctx st' :=
  fun s hs => ⟨he s (h s (ht s hs)).1, (h s (ht s hs)).2⟩

theorem maybeEmit_inv (gs : GlobalState) (ctx : PkgCtx) (st : EmitState)
    (s : Nat) (h : WorklistInv gs ctx st) :
    WorklistInv gs ctx (maybeEmit gs ctx st s) := by
  induction s using maybeEmit.induct gs ctx st with
  | case1 x hx a ha ih =>
      rw [maybeEmit]
      simp only [hx, if_true]
      split
      · next a' ha' =>
          rw [ha'] at ha
          injection ha with haa
          subst haa
          exact ih
      · next ha' => rw [ha'] at ha; simp at ha
  | case2 x hx ha =>
      rw [maybeEmit]
      simp only [hx, if_true]
      split
      · next a' ha' => rw [ha'] at ha; simp at ha
      · next _ => exact h
  | case3 x hx hcond =>
      rw [maybeEmit]
      simp only [hx, Bool.false_eq_true, if_false, hcond, if_pos]
      intro s hs
      rcases (by simpa using hs : s = x ∨ s ∈ st.toEmit) with hs' | hs'
      · subst hs'
        exact ⟨by simp, hcond.2⟩
      · have := h s hs'
        exact ⟨by simp [this.1], this.2⟩
  | case4 x hx hcond =>
      rw [maybeEmit]
      simp only [hx, Bool.false_eq_true, if_false, hcond, if_neg]
      exact h

theorem foldl_inv {gs : GlobalState} {ctx : PkgCtx} {α : Type}
    (f : EmitState → α → EmitState)
    (hf : ∀ st x, WorklistInv gs ctx st → WorklistInv gs ctx (f st x)) :
    ∀ (l : List α) (st : EmitState),
    WorklistInv gs ctx st → WorklistInv gs ctx (l.foldl f st) := by
  intro l
  induction l with
  | nil => intro st h; exact h
  | cons x rest ih => intro st h; exact ih (f st x) (hf st x h)

theorem enqueue_inv (gs : GlobalState) (ctx : PkgCtx) (st : EmitState)
    (t : RType) (h : WorklistInv gs ctx st) :
    WorklistInv gs ctx (enqueueSymbolsInType gs ctx st t) := by
  rw [enqueue_eq_foldl]
  exact foldl_inv _ (fun a x ha => maybeEmit_inv gs ctx a x ha) _ st h

theorem inv_insert {gs : GlobalState} {ctx : PkgCtx} {st : EmitState}
    (h : WorklistInv gs ctx st) (k : Nat) :
    WorklistInv gs ctx { st with emittedSymbols := k :: st.emittedSymbols } :=
  inv_mono h (fun x hx => hx) (fun x hx => by simp [hx])

theorem inv_withOut {gs : GlobalState} {ctx : PkgCtx} {st : EmitState}
    (h : WorklistInv gs ctx st) (f : Output → Output) :
    WorklistInv gs ctx (st.withOut f) :=
  inv_mono h (fun x hx => hx) (fun x hx => hx)

theorem inv_mark_rendered {gs : GlobalState} {ctx : PkgCtx} {st : EmitState}
    (h : WorklistInv gs ctx st) (k : Nat) :
    WorklistInv gs ctx { st with rendered := k :: st.rendered } :=
  inv_mono h (fun x hx => hx) (fun x hx => hx)

theorem inv_mark_bodyDone {gs : GlobalState} {ctx : PkgCtx} {st : EmitState}
    (h : WorklistInv gs ctx st) (k : Nat) :
    WorklistInv gs ctx { st with bodyDone := k :: st.bodyDone } :=
  inv_mono h (fun x hx => hx) (fun x hx => hx)

theorem inv_mark_initRan {gs : GlobalState} {ctx : PkgCtx} {st : EmitState}
    (h : WorklistInv gs ctx st) (k : Nat) :
    WorklistInv gs ctx { st with initRan := k :: st.initRan } :=
  inv_mono h (fun x hx => hx) (fun x hx => hx)

theorem inv_out_set {gs : GlobalState} {ctx : PkgCtx} {st : EmitState}
    (h : WorklistInv gs ctx st) (o : Output) :
    WorklistInv gs ctx { st with out := o } :=
  inv_mono h (fun x hx => hx) (fun x hx => hx)

theorem inv_pop {gs : GlobalState} {ctx : PkgCtx} {st : EmitState}
    (h : WorklistInv gs ctx st) {s : Nat} {rest : List Nat}
    (hr : st.toEmit = s :: rest) :
    WorklistInv gs ctx { st with toEmit := rest } :=
  inv_mono h
    (fun x hx => by
      rw [hr]
      exact List.mem_cons_of_mem _ hx)
    (fun x hx => hx)

theorem prettySig_inv (gs : GlobalState) (ctx : PkgCtx) (st : EmitState)
    (m : Nat) (r : Option RType) (h : WorklistInv gs ctx st) :
    WorklistInv gs ctx (prettySigForMethod gs ctx st m r).2 := by
  rw [prettySigForMethod]
  have hbase : WorklistInv gs ctx ((gs.syms m).arguments.foldl
      (fun s argSym =>
        if argSym.flags.isSyntheticBlock then s
        else enqueueSymbolsInType gs ctx s (getResultTypeNR argSym.type))
      (enqueueSymbolsInType gs ctx st (sigRetTypeOf gs m r))) := by
    refine foldl_inv _ (fun a x ha => ?_) _ _ (enqueue_inv gs ctx st _ h)
    split
    · exact ha
    · exact enqueue_inv gs ctx a _ ha
  split
  · exact hbase
  · exact hbase

set_option maxHeartbeats 2000000 in
theorem emitMethod_inv (gs : GlobalState) (ctx : PkgCtx) (st : EmitState)
    (m : Nat) (h : WorklistInv gs ctx st) :
    WorklistInv gs ctx (emitMethod gs ctx st m) := by
  rw [emitMethod]
  split
  · exact h
  · split
    · exact h
    · split
      · exact inv_insert h m
      · have harg : WorklistInv gs ctx ((gs.syms m).arguments.foldl
            (fun (s : EmitState) (arg : ArgInfo) =>
              match arg.type with
              | some t => enqueueSymbolsInType gs ctx s t
              | none => s)
            { st with emittedSymbols := m :: st.emittedSymbols }) := by
          refine foldl_inv _ (fun a x ha => ?_) _ _ (inv_insert h m)
          cases hxt : x.type with
          | some t => simp only [hxt]; exact enqueue_inv gs ctx a t ha
          | none => simp only [hxt]; exact ha
        split
        · exact inv_withOut (inv_withOut (prettySig_inv gs ctx _ m _
            (inv_mark_rendered harg m)) _) _
        · exact inv_withOut (inv_mark_rendered harg m) _

theorem emitField_inv {gs : GlobalState} {ctx : PkgCtx} {st : EmitState}
    (f : Nat) (isCVar : Bool) (h : WorklistInv gs ctx st) :
    WorklistInv gs ctx (emitField gs st f isCVar) := by
  rw [emitField]
  split
  · split
    · exact h
    · split
      · exact inv_withOut (inv_mark_rendered h f) _
      · exact inv_withOut (inv_mark_rendered h f) _
  · exact inv_withOut (inv_mark_rendered h f) _

theorem emitTypeMember_inv {gs : GlobalState} {ctx : PkgCtx} {st : EmitState}
    (tm : Nat) (h : WorklistInv gs ctx st) :
    WorklistInv gs ctx (emitTypeMember gs st tm) := by
  rw [emitTypeMember]
  split
  · exact h
  · split
    · exact inv_insert h tm
    · split
      · exact inv_withOut (inv_mark_rendered (inv_insert h tm) tm) _
      · exact inv_withOut (inv_mark_rendered (inv_insert h tm) tm) _

theorem renderInitBody_inv {gs : GlobalState} {ctx : PkgCtx} {st : EmitState}
    (methodDef : String) (fields : List Nat) (h : WorklistInv gs ctx st) :
    WorklistInv gs ctx (renderInitBody gs st methodDef fields) := by
  rw [renderInitBody]
  split
  · exact inv_withOut h _
  · refine inv_withOut (inv_withOut (foldl_inv _
      (fun a x ha => emitField_inv x false ha) _ _
      (inv_withOut (inv_withOut h _) _)) _) _

theorem maybeEmitInitialized_inv {gs : GlobalState} {ctx : PkgCtx}
    {st : EmitState} (method : Option Nat) (fields : List Nat)
    (h : WorklistInv gs ctx st) :
    WorklistInv gs ctx (maybeEmitInitialized gs ctx st method fields) := by
  cases method with
  | none =>
      rw [maybeEmitInitialized]
      split
      · exact h
      · exact renderInitBody_inv _ _ (inv_withOut h _)
  | some m =>
      rw [maybeEmitInitialized]
      split
      · exact h
      · refine renderInitBody_inv _ _ ?_
        split
        · exact inv_mark_rendered
            (inv_withOut (prettySig_inv gs ctx _ m _ h) _) m
        · exact inv_mark_rendered h m

theorem emitMixins_inv {gs : GlobalState} {ctx : PkgCtx} :
    ∀ (l : List Nat) (st : EmitState), WorklistInv gs ctx st →
    WorklistInv gs ctx (emitMixins gs ctx st l) := by
  intro l
  induction l with
  | nil => intro st h; exact h
  | cons x rest ih =>
      intro st h
      rw [emitMixins]
      exact ih _ (maybeEmit_inv gs ctx _ x (inv_withOut h _))

theorem emitSingletonMixins_inv {gs : GlobalState} {ctx : PkgCtx} :
    ∀ (l : List Nat) (st : EmitState), WorklistInv gs ctx st →
    WorklistInv gs ctx (emitSingletonMixins gs ctx st l) := by
  intro l
  induction l with
  | nil => intro st h; exact h
  | cons x rest ih =>
      intro st h
      rw [emitSingletonMixins]
      exact ih _ (maybeEmit_inv gs ctx _ x (inv_withOut h _))

theorem emitTypeMembersList_inv {gs : GlobalState} {ctx : PkgCtx} :
    ∀ (l : List Nat) (st : EmitState), WorklistInv gs ctx st →
    WorklistInv gs ctx (emitTypeMembersList gs st l) := by
  intro l
  induction l with
  | nil => intro st h; exact h
  | cons x rest ih =>
      intro st h
      rw [emitTypeMembersList]
      exact ih _ (emitTypeMember_inv x h)

theorem emitEnumValues_inv {gs : GlobalState} {ctx : PkgCtx} :
    ∀ (l : List Nat) (st : EmitState), WorklistInv gs ctx st →
    WorklistInv gs ctx (emitEnumValues gs st l) := by
  intro l
  induction l with
  | nil => intro st h; exact h
  | cons x rest ih =>
      intro st h
      rw [emitEnumValues]
      exact ih _ (inv_withOut h _)

theorem processMembers_inv {gs : GlobalState} {ctx : PkgCtx} (klass : Nat)
    (isEnum : Bool) :
    ∀ (l : List (NRef × Nat)) (acc : MemberAcc), WorklistInv gs ctx acc.st →
    WorklistInv gs ctx (processMembers gs ctx klass isEnum acc l).st := by
  intro l
  induction l with
  | nil => intro acc h; exact h
  | cons p rest ih =>
      intro acc h
      rw [processMembers]
      refine ih _ ?_
      split
      · exact h
      · split
        · split
          · exact h
          · exact maybeEmit_inv gs ctx acc.st _ h
        · exact h
        · exact h
        · split
          · exact h
          · exact emitMethod_inv gs ctx acc.st _ h
        · split
          · exact h
          · split
            · exact emitField_inv _ true h
            · exact maybeEmit_inv gs ctx acc.st _ h

theorem processSingletonMembers_inv {gs : GlobalState} {ctx : PkgCtx}
    (isEnum : Bool) :
    ∀ (l : List (NRef × Nat)) (st : EmitState), WorklistInv gs ctx st →
    WorklistInv gs ctx (processSingletonMembers gs ctx isEnum st l) := by
  intro l
  induction l with
  | nil => intro st h; exact h
  | cons p rest ih =>
      intro st h
      rw [processSingletonMembers]
      refine ih _ ?_
      split
      · exact h
      · split
        · exact maybeEmit_inv gs ctx st _ h
        · exact h
        · exact h
        · split
          · exact h
          · exact emitMethod_inv gs ctx st _ h
        · split
          · exact emitField_inv _ false h
          · split
            · exact emitField_inv _ true h
            · exact maybeEmit_inv gs ctx st _ h

theorem classSuperLine_inv {gs : GlobalState} {ctx : PkgCtx} {st : EmitState}
    (klass : Nat) (h : WorklistInv gs ctx st) :
    WorklistInv gs ctx (classSuperLine gs ctx st klass) := by
  rw [classSuperLine]
  split
  · split
    · exact inv_withOut (maybeEmit_inv gs ctx st _ h) _
    · exact inv_withOut h _
  · exact inv_withOut h _

theorem inv_ite_withOut {gs : GlobalState} {ctx : PkgCtx} {a : EmitState}
    (h : WorklistInv gs ctx a) (c : Prop) [Decidable c] (f : Output → Output) :
    WorklistInv gs ctx (if c then a.withOut f else a) := by
  split
  · exact inv_withOut h f
  · exact h

theorem classFlagLines_inv {gs : GlobalState} {ctx : PkgCtx} {st : EmitState}
    (klass : Nat) (h : WorklistInv gs ctx st) :
    WorklistInv gs ctx (classFlagLines gs st klass) := by
  rw [classFlagLines]
  exact inv_ite_withOut (inv_ite_withOut (inv_ite_withOut
    (inv_ite_withOut h _ _) _ _) _ _) _ _

theorem classSingletonSection_inv {gs : GlobalState} {ctx : PkgCtx}
    {st : EmitState} (isEnum : Bool) (klass : Nat) (h : WorklistInv gs ctx st) :
    WorklistInv gs ctx (classSingletonSection gs ctx isEnum st klass) := by
  rw [classSingletonSection]
  split
  · exact processSingletonMembers_inv isEnum _ _
      (emitTypeMembersList_inv _ _ (emitSingletonMixins_inv _ _ h))
  · exact h

theorem classEnumBlock_inv {gs : GlobalState} {ctx : PkgCtx} {st : EmitState}
    (isEnum : Bool) (pendingEnums : List Nat) (h : WorklistInv gs ctx st) :
    WorklistInv gs ctx (classEnumBlock gs isEnum pendingEnums st) := by
  rw [classEnumBlock]
  split
  · exact inv_withOut (inv_withOut (emitEnumValues_inv _ _
      (inv_withOut (inv_withOut h _) _)) _) _
  · exact h

theorem emitClassBody_inv {gs : GlobalState} {ctx : PkgCtx} {st : EmitState}
    (klass : Nat) (h : WorklistInv gs ctx st) :
    WorklistInv gs ctx (emitClassBody gs ctx st klass) := by
  rw [emitClassBody]
  split
  · exact inv_mark_bodyDone h klass
  · refine inv_withOut (inv_withOut (classEnumBlock_inv _ _
      (classSingletonSection_inv _ klass
        (maybeEmitInitialized_inv _ _
          (inv_mark_initRan (processMembers_inv klass _ _ _
            (emitTypeMembersList_inv _ _
              (emitMixins_inv _ _
                (classFlagLines_inv klass
                  (inv_withOut (classSuperLine_inv klass
                    (inv_mark_rendered (inv_mark_bodyDone h klass) klass)) _))))) _)))) _) _

theorem emitLoop_ok_of_inv (gs : GlobalState) (ctx : PkgCtx) :
    ∀ (fuel : Nat) (st : EmitState), WorklistInv gs ctx st →
    ∃ st', emitLoop gs ctx fuel st = Except.ok st' ∧ WorklistInv gs ctx st' := by
  intro fuel
  induction fuel with
  | zero => intro st h; exact ⟨st, rfl, h⟩
  | succ f ih =>
      intro st h
      rw [emitLoop]
      cases hrest : st.toEmit with
      | nil => exact ⟨st, rfl, h⟩
      | cons s rest =>
          have hs := h s (by rw [hrest]; simp)
          have hInvP : WorklistInv gs ctx { st with toEmit := rest } :=
            inv_pop h hrest
          dsimp only
          cases hk : (gs.syms s).kind with
          | classOrModule =>
              simp only [hk]
              have hcls : emitClass gs ctx { st with toEmit := rest } s =
                  Except.ok (emitClassBody gs ctx { st with toEmit := rest } s) := by
                rw [emitClass, if_neg]
                rw [not_not]
                exact ⟨hs.2, hs.1⟩
              rw [hcls]
              exact ih _ (emitClassBody_inv s hInvP)
          | method =>
              simp only [hk]
              exact ih _ (emitMethod_inv gs ctx _ s hInvP)
          | fieldOrStaticField =>
              simp only [hk]
              exact ih _ (emitField_inv s false hInvP)
          | typeMember => simp only [hk]; exact ih _ hInvP
          | typeArgument => simp only [hk]; exact ih _ hInvP

theorem initial_inv (gs : GlobalState) (ctx : PkgCtx) :
    WorklistInv gs ctx initialEmitState := by
  intro s hs
  simp [initialEmitState] at hs

theorem seeds_inv (gs : GlobalState) (ctx : PkgCtx) (seeds : List Nat)
    (st : EmitState) (h : WorklistInv gs ctx st) :
    WorklistInv gs ctx (seeds.foldl (maybeEmit gs ctx) st) :=
  foldl_inv _ (fun a x ha => maybeEmit_inv gs ctx a x ha) seeds st h

theorem regularPass_ok (gs : GlobalState) (ctx : PkgCtx) (exportsR : List Nat)
    (fuel : Nat) :
    ∃ p, regularPass gs ctx exportsR fuel = Except.ok p ∧
      WorklistInv gs ctx p.2 := by
  rw [regularPass]
  split
  · exact ⟨("", initialEmitState), rfl, initial_inv gs ctx⟩
  · obtain ⟨st', hok, hinv⟩ := emitLoop_ok_of_inv gs ctx fuel
      (exportsR.foldl (maybeEmit gs ctx) initialEmitState)
      (seeds_inv gs ctx exportsR initialEmitState (initial_inv gs ctx))
    rw [hok]
    exact ⟨_, rfl, inv_out_set hinv _⟩

theorem testPass_ok (gs : GlobalState) (ctx : PkgCtx) (testExports : List Nat)
    (fuel : Nat) (st1 : EmitState) (h : WorklistInv gs ctx st1) :
    ∃ p, testPass gs ctx testExports fuel st1 = Except.ok p ∧
      WorklistInv gs ctx p.2 := by
  rw [testPass]
  split
  · exact ⟨("", st1), rfl, h⟩
  · obtain ⟨st', hok, hinv⟩ := emitLoop_ok_of_inv gs ctx fuel
      (testExports.foldl (maybeEmit gs ctx) st1)
      (seeds_inv gs ctx testExports st1 h)
    rw [hok]
    exact ⟨_, rfl, inv_out_set hinv _⟩

/-- maybeEmit inserts a symbol into the visited set and worklist only when
isInPackage holds; therefore every symbol popped from the worklist is
already in the visited set and in-package, the "Invalid klass" guard at
the top of the class emitter never fires, and a whole package run never
aborts: exporterEmit always returns ok. -/
theorem exporterEmit_isOk (gs : GlobalState) (pkg : PackageInfo)
    (namespaces : List Nat) (fuel : Nat) :
    (exporterEmit gs pkg namespaces fuel).isOk = true := by
  rw [exporterEmit]
  obtain ⟨p1, h1, hinv1⟩ := regularPass_ok gs (mkPkgCtx gs pkg namespaces)
    (routeExports gs (mkPkgCtx gs pkg namespaces) pkg.exportsL).1 fuel
  rw [h1]
  dsimp only
  obtain ⟨p2, h2, _⟩ := testPass_ok gs (mkPkgCtx gs pkg namespaces)
    ((routeExports gs (mkPkgCtx gs pkg namespaces) pkg.exportsL).2 ++
      pkg.testExportsL.filterMap (lookupFQN gs)) fuel p1.2 hinv1
  rw [h2]
  rfl

theorem header_append_ne (t : String) : "# typed: true\n\n" ++ t ≠ "" := by
  intro hcon
  have hlen := congrArg String.length hcon
  rw [String.length_append] at hlen
  have h15 : ("# typed: true\n\n").length = 15 := rfl
  have h0 : ("" : String).length = 0 := rfl
  rw [h15, h0] at hlen
  omega

/-- C4 (as stated, counterexample): package P's regular export list
resolves to the single out-of-package symbol 12 (class Q), so nothing is
rendered in the regular pass — yet the regular blob is produced: it is
the bare header, a non-empty string the dispatcher would write. -/
theorem C4_counterexample :
    (routeExports gsA (mkPkgCtx gsA pkgAQ pkgNamespacesA) pkgAQ.exportsL).1 =
      [12]
    ∧ outRenderedRegOf (exporterEmit gsA pkgAQ pkgNamespacesA 50) = some []
    ∧ outRbiOf (exporterEmit gsA pkgAQ pkgNamespacesA 50) =
        some "# typed: true\n\n" := by decide

/-- C4 (amended): the test blob is omitted exactly when its pass rendered
no text, but the regular blob is produced whenever the resolved regular
export list is non-empty — even as a header-only blob when no
declaration text was produced — and omitted only when that list is
empty. -/
theorem C4_blob_presence (gs : GlobalState) (pkg : PackageInfo)
    (ns : List Nat) (fuel : Nat) (o : RBIOutput)
    (h : exporterEmit gs pkg ns fuel = Except.ok o) :
    ((routeExports gs (mkPkgCtx gs pkg ns) pkg.exportsL).1 = [] → o.rbi = "")
    ∧ ((routeExports gs (mkPkgCtx gs pkg ns) pkg.exportsL).1 ≠ [] → o.rbi ≠ "")
    ∧ (o.testRBI = "" ∨
        ∃ t, t ≠ "" ∧ o.testRBI = "# typed: true\n\n" ++ t) := by
  rw [exporterEmit] at h
  cases hr : regularPass gs (mkPkgCtx gs pkg ns)
      (routeExports gs (mkPkgCtx gs pkg ns) pkg.exportsL).1 fuel with
  | error e => rw [hr] at h; cases h
  | ok p1 =>
      rw [hr] at h
      dsimp only at h
      cases ht : testPass gs (mkPkgCtx gs pkg ns)
          ((routeExports gs (mkPkgCtx gs pkg ns) pkg.exportsL).2 ++
            pkg.testExportsL.filterMap (lookupFQN gs)) fuel p1.2 with
      | error e => rw [ht] at h; cases h
      | ok p2 =>
          rw [ht] at h
          injection h with h
          rw [← h]
          dsimp only
          refine ⟨?_, ?_, ?_⟩
          · intro hempty
            rw [regularPass] at hr
            rw [if_pos (by simp [hempty])] at hr
            injection hr with hr
            rw [← hr]
          · intro hne
            rw [regularPass] at hr
            rw [if_neg (by simp [hne])] at hr
            split at hr
            · cases hr
            · injection hr with hr
              rw [← hr]
              exact header_append_ne _
          · rw [testPass] at ht
            split at ht
            · injection ht with ht
              rw [← ht]
              exact Or.inl rfl
            · split at ht
              · cases ht
              · next stt hloop =>
                  injection ht with ht
                  rw [← ht]
                  dsimp only
                  by_cases hbuf : (stt.out.takeString).1 = ""
                  · rw [if_pos hbuf]
                    exact Or.inl rfl
                  · rw [if_neg hbuf]
                    exact Or.inr ⟨_, hbuf, rfl⟩

/-- C5 (as stated, counterexample): P::R (symbol 9) is both a regular and
a test export of package P.  The test-export seed list is [9] and symbol
9 was declared during the regular pass, yet the test pass produces no
text at all (testRBI is absent): the emission state of the test pass was
not fresh — the visited set from the regular pass persisted. -/
theorem C5_counterexample :
    ((routeExports gsA (mkPkgCtx gsA pkgARR pkgNamespacesA) pkgARR.exportsL).2
      ++ pkgARR.testExportsL.filterMap (lookupFQN gsA)) = [9]
    ∧ outRenderedRegOf (exporterEmit gsA pkgARR pkgNamespacesA 50) =
        some [10, 9]
    ∧ outTestRbiOf (exporterEmit gsA pkgARR pkgNamespacesA 50) = some "" := by
  decide

/-- C5 (amended): the emission state is NOT fresh per export-kind: the
test pass runs on the state the regular pass left behind, where maybeEmit
never re-schedules a symbol already in the visited set, so a symbol
declared during the regular pass is not declared again during the test
pass; across the two passes the rendering trace only grows. -/
theorem C5_emitted_persists :
    (∀ (gs : GlobalState) (ctx : PkgCtx) (st : EmitState) (s : Nat),
      isSingletonCoM gs s = false → s ∈ st.emittedSymbols →
      maybeEmit gs ctx st s = st)
    ∧ (∀ (gs : GlobalState) (pkg : PackageInfo) (ns : List Nat) (fuel : Nat)
        (o : RBIOutput), exporterEmit gs pkg ns fuel = Except.ok o →
      ∃ pre, o.finalState.rendered = pre ++ o.renderedAfterRegular) := by
  constructor
  · intro gs ctx st s hsing hmem
    rw [maybeEmit]
    rw [if_neg (by simp [hsing])]
    rw [if_neg (by simp [hmem])]
  · intro gs pkg ns fuel o h
    rw [exporterEmit] at h
    cases hr : regularPass gs (mkPkgCtx gs pkg ns)
        (routeExports gs (mkPkgCtx gs pkg ns) pkg.exportsL).1 fuel with
    | error e => rw [hr] at h; cases h
    | ok p1 =>
        rw [hr] at h
        dsimp only at h
        cases ht : testPass gs (mkPkgCtx gs pkg ns)
            ((routeExports gs (mkPkgCtx gs pkg ns) pkg.exportsL).2 ++
              pkg.testExportsL.filterMap (lookupFQN gs)) fuel p1.2 with
        | error e => rw [ht] at h; cases h
        | ok p2 =>
            rw [ht] at h
            injection h with h
            rw [← h]
            dsimp only
            exact (testPass_extends gs _ _ fuel p1.2 p2 ht).2.1

theorem C5_witness :
    maybeEmit gsA ctxA { initialEmitState with emittedSymbols := [9] } 9 =
      { initialEmitState with emittedSymbols := [9] }
    ∧ ∃ pre, oARR.finalState.rendered = pre ++ oARR.renderedAfterRegular :=
  ⟨C5_emitted_persists.1 gsA ctxA _ 9 (by decide) (by decide),
   C5_emitted_persists.2 gsA pkgARR pkgNamespacesA 50 oARR (by rfl)⟩

theorem routeExports_reg_sources (gs : GlobalState) (ctx : PkgCtx) :
    ∀ (paths : List (List NRef)) (acc : List Nat × List Nat) (x : Nat),
    x ∈ (paths.foldl
      (fun acc e =>
        match lookupFQN gs e with
        | some exportSymbol =>
            if isInTestPackage gs ctx exportSymbol then
              (acc.1, acc.2 ++ [exportSymbol])
            else (acc.1 ++ [exportSymbol], acc.2)
        | none => acc)
      acc).1 →
    x ∈ acc.1 ∨ ∃ p, p ∈ paths ∧ lookupFQN gs p = some x ∧
      isInTestPackage gs ctx x = false := by
  intro paths
  induction paths with
  | nil => intro acc x hx; exact Or.inl hx
  | cons p rest ih =>
      intro acc x hx
      rw [List.foldl_cons] at hx
      rcases ih _ x hx with hx' | ⟨q, hq, hlq, htq⟩
      · cases hlp : lookupFQN gs p with
        | none => simp only [hlp] at hx'; exact Or.inl hx'
        | some e =>
            simp only [hlp] at hx'
            by_cases hte : isInTestPackage gs ctx e = true
            · rw [if_pos hte] at hx'
              exact Or.inl (by simpa using hx')
            · rw [if_neg hte] at hx'
              rcases (by simpa using hx' : x ∈ acc.1 ∨ x = e) with hx'' | hx''
              · exact Or.inl hx''
              · subst hx''
                exact Or.inr ⟨p, by simp, hlp, by simpa using hte⟩
      · exact Or.inr ⟨q, by simp [hq], hlq, htq⟩

theorem routeExports_test_mono (gs : GlobalState) (ctx : PkgCtx) :
    ∀ (paths : List (List NRef)) (acc : List Nat × List Nat) (x : Nat),
    x ∈ acc.2 →
    x ∈ (paths.foldl
      (fun acc e =>
        match lookupFQN gs e with
        | some exportSymbol =>
            if isInTestPackage gs ctx exportSymbol then
              (acc.1, acc.2 ++ [exportSymbol])
            else (acc.1 ++ [exportSymbol], acc.2)
        | none => acc)
      acc).2 := by
  intro paths
  induction paths with
  | nil => intro acc x hx; exact hx
  | cons p rest ih =>
      intro acc x hx
      rw [List.foldl_cons]
      refine ih _ x ?_
      cases hlp : lookupFQN gs p with
      | none => simp only [hlp]; exact hx
      | some e =>
          simp only [hlp]
          split
          · simp [hx]
          · exact hx

theorem routeExports_test_mem (gs : GlobalState) (ctx : PkgCtx) :
    ∀ (paths : List (List NRef)) (acc : List Nat × List Nat)
      (path : List NRef) (s : Nat), path ∈ paths → lookupFQN gs path = some s →
    isInTestPackage gs ctx s = true →
    s ∈ (paths.foldl
      (fun acc e =>
        match lookupFQN gs e with
        | some exportSymbol =>
            if isInTestPackage gs ctx exportSymbol then
              (acc.1, acc.2 ++ [exportSymbol])
            else (acc.1 ++ [exportSymbol], acc.2)
        | none => acc)
      acc).2 := by
  intro paths
  induction paths with
  | nil => intro acc path s hmem; simp at hmem
  | cons p rest ih =>
      intro acc path s hmem hres htest
      rw [List.foldl_cons]
      rcases List.mem_cons.mp hmem with hp | hp
      · subst hp
        refine routeExports_test_mono gs ctx rest _ s ?_
        simp only [hres]
        split
        · simp
        · next hte => exact absurd htest (by simpa using hte)
      · exact ih _ path s hp hres htest

/-- C10 (as stated, counterexample): Test::P::E (symbol 10) is named in
package P's regular export list and routed to the test seeds — but it is
ALSO reachable from the regular export P::R (as its superclass), so its
declaration is rendered during the regular pass into the regular blob;
the test pass then finds it already emitted and the test blob is absent.
Its declaration thus appears in the regular stub blob and never in the
test one. -/
theorem C10_counterexample :
    routeExports gsA (mkPkgCtx gsA pkgARE pkgNamespacesA) pkgARE.exportsL =
      ([9], [10])
    ∧ [nTest, nP, nE] ∈ pkgARE.exportsL
    ∧ lookupFQN gsA [nTest, nP, nE] = some 10
    ∧ isInTestPackage gsA (mkPkgCtx gsA pkgARE pkgNamespacesA) 10 = true
    ∧ (gsA.syms 9).superClass = some 10
    ∧ outRenderedRegOf (exporterEmit gsA pkgARE pkgNamespacesA 50) =
        some [10, 9]
    ∧ outTestRbiOf (exporterEmit gsA pkgARE pkgNamespacesA 50) = some "" := by
  decide

/-- C10 (amended): a regular export path resolving to a symbol under the
package's test namespace is seeded into the test-export pass and never
into the regular seed list; its declaration is not produced by
regular-pass seeding, though it may still be rendered into the regular
blob when it is reachable from a regular export, in which case the
persistent visited set keeps it out of the test blob. -/
theorem C10_test_export_routing (gs : GlobalState) (pkg : PackageInfo)
    (ns : List Nat) (path : List NRef) (s : Nat)
    (hmem : path ∈ pkg.exportsL)
    (hres : lookupFQN gs path = some s)
    (htest : isInTestPackage gs (mkPkgCtx gs pkg ns) s = true) :
    s ∈ (routeExports gs (mkPkgCtx gs pkg ns) pkg.exportsL).2
    ∧ s ∉ (routeExports gs (mkPkgCtx gs pkg ns) pkg.exportsL).1 := by
  constructor
  · exact routeExports_test_mem gs _ pkg.exportsL ([], []) path s hmem hres htest
  · intro hcon
    rcases routeExports_reg_sources gs _ pkg.exportsL ([], []) s hcon with
      h | ⟨q, _, _, hqt⟩
    · simp at h
    · rw [htest] at hqt
      cases hqt

theorem C10_witness :
    10 ∈ (routeExports gsA (mkPkgCtx gsA pkgARE pkgNamespacesA)
      pkgARE.exportsL).2
    ∧ 10 ∉ (routeExports gsA (mkPkgCtx gsA pkgARE pkgNamespacesA)
      pkgARE.exportsL).1 :=
  C10_test_export_routing gsA pkgARE pkgNamespacesA [nTest, nP, nE] 10
    (by decide) (by decide) (by decide)

/-- C7: width-threshold determinism of the sig formatter.  Both thresholds
are evaluated on the already-substituted, already-rendered text: a sig
whose single-line rendering is exactly 81 characters long, or which has 5
non-synthetic arguments, is rendered multi-line; one of at most 80
characters with at most 4 non-synthetic arguments is rendered
single-line. -/
theorem C7_width_threshold (gs : GlobalState) (ctx : PkgCtx) (st : EmitState)
    (m : Nat) (r : Option RType) :
    (((sigOnelineOf gs m r).length = 81 ∨ (sigArgTexts gs m).length = 5) →
      (prettySigForMethod gs ctx st m r).1 = sigMultilineOf gs m r)
    ∧ ((sigOnelineOf gs m r).length ≤ 80 ∧ (sigArgTexts gs m).length ≤ 4 →
      (prettySigForMethod gs ctx st m r).1 = sigOnelineOf gs m r) := by
  constructor
  · intro hcond
    rw [prettySigForMethod]
    rw [if_neg]
    intro hc
    simp only [MAX_PRETTY_WIDTH, MAX_PRETTY_SIG_ARGS] at hc
    rcases hcond with h81 | h5
    · omega
    · omega
  · intro hcond
    rw [prettySigForMethod]
    rw [if_pos]
    simp only [MAX_PRETTY_WIDTH, MAX_PRETTY_SIG_ARGS]
    omega

theorem C7_witness :
    (prettySigForMethod gsB ctxB initialEmitState 6 none).1 =
      sigMultilineOf gsB 6 none
    ∧ (prettySigForMethod gsB ctxB initialEmitState 7 none).1 =
      sigOnelineOf gsB 7 none :=
  ⟨(C7_width_threshold gsB ctxB initialEmitState 6 none).1 (Or.inr (by decide)),
   (C7_width_threshold gsB ctxB initialEmitState 7 none).2 (by decide)⟩

/-- C9: determinism.  Stub generation and both formatters are pure
functions of the read-only symbol model and their inputs: two runs on
equal inputs produce byte-identical outputs. -/
theorem C9_deterministic (gs1 gs2 : GlobalState) (pkg1 pkg2 : PackageInfo)
    (ns1 ns2 : List Nat) (fuel1 fuel2 : Nat) (ctx1 ctx2 : PkgCtx)
    (st1 st2 : EmitState) (m1 m2 : Nat) (r1 r2 : Option RType)
    (hgs : gs1 = gs2) (hpkg : pkg1 = pkg2) (hns : ns1 = ns2)
    (hfuel : fuel1 = fuel2) (hctx : ctx1 = ctx2) (hst : st1 = st2)
    (hm : m1 = m2) (hr : r1 = r2) :
    runOnce gs1 pkg1 ns1 fuel1 = runOnce gs2 pkg2 ns2 fuel2
    ∧ prettySigForMethod gs1 ctx1 st1 m1 r1 = prettySigForMethod gs2 ctx2 st2 m2 r2
    ∧ prettyDefForMethod gs1 m1 = prettyDefForMethod gs2 m2 := by
  subst hgs hpkg hns hfuel hctx hst hm hr
  exact ⟨rfl, rfl, rfl⟩

theorem C9_witness :
    runOnce gsA pkgARR pkgNamespacesA 50 = runOnce gsA pkgARR pkgNamespacesA 50
    ∧ prettySigForMethod gsA ctxA initialEmitState 9 none =
        prettySigForMethod gsA ctxA initialEmitState 9 none
    ∧ prettyDefForMethod gsA 9 = prettyDefForMethod gsA 9 :=
  C9_deterministic gsA gsA pkgARR pkgARR pkgNamespacesA pkgNamespacesA 50 50
    ctxA ctxA initialEmitState initialEmitState 9 9 none none
    rfl rfl rfl rfl rfl rfl rfl rfl

theorem C4_witness :
    ((routeExports gsA (mkPkgCtx gsA pkgAQ pkgNamespacesA) pkgAQ.exportsL).1 =
      [] → oAQ.rbi = "")
    ∧ ((routeExports gsA (mkPkgCtx gsA pkgAQ pkgNamespacesA) pkgAQ.exportsL).1
      ≠ [] → oAQ.rbi ≠ "")
    ∧ (oAQ.testRBI = "" ∨
        ∃ t, t ≠ "" ∧ oAQ.testRBI = "# typed: true\n\n" ++ t) :=
  C4_blob_presence gsA pkgAQ pkgNamespacesA 50 oAQ (by rfl)

theorem maybeEmit_fields (gs : GlobalState) (ctx : PkgCtx) (st : EmitState)
    (s : Nat) :
    (maybeEmit gs ctx st s).out = st.out
    ∧ (maybeEmit gs ctx st s).rendered = st.rendered
    ∧ (maybeEmit gs ctx st s).bodyDone = st.bodyDone
    ∧ (maybeEmit gs ctx st s).initRan = st.initRan := by
  induction s using maybeEmit.induct gs ctx st with
  | case1 x hx a ha ih =>
      rw [maybeEmit]
      simp only [hx, if_true]
      split
      · next a' ha' =>
          rw [ha'] at ha
          injection ha with haa
          subst haa
          exact ih
      · next ha' => rw [ha'] at ha; simp at ha
  | case2 x hx ha =>
      rw [maybeEmit]
      simp only [hx, if_true]
      split
      · next a' ha' => rw [ha'] at ha; simp at ha
      · next _ => exact ⟨rfl, rfl, rfl, rfl⟩
  | case3 x hx hcond =>
      rw [maybeEmit]
      simp [hx, hcond]
  | case4 x hx hcond =>
      rw [maybeEmit]
      simp [hx, hcond]

theorem foldl_maybeEmit_fields (gs : GlobalState) (ctx : PkgCtx) :
    ∀ (l : List Nat) (st : EmitState),
    (l.foldl (maybeEmit gs ctx) st).out = st.out
    ∧ (l.foldl (maybeEmit gs ctx) st).rendered = st.rendered := by
  intro l
  induction l with
  | nil => intro st; exact ⟨rfl, rfl⟩
  | cons x rest ih =>
      intro st
      rw [List.foldl_cons]
      have h1 := ih (maybeEmit gs ctx st x)
      have h2 := maybeEmit_fields gs ctx st x
      exact ⟨h1.1.trans h2.1, h1.2.trans h2.2.1⟩

theorem maybeEmit_proj (gs : GlobalState) (ctx : PkgCtx) :
    ∀ (s : Nat) (st st' : EmitState),
    st.emittedSymbols = st'.emittedSymbols → st.toEmit = st'.toEmit →
    (maybeEmit gs ctx st s).emittedSymbols =
      (maybeEmit gs ctx st' s).emittedSymbols
    ∧ (maybeEmit gs ctx st s).toEmit = (maybeEmit gs ctx st' s).toEmit := by
  intro s
  induction s using Nat.strong_induction_on with
  | _ s ih =>
      intro st st' he ht
      rw [maybeEmit, maybeEmit]
      split
      · next hsing =>
          cases ha : (gs.syms s).attachedClass with
          | some a => exact ih a (gs.attached_lt s a ha) st st' he ht
          | none => exact ⟨he, ht⟩
      · rw [he]
        split
        · exact ⟨by simp [he], by simp [ht]⟩
        · exact ⟨he, ht⟩

theorem foldl_maybeEmit_proj (gs : GlobalState) (ctx : PkgCtx) :
    ∀ (l : List Nat) (st st' : EmitState),
    st.emittedSymbols = st'.emittedSymbols → st.toEmit = st'.toEmit →
    (l.foldl (maybeEmit gs ctx) st).emittedSymbols =
      (l.foldl (maybeEmit gs ctx) st').emittedSymbols
    ∧ (l.foldl (maybeEmit gs ctx) st).toEmit =
      (l.foldl (maybeEmit gs ctx) st').toEmit := by
  intro l
  induction l with
  | nil => intro st st' he ht; exact ⟨he, ht⟩
  | cons x rest ih =>
      intro st st' he ht
      rw [List.foldl_cons, List.foldl_cons]
      have h := maybeEmit_proj gs ctx x st st' he ht
      exact ih _ _ h.1 h.2

theorem argfold_eq_foldl (gs : GlobalState) (ctx : PkgCtx) :
    ∀ (args : List ArgInfo) (st : EmitState),
    args.foldl
      (fun (s : EmitState) (arg : ArgInfo) =>
        match arg.type with
        | some t => enqueueSymbolsInType gs ctx s t
        | none => s) st =
    ((args.map (fun a =>
      match a.type with
      | some t => embeddedSyms t
      | none => [])).flatten).foldl (maybeEmit gs ctx) st := by
  intro args
  induction args with
  | nil => intro st; rfl
  | cons a rest ih =>
      intro st
      rw [List.foldl_cons, List.map_cons, List.flatten_cons, List.foldl_append]
      rw [ih]
      cases hat : a.type with
      | some t => dsimp only; rw [enqueue_eq_foldl]
      | none => rfl

theorem sigargfold_eq_foldl (gs : GlobalState) (ctx : PkgCtx) :
    ∀ (args : List ArgInfo) (st : EmitState),
    args.foldl
      (fun (s : EmitState) (argSym : ArgInfo) =>
        if argSym.flags.isSyntheticBlock then s
        else enqueueSymbolsInType gs ctx s (getResultTypeNR argSym.type)) st =
    (((args.filter (fun a => ¬a.flags.isSyntheticBlock)).map
      (fun a => embeddedSyms (getResultTypeNR a.type))).flatten).foldl
      (maybeEmit gs ctx) st := by
  intro args
  induction args with
  | nil => intro st; rfl
  | cons a rest ih =>
      intro st
      rw [List.foldl_cons]
      by_cases hs : a.flags.isSyntheticBlock
      · rw [if_pos hs, List.filter_cons_of_neg (by simp [hs])]
        exact ih st
      · rw [if_neg hs, List.filter_cons_of_pos (by simp [hs]), List.map_cons,
          List.flatten_cons, List.foldl_append, ih, enqueue_eq_foldl]

theorem prettySig_snd_eq (gs : GlobalState) (ctx : PkgCtx) (st : EmitState)
    (m : Nat) (r : Option RType) :
    (prettySigForMethod gs ctx st m r).2 =
      (sigSymsRM gs m r).foldl (maybeEmit gs ctx) st := by
  rw [prettySigForMethod, sigSymsRM, List.foldl_append, ← enqueue_eq_foldl,
    ← sigargfold_eq_foldl]
  split
  · rfl
  · rfl

theorem prettySig_fst_eq (gs : GlobalState) (ctx : PkgCtx) (st : EmitState)
    (m : Nat) (r : Option RType) :
    (prettySigForMethod gs ctx st m r).1 = sigChosenOf gs m r := by
  rw [prettySigForMethod, sigChosenOf]
  split
  · rfl
  · rfl

theorem printlnInd_buf (o : Output) (s : String) :
    (o.printlnInd s).buf = o.buf ++ printedLine o.indentLevel s
    ∧ (o.printlnInd s).indentLevel = o.indentLevel := by
  constructor
  · show o.buf ++ o.tabStr ++ (s.replace "\n" ("\n" ++ o.tabStr)) ++ "\n" = _
    rw [printedLine, Output.tabStr]
    rw [String.append_assoc, String.append_assoc, String.append_assoc]
  · rfl

theorem withOut_rendered (x : EmitState) (f : Output → Output) :
    (x.withOut f).rendered = x.rendered := rfl

theorem withOut_emitted (x : EmitState) (f : Output → Output) :
    (x.withOut f).emittedSymbols = x.emittedSymbols := rfl

theorem withOut_toEmit (x : EmitState) (f : Output → Output) :
    (x.withOut f).toEmit = x.toEmit := rfl

theorem withOut_out (x : EmitState) (f : Output → Output) :
    (x.withOut f).out = f x.out := rfl

theorem foldl_mE_rendered (gs : GlobalState) (ctx : PkgCtx) (l : List Nat)
    (st : EmitState) :
    (l.foldl (maybeEmit gs ctx) st).rendered = st.rendered :=
  (foldl_maybeEmit_fields gs ctx l st).2

theorem foldl_mE_out (gs : GlobalState) (ctx : PkgCtx) (l : List Nat)
    (st : EmitState) :
    (l.foldl (maybeEmit gs ctx) st).out = st.out :=
  (foldl_maybeEmit_fields gs ctx l st).1

/-- C8: method emission.  No output text is produced for an
already-processed, static-initializer or private method (the private case
still inserts the method into the visited set); for every other method
the declaration trace gains the method, every argument-type symbol (and,
with a sig, the return- and argument-type symbols of the sig) is enqueued
through maybeEmit in order, and the printed text is the chosen sig form
(exactly when a sig exists) followed by the def header with the `; end`
body placeholder. -/
theorem C8_method_emission (gs : GlobalState) (ctx : PkgCtx) (st : EmitState)
    (m : Nat) :
    (m ∈ st.emittedSymbols → emitMethod gs ctx st m = st)
    ∧ ((gs.syms m).name = staticInitName → emitMethod gs ctx st m = st)
    ∧ (m ∉ st.emittedSymbols → (gs.syms m).name ≠ staticInitName →
        (gs.syms m).mflags.isPrivate = true →
        emitMethod gs ctx st m =
          { st with emittedSymbols := m :: st.emittedSymbols })
    ∧ (m ∉ st.emittedSymbols → (gs.syms m).name ≠ staticInitName →
        (gs.syms m).mflags.isPrivate = false →
        (emitMethod gs ctx st m).rendered = m :: st.rendered
        ∧ (emitMethod gs ctx st m).emittedSymbols =
            ((methodArgSyms gs m ++ methodSigSyms gs m).foldl
              (maybeEmit gs ctx)
              { st with emittedSymbols := m :: st.emittedSymbols }).emittedSymbols
        ∧ (emitMethod gs ctx st m).toEmit =
            ((methodArgSyms gs m ++ methodSigSyms gs m).foldl
              (maybeEmit gs ctx)
              { st with emittedSymbols := m :: st.emittedSymbols }).toEmit
        ∧ (emitMethod gs ctx st m).out.buf =
            st.out.buf ++ sigBlockOf gs m st.out.indentLevel ++
              defBlockOf gs m st.out.indentLevel) := by
  refine ⟨?_, ?_, ?_, ?_⟩
  · intro hmem
    rw [emitMethod, if_pos hmem]
  · intro hname
    by_cases hmem : m ∈ st.emittedSymbols
    · rw [emitMethod, if_pos hmem]
    · rw [emitMethod, if_neg hmem, if_pos hname]
  · intro hmem hname hpriv
    rw [emitMethod, if_neg hmem, if_neg hname]
    dsimp only
    rw [if_pos hpriv]
  · intro hmem hname hpriv
    rw [emitMethod, if_neg hmem, if_neg hname]
    dsimp only
    rw [if_neg (by simp [hpriv])]
    rw [argfold_eq_foldl]
    rw [methodSigSyms]
    by_cases hsig : (gs.syms m).hasSig = true
    · rw [if_pos hsig, if_pos hsig]
      rw [prettySig_snd_eq, prettySig_fst_eq]
      refine ⟨?_, ?_, ?_, ?_⟩
      · simp only [withOut_rendered, foldl_mE_rendered]
      · rw [withOut_emitted, withOut_emitted, List.foldl_append]
        refine (foldl_maybeEmit_proj gs ctx _ _ _ ?_ ?_).1 <;> rfl
      · rw [withOut_toEmit, withOut_toEmit, List.foldl_append]
        refine (foldl_maybeEmit_proj gs ctx _ _ _ ?_ ?_).2 <;> rfl
      · have hout : ∀ (sigl argl : List Nat) (Y : EmitState),
            ((sigl.foldl (maybeEmit gs ctx)
              (let src := argl.foldl (maybeEmit gs ctx) Y
              { src with rendered := m :: (argl.foldl (maybeEmit gs ctx) Y).rendered }))).out
            = Y.out := by
          intro sigl argl Y
          rw [foldl_mE_out]
          show (argl.foldl (maybeEmit gs ctx) Y).out = Y.out
          rw [foldl_mE_out]
        rw [withOut_out, withOut_out]
        rw [hout]
        rw [(printlnInd_buf _ _).1]
        have hind := (printlnInd_buf
          (({ st with emittedSymbols := m :: st.emittedSymbols } :
            EmitState)).out (sigChosenOf gs m (gs.syms m).resultType)).2
        rw [(printlnInd_buf _ _).1, hind]
        rw [sigBlockOf, if_pos hsig, defBlockOf]
    · rw [if_neg hsig, if_neg hsig]
      refine ⟨?_, ?_, ?_, ?_⟩
      · rw [withOut_rendered, foldl_mE_rendered]
      · rw [withOut_emitted, List.foldl_append, List.foldl_nil]
        refine (foldl_maybeEmit_proj gs ctx _ _ _ ?_ ?_).1 <;> rfl
      · rw [withOut_toEmit, List.foldl_append, List.foldl_nil]
        refine (foldl_maybeEmit_proj gs ctx _ _ _ ?_ ?_).2 <;> rfl
      · rw [withOut_out, foldl_mE_out]
        show (Output.printlnInd st.out _).buf = _
        rw [(printlnInd_buf _ _).1]
        rw [sigBlockOf, if_neg hsig, defBlockOf]
        show st.out.buf ++ printedLine st.out.indentLevel _ =
          st.out.buf ++ "" ++ printedLine st.out.indentLevel _
        rw [String.append_empty]

theorem C8_witness :
    (emitMethod gsB ctxB initialEmitState 7).rendered =
      7 :: initialEmitState.rendered
    ∧ (emitMethod gsB ctxB initialEmitState 7).emittedSymbols =
        ((methodArgSyms gsB 7 ++ methodSigSyms gsB 7).foldl (maybeEmit gsB ctxB)
          { initialEmitState with
              emittedSymbols := 7 :: initialEmitState.emittedSymbols
          }).emittedSymbols
    ∧ (emitMethod gsB ctxB initialEmitState 7).toEmit =
        ((methodArgSyms gsB 7 ++ methodSigSyms gsB 7).foldl (maybeEmit gsB ctxB)
          { initialEmitState with
              emittedSymbols := 7 :: initialEmitState.emittedSymbols
          }).toEmit
    ∧ (emitMethod gsB ctxB initialEmitState 7).out.buf =
        initialEmitState.out.buf ++
          sigBlockOf gsB 7 initialEmitState.out.indentLevel ++
          defBlockOf gsB 7 initialEmitState.out.indentLevel :=
  (C8_method_emission gsB ctxB initialEmitState 7).2.2.2 (by decide) (by decide)
    (by decide)

-- The no-duplicates invariant stack (claim C2) -------------------------------

theorem bad_kind {gs : GlobalState} {s : Nat} (h : badFieldSym gs s = true) :
    (gs.syms s).kind = SymKind.fieldOrStaticField := by
  unfold badFieldSym at h
  exact of_decide_eq_true ((Bool.and_eq_true _ _).mp h).1

theorem bad_of_kind {gs : GlobalState} {s : Nat}
    (h : (gs.syms s).kind ≠ SymKind.fieldOrStaticField) :
    badFieldSym gs s = false := by
  unfold badFieldSym
  simp [h]

theorem kstep_rfl (st : EmitState) : KStep st st :=
  ⟨fun _ hx => hx, fun _ hx => hx, fun _ hx => hx, fun _ hx => Or.inl hx⟩

theorem kstep_trans {a b c : EmitState} (h1 : KStep a b) (h2 : KStep b c) :
    KStep a c := by
  refine ⟨fun x hx => h2.1 x (h1.1 x hx), fun x hx => h2.2.1 x (h1.2.1 x hx),
    fun x hx => h2.2.2.1 x (h1.2.2.1 x hx), fun x hx => ?_⟩
  rcases h2.2.2.2 x hx with hb | hb
  · exact h1.2.2.2 x hb
  · exact Or.inr (fun ha => hb (h1.1 x ha))

theorem ksil_rfl (st : EmitState) : KSil st st :=
  ⟨kstep_rfl st, rfl, rfl, rfl⟩

theorem ksil_trans {a b c : EmitState} (h1 : KSil a b) (h2 : KSil b c) :
    KSil a c :=
  ⟨kstep_trans h1.1 h2.1, h2.2.1.trans h1.2.1, h2.2.2.1.trans h1.2.2.1,
    h2.2.2.2.trans h1.2.2.2⟩

theorem kout_of_ksil {P : Nat → Prop} {a b : EmitState} (h : KSil a b) :
    KOut P a b :=
  ⟨h.1, h.2.1, h.2.2.1, fun x hx => Or.inr (h.2.2.2 ▸ hx)⟩

theorem kout_trans {P Q R : Nat → Prop} {a b c : EmitState}
    (h1 : KOut P a b) (h2 : KOut Q b c)
    (hP : ∀ x, P x → R x) (hQ : ∀ x, Q x → R x) : KOut R a c := by
  refine ⟨kstep_trans h1.1 h2.1, h2.2.1.trans h1.2.1, h2.2.2.1.trans h1.2.2.1,
    fun x hx => ?_⟩
  rcases h2.2.2.2 x hx with hq | hb
  · exact Or.inl (hQ x hq)
  · rcases h1.2.2.2 x hb with hp | ho
    · exact Or.inl (hP x hp)
    · exact Or.inr ho

theorem directJust_mono {gs : GlobalState} {st st' : EmitState} {s : Nat}
    (h : DirectJust gs st s) (hb : ∀ x ∈ st.bodyDone, x ∈ st'.bodyDone) :
    DirectJust gs st' s := by
  rcases h with ⟨c, hc, hcase⟩
  exact ⟨c, hb c hc, hcase⟩

theorem initJust_mono {gs : GlobalState} {st st' : EmitState} {s : Nat}
    (h : InitJust gs st s) (hi : ∀ x ∈ st.initRan, x ∈ st'.initRan) :
    InitJust gs st' s := by
  rcases h with ⟨c, hc, hp⟩
  exact ⟨c, hi c hc, hp⟩

theorem renderJust_mono {gs : GlobalState} {st st' : EmitState} {s : Nat}
    (h : RenderJust gs st s) (hs : KStep st st') : RenderJust gs st' s := by
  unfold RenderJust at h ⊢
  cases hk : (gs.syms s).kind with
  | classOrModule =>
      rw [hk] at h
      exact hs.2.1 s h
  | method =>
      rw [hk] at h
      rcases h with ⟨hm, hd⟩ | hi
      · exact Or.inl ⟨hs.1 s hm, directJust_mono hd hs.2.1⟩
      · exact Or.inr (initJust_mono hi hs.2.2.1)
  | typeMember =>
      rw [hk] at h
      exact hs.1 s h
  | fieldOrStaticField =>
      rw [hk] at h
      by_cases hb : badFieldSym gs s = true
      · rw [if_pos hb] at h ⊢
        exact directJust_mono h hs.2.1
      · rw [if_neg hb] at h ⊢
        refine ⟨hs.1 s h.1, fun hmem => ?_⟩
        rcases hs.2.2.2 s hmem with ht | he
        · exact h.2 ht
        · exact he (h.1)
  | typeArgument =>
      rw [hk] at h
      exact h.elim

theorem kinv_of_kstep_eqs {gs : GlobalState} {st st' : EmitState}
    (h : KInv gs st) (hs : KStep st st')
    (he : st'.emittedSymbols = st.emittedSymbols) (ht : st'.toEmit = st.toEmit)
    (hr : st'.rendered = st.rendered) (hb : st'.bodyDone = st.bodyDone)
    (hi : st'.initRan = st.initRan) : KInv gs st' := by
  refine ⟨he ▸ h.emN, ht ▸ h.teN, ?_, ?_, ?_, hr ▸ h.rnN, hb ▸ h.bdN,
    ?_, ?_, ?_, ?_, ?_⟩
  · intro s hsm; rw [he]; exact h.teE s (ht ▸ hsm)
  · intro s hsm; exact h.teS s (ht ▸ hsm)
  · intro s hsm; exact h.teB s (ht ▸ hsm)
  · intro c hc; rw [he]; exact h.bdE c (hb ▸ hc)
  · intro c hc; rw [ht]; exact h.bdT c (hb ▸ hc)
  · intro c hc; exact h.bdS c (hb ▸ hc)
  · intro c hc; rw [hb]; exact h.irB c (hi ▸ hc)
  · intro s hsm; exact renderJust_mono (h.just s (hr ▸ hsm)) hs

theorem kstep_withOut (st : EmitState) (f : Output → Output) :
    KStep st (st.withOut f) :=
  ⟨fun _ hx => hx, fun _ hx => hx, fun _ hx => hx, fun _ hx => Or.inl hx⟩

theorem ksil_withOut (st : EmitState) (f : Output → Output) :
    KSil st (st.withOut f) :=
  ⟨kstep_withOut st f, rfl, rfl, rfl⟩

theorem kinv_withOut {gs : GlobalState} {st : EmitState} (h : KInv gs st)
    (f : Output → Output) : KInv gs (st.withOut f) :=
  kinv_of_kstep_eqs h (kstep_withOut st f) rfl rfl rfl rfl rfl

theorem kstep_out_set (st : EmitState) (o : Output) :
    KStep st { st with out := o } :=
  ⟨fun _ hx => hx, fun _ hx => hx, fun _ hx => hx, fun _ hx => Or.inl hx⟩

theorem kinv_out_set {gs : GlobalState} {st : EmitState} (h : KInv gs st)
    (o : Output) : KInv gs { st with out := o } :=
  kinv_of_kstep_eqs h (kstep_out_set st o) rfl rfl rfl rfl rfl

theorem kstep_pop {st : EmitState} {s : Nat} {rest : List Nat}
    (hr : st.toEmit = s :: rest) : KStep st { st with toEmit := rest } :=
  ⟨fun _ hx => hx, fun _ hx => hx, fun _ hx => hx,
    fun x hx => Or.inl (by rw [hr]; exact List.mem_cons_of_mem _ hx)⟩

theorem kinv_pop {gs : GlobalState} {st : EmitState} {s : Nat} {rest : List Nat}
    (h : KInv gs st) (hr : st.toEmit = s :: rest) :
    KInv gs { st with toEmit := rest } := by
  have hsub : ∀ x ∈ rest, x ∈ st.toEmit := by
    intro x hx; rw [hr]; exact List.mem_cons_of_mem _ hx
  refine ⟨h.emN, ?_, fun x hx => h.teE x (hsub x hx),
    fun x hx => h.teS x (hsub x hx), fun x hx => h.teB x (hsub x hx),
    h.rnN, h.bdN, h.bdE, ?_, h.bdS, h.irB, ?_⟩
  · have := h.teN
    rw [hr] at this
    exact (List.nodup_cons.mp this).2
  · intro c hc hmem
    exact h.bdT c hc (hsub c hmem)
  · intro x hx
    exact renderJust_mono (h.just x hx) (kstep_pop hr)

theorem kstep_insert (st : EmitState) (k : Nat) :
    KStep st { st with emittedSymbols := k :: st.emittedSymbols } :=
  ⟨fun x hx => List.mem_cons_of_mem _ hx, fun _ hx => hx, fun _ hx => hx,
    fun x hx => Or.inl hx⟩

theorem kinv_insert {gs : GlobalState} {st : EmitState} {k : Nat}
    (h : KInv gs st) (hne : k ∉ st.emittedSymbols) :
    KInv gs { st with emittedSymbols := k :: st.emittedSymbols } := by
  refine ⟨List.nodup_cons.mpr ⟨hne, h.emN⟩, h.teN,
    fun x hx => List.mem_cons_of_mem _ (h.teE x hx), h.teS, h.teB,
    h.rnN, h.bdN, fun c hc => List.mem_cons_of_mem _ (h.bdE c hc), h.bdT,
    h.bdS, h.irB, fun x hx => renderJust_mono (h.just x hx) (kstep_insert st k)⟩

theorem kstep_mark_rendered (st : EmitState) (k : Nat) :
    KStep st { st with rendered := k :: st.rendered } :=
  ⟨fun _ hx => hx, fun _ hx => hx, fun _ hx => hx, fun x hx => Or.inl hx⟩

theorem kinv_mark_rendered {gs : GlobalState} {st : EmitState} {k : Nat}
    (h : KInv gs st) (hfr : k ∉ st.rendered) (hj : RenderJust gs st k) :
    KInv gs { st with rendered := k :: st.rendered } := by
  refine ⟨h.emN, h.teN, h.teE, h.teS, h.teB,
    List.nodup_cons.mpr ⟨hfr, h.rnN⟩, h.bdN, h.bdE, h.bdT, h.bdS, h.irB, ?_⟩
  intro x hx
  rcases List.mem_cons.mp hx with hx' | hx'
  · subst hx'
    exact renderJust_mono hj (kstep_mark_rendered st x)
  · exact renderJust_mono (h.just x hx') (kstep_mark_rendered st k)

theorem kstep_mark_bodyDone (st : EmitState) (k : Nat) :
    KStep st { st with bodyDone := k :: st.bodyDone } :=
  ⟨fun _ hx => hx, fun x hx => List.mem_cons_of_mem _ hx, fun _ hx => hx,
    fun x hx => Or.inl hx⟩

theorem kinv_mark_bodyDone {gs : GlobalState} {st : EmitState} {k : Nat}
    (h : KInv gs st) (hmem : k ∈ st.emittedSymbols) (hnt : k ∉ st.toEmit)
    (hnbd : k ∉ st.bodyDone) (hsing : (gs.syms k).isSingletonClass = false) :
    KInv gs { st with bodyDone := k :: st.bodyDone } := by
  refine ⟨h.emN, h.teN, h.teE, h.teS, h.teB, h.rnN,
    List.nodup_cons.mpr ⟨hnbd, h.bdN⟩, ?_, ?_, ?_,
    fun c hc => List.mem_cons_of_mem _ (h.irB c hc),
    fun x hx => renderJust_mono (h.just x hx) (kstep_mark_bodyDone st k)⟩
  · intro c hc
    rcases List.mem_cons.mp hc with hc' | hc'
    · subst hc'; exact hmem
    · exact h.bdE c hc'
  · intro c hc
    rcases List.mem_cons.mp hc with hc' | hc'
    · subst hc'; exact hnt
    · exact h.bdT c hc'
  · intro c hc
    rcases List.mem_cons.mp hc with hc' | hc'
    · subst hc'; exact hsing
    · exact h.bdS c hc'

theorem kstep_mark_initRan (st : EmitState) (k : Nat) :
    KStep st { st with initRan := k :: st.initRan } :=
  ⟨fun _ hx => hx, fun _ hx => hx, fun x hx => List.mem_cons_of_mem _ hx,
    fun x hx => Or.inl hx⟩

theorem kinv_mark_initRan {gs : GlobalState} {st : EmitState} {k : Nat}
    (h : KInv gs st) (hbd : k ∈ st.bodyDone) :
    KInv gs { st with initRan := k :: st.initRan } := by
  refine ⟨h.emN, h.teN, h.teE, h.teS, h.teB, h.rnN, h.bdN, h.bdE, h.bdT,
    h.bdS, ?_, fun x hx => renderJust_mono (h.just x hx)
      (kstep_mark_initRan st k)⟩
  intro c hc
  rcases List.mem_cons.mp hc with hc' | hc'
  · subst hc'; exact hbd
  · exact h.irB c hc'

theorem maybeEmit_kstep (gs : GlobalState) (ctx : PkgCtx) :
    ∀ (s : Nat) (st : EmitState), KStep st (maybeEmit gs ctx st s) := by
  intro s
  induction s using Nat.strong_induction_on with
  | _ s ih =>
      intro st
      rw [maybeEmit]
      split
      · cases ha : (gs.syms s).attachedClass with
        | some a => exact ih a (gs.attached_lt s a ha) st
        | none => exact kstep_rfl st
      · split
        · next hcond =>
            refine ⟨fun x hx => List.mem_cons_of_mem _ hx, fun x hx => hx,
              fun x hx => hx, fun x hx => ?_⟩
            rcases List.mem_cons.mp hx with hx' | hx'
            · subst hx'; exact Or.inr hcond.1
            · exact Or.inl hx'
        · exact kstep_rfl st

theorem maybeEmit_ksil (gs : GlobalState) (ctx : PkgCtx) (st : EmitState)
    (s : Nat) : KSil st (maybeEmit gs ctx st s) :=
  ⟨maybeEmit_kstep gs ctx s st, (maybeEmit_fields gs ctx st s).2.2.1,
    (maybeEmit_fields gs ctx st s).2.2.2, (maybeEmit_fields gs ctx st s).2.1⟩

theorem maybeEmit_K {gs : GlobalState} {pkg : PackageInfo}
    (hwf : SymTableWF gs pkg) (ctx : PkgCtx) :
    ∀ (s : Nat) (st : EmitState), badFieldSym gs s = false → KInv gs st →
    KInv gs (maybeEmit gs ctx st s) := by
  intro s
  induction s using Nat.strong_induction_on with
  | _ s ih =>
      intro st hnb h
      rw [maybeEmit]
      split
      · cases ha : (gs.syms s).attachedClass with
        | some a =>
            exact ih a (gs.attached_lt s a ha) st (hwf.attachedNotBad s a ha) h
        | none => exact h
      · next hsing =>
          split
          · next hcond =>
              have hnt : s ∉ st.toEmit := fun hm => hcond.1 (h.teE s hm)
              refine ⟨List.nodup_cons.mpr ⟨hcond.1, h.emN⟩,
                List.nodup_cons.mpr ⟨hnt, h.teN⟩, ?_, ?_, ?_, h.rnN, h.bdN,
                fun c hc => List.mem_cons_of_mem _ (h.bdE c hc), ?_, h.bdS,
                h.irB, ?_⟩
              · intro x hx
                rcases List.mem_cons.mp hx with hx' | hx'
                · subst hx'; exact List.mem_cons_self _ _
                · exact List.mem_cons_of_mem _ (h.teE x hx')
              · intro x hx
                rcases List.mem_cons.mp hx with hx' | hx'
                · subst hx'; exact Bool.eq_false_iff.mpr hsing
                · exact h.teS x hx'
              · intro x hx
                rcases List.mem_cons.mp hx with hx' | hx'
                · subst hx'; exact hnb
                · exact h.teB x hx'
              · intro c hc hmem
                rcases List.mem_cons.mp hmem with hm' | hm'
                · subst hm'; exact hcond.1 (h.bdE c hc)
                · exact h.bdT c hc hm'
              · intro x hx
                refine renderJust_mono (h.just x hx)
                  ⟨fun y hy => List.mem_cons_of_mem _ hy, fun y hy => hy,
                    fun y hy => hy, fun y hy => ?_⟩
                rcases List.mem_cons.mp hy with hy' | hy'
                · subst hy'; exact Or.inr hcond.1
                · exact Or.inl hy'
          · exact h

theorem foldl_mE_ksil (gs : GlobalState) (ctx : PkgCtx) :
    ∀ (l : List Nat) (st : EmitState),
    KSil st (l.foldl (maybeEmit gs ctx) st) := by
  intro l
  induction l with
  | nil => intro st; exact ksil_rfl st
  | cons x rest ih =>
      intro st
      rw [List.foldl_cons]
      exact ksil_trans (maybeEmit_ksil gs ctx st x) (ih (maybeEmit gs ctx st x))

theorem foldl_mE_K {gs : GlobalState} {pkg : PackageInfo}
    (hwf : SymTableWF gs pkg) (ctx : PkgCtx) :
    ∀ (l : List Nat) (st : EmitState), (∀ x ∈ l, badFieldSym gs x = false) →
    KInv gs st → KInv gs (l.foldl (maybeEmit gs ctx) st) := by
  intro l
  induction l with
  | nil => intro st _ h; exact h
  | cons x rest ih =>
      intro st hnb h
      rw [List.foldl_cons]
      exact ih _ (fun y hy => hnb y (List.mem_cons_of_mem _ hy))
        (maybeEmit_K hwf ctx x st (hnb x (List.mem_cons_self _ _)) h)

theorem enqueue_ksil (gs : GlobalState) (ctx : PkgCtx) (st : EmitState)
    (t : RType) : KSil st (enqueueSymbolsInType gs ctx st t) := by
  rw [enqueue_eq_foldl]
  exact foldl_mE_ksil gs ctx _ st

theorem enqueue_K {gs : GlobalState} {pkg : PackageInfo}
    (hwf : SymTableWF gs pkg) (ctx : PkgCtx) (st : EmitState) (t : RType)
    (hnb : ∀ x ∈ embeddedSyms t, badFieldSym gs x = false) (h : KInv gs st) :
    KInv gs (enqueueSymbolsInType gs ctx st t) := by
  rw [enqueue_eq_foldl]
  exact foldl_mE_K hwf ctx _ st hnb h

theorem methodArgSyms_notBad {gs : GlobalState} {pkg : PackageInfo}
    (hwf : SymTableWF gs pkg) (m : Nat) :
    ∀ x ∈ methodArgSyms gs m, badFieldSym gs x = false := by
  intro x hx
  unfold methodArgSyms at hx
  rw [List.mem_flatten] at hx
  obtain ⟨l, hl, hxl⟩ := hx
  rw [List.mem_map] at hl
  obtain ⟨a, ha, hfa⟩ := hl
  cases hat : a.type with
  | some t =>
      rw [hat] at hfa
      rw [← hfa] at hxl
      exact hwf.argTypesNotBad m a ha t hat x hxl
  | none =>
      rw [hat] at hfa
      rw [← hfa] at hxl
      exact absurd hxl (List.not_mem_nil x)

theorem sigSymsRM_notBad {gs : GlobalState} {pkg : PackageInfo}
    (hwf : SymTableWF gs pkg) (m : Nat) :
    ∀ x ∈ sigSymsRM gs m (gs.syms m).resultType,
    badFieldSym gs x = false := by
  intro x hx
  unfold sigSymsRM at hx
  rcases List.mem_append.mp hx with hx | hx
  · unfold sigRetTypeOf at hx
    cases hrt : (gs.syms m).resultType with
    | some t =>
        rw [hrt] at hx
        exact hwf.retTypeNotBad m t hrt x hx
    | none =>
        rw [hrt] at hx
        rw [show embeddedSyms (getResultTypeNR none) = [] from rfl] at hx
        exact absurd hx (List.not_mem_nil x)
  · rw [List.mem_flatten] at hx
    obtain ⟨l, hl, hxl⟩ := hx
    rw [List.mem_map] at hl
    obtain ⟨a, ha, hfa⟩ := hl
    have ha' : a ∈ (gs.syms m).arguments := List.mem_of_mem_filter ha
    cases hat : a.type with
    | some t =>
        have hgt : getResultTypeNR a.type = t := by rw [hat]; rfl
        rw [hgt] at hfa
        rw [← hfa] at hxl
        exact hwf.argTypesNotBad m a ha' t hat x hxl
    | none =>
        have hgt : getResultTypeNR a.type = untypedUntracked := by rw [hat]; rfl
        rw [hgt] at hfa
        rw [← hfa] at hxl
        rw [show embeddedSyms untypedUntracked = [] from rfl] at hxl
        exact absurd hxl (List.not_mem_nil x)

theorem prettySig_ksil (gs : GlobalState) (ctx : PkgCtx) (st : EmitState)
    (m : Nat) (r : Option RType) :
    KSil st (prettySigForMethod gs ctx st m r).2 := by
  rw [prettySig_snd_eq]
  exact foldl_mE_ksil gs ctx _ st

theorem prettySig_K {gs : GlobalState} {pkg : PackageInfo}
    (hwf : SymTableWF gs pkg) (ctx : PkgCtx) (st : EmitState) (m : Nat)
    (h : KInv gs st) :
    KInv gs (prettySigForMethod gs ctx st m (gs.syms m).resultType).2 := by
  rw [prettySig_snd_eq]
  exact foldl_mE_K hwf ctx _ st (sigSymsRM_notBad hwf m) h

theorem method_fresh {gs : GlobalState} {pkg : PackageInfo}
    (hwf : SymTableWF gs pkg) {st : EmitState} {c₀ m : Nat} {n : NRef}
    (hK : KInv gs st) (hpos : (n, m) ∈ (gs.syms c₀).members)
    (hni : n ≠ initializeName) (hne : m ∉ st.emittedSymbols)
    (hkm : (gs.syms m).kind = SymKind.method) : m ∉ st.rendered := by
  intro hmem
  have hj := hK.just m hmem
  unfold RenderJust at hj
  rw [hkm] at hj
  rcases hj with ⟨hm, _⟩ | ⟨c, hc, hp⟩
  · exact hne hm
  · exact hni (hwf.membersInj c c₀ initializeName n m hp hpos).2.symm

theorem method_fresh_singleton {gs : GlobalState} {pkg : PackageInfo}
    (hwf : SymTableWF gs pkg) {st : EmitState} {c₀ sc₀ m : Nat} {n : NRef}
    (hK : KInv gs st) (hsc : (gs.syms c₀).singletonClassOf = some sc₀)
    (hpos : (n, m) ∈ (gs.syms sc₀).members) (hne : m ∉ st.emittedSymbols)
    (hkm : (gs.syms m).kind = SymKind.method) : m ∉ st.rendered := by
  intro hmem
  have hj := hK.just m hmem
  unfold RenderJust at hj
  rw [hkm] at hj
  rcases hj with ⟨hm, _⟩ | ⟨c, hc, hp⟩
  · exact hne hm
  · have hinj := hwf.membersInj c sc₀ initializeName n m hp hpos
    have hcb : c ∈ st.bodyDone := hK.irB c hc
    rw [hinj.1] at hcb
    have h1 := hK.bdS sc₀ hcb
    have h2 := (hwf.singletonNe c₀ sc₀ hsc).2
    rw [h1] at h2
    exact Bool.false_ne_true h2

theorem badfield_fresh {gs : GlobalState} {pkg : PackageInfo}
    (hwf : SymTableWF gs pkg) {st : EmitState} {c₀ f : Nat} {n : NRef}
    (hK : KInv gs st) (hnbd : c₀ ∉ st.bodyDone)
    (hsing : (gs.syms c₀).isSingletonClass = false)
    (hpos : (n, f) ∈ (gs.syms c₀).members) (hb : badFieldSym gs f = true) :
    f ∉ st.rendered := by
  intro hmem
  have hj := hK.just f hmem
  unfold RenderJust at hj
  rw [bad_kind hb, if_pos hb] at hj
  rcases hj with ⟨c, hc, ⟨n', hp, _⟩ | ⟨sc, hscc, n', hp⟩⟩
  · have hinj := hwf.membersInj c c₀ n' n f hp hpos
    rw [hinj.1] at hc
    exact hnbd hc
  · have hinj := hwf.membersInj sc c₀ n' n f hp hpos
    rw [hinj.1] at hscc
    have h2 := (hwf.singletonNe c c₀ hscc).2
    rw [hsing] at h2
    exact Bool.false_ne_true h2

theorem badfield_fresh_singleton {gs : GlobalState} {pkg : PackageInfo}
    (hwf : SymTableWF gs pkg) {st : EmitState} {c₀ sc₀ f : Nat} {n : NRef}
    (hK : KInv gs st) (hnbd : c₀ ∉ st.bodyDone)
    (hsc : (gs.syms c₀).singletonClassOf = some sc₀)
    (hpos : (n, f) ∈ (gs.syms sc₀).members) (hb : badFieldSym gs f = true) :
    f ∉ st.rendered := by
  intro hmem
  have hj := hK.just f hmem
  unfold RenderJust at hj
  rw [bad_kind hb, if_pos hb] at hj
  rcases hj with ⟨c, hc, ⟨n', hp, _⟩ | ⟨sc, hscc, n', hp⟩⟩
  · have hinj := hwf.membersInj c sc₀ n' n f hp hpos
    rw [hinj.1] at hc
    have h1 := hK.bdS sc₀ hc
    have h2 := (hwf.singletonNe c₀ sc₀ hsc).2
    rw [h1] at h2
    exact Bool.false_ne_true h2
  · have hinj := hwf.membersInj sc sc₀ n' n f hp hpos
    rw [hinj.1] at hscc
    have heq := hwf.singletonInj c c₀ sc₀ hscc hsc
    rw [heq] at hc
    exact hnbd hc

theorem init_fresh {gs : GlobalState} {pkg : PackageInfo}
    (hwf : SymTableWF gs pkg) {st : EmitState} {c₀ m : Nat}
    (hK : KInv gs st) (hsing : (gs.syms c₀).isSingletonClass = false)
    (hnir : c₀ ∉ st.initRan)
    (hpos : (initializeName, m) ∈ (gs.syms c₀).members)
    (hkm : (gs.syms m).kind = SymKind.method) : m ∉ st.rendered := by
  intro hmem
  have hj := hK.just m hmem
  unfold RenderJust at hj
  rw [hkm] at hj
  rcases hj with ⟨_, c, hc, ⟨n', hp, hprov⟩ | ⟨sc, hscc, n', hp⟩⟩ | ⟨c, hc, hp⟩
  · exact (hprov hkm) (hwf.membersInj c c₀ n' initializeName m hp hpos).2
  · have hinj := hwf.membersInj sc c₀ n' initializeName m hp hpos
    rw [hinj.1] at hscc
    have h2 := (hwf.singletonNe c c₀ hscc).2
    rw [hsing] at h2
    exact Bool.false_ne_true h2
  · have hinj := hwf.membersInj c c₀ initializeName initializeName m hp hpos
    rw [hinj.1] at hc
    exact hnir hc

theorem kout_mark_rendered (st : EmitState) (k : Nat) :
    KOut (fun x => x = k) st { st with rendered := k :: st.rendered } :=
  ⟨kstep_mark_rendered st k, rfl, rfl,
    fun x hx => (List.mem_cons.mp hx).imp (fun h => h) (fun h => h)⟩

theorem kout_comp {P : Nat → Prop} {a b c : EmitState}
    (h1 : KOut P a b) (h2 : KOut P b c) : KOut P a c :=
  kout_trans h1 h2 (fun _ hx => hx) (fun _ hx => hx)

set_option maxHeartbeats 1600000 in
theorem emitMethod_K {gs : GlobalState} {pkg : PackageInfo}
    (hwf : SymTableWF gs pkg) (ctx : PkgCtx) {st : EmitState} {m : Nat}
    (h : KInv gs st) (hkm : (gs.syms m).kind = SymKind.method)
    (hJ : DirectJust gs st m)
    (hfr : m ∉ st.emittedSymbols → m ∉ st.rendered) :
    KInv gs (emitMethod gs ctx st m) ∧
    KOut (fun x => x = m) st (emitMethod gs ctx st m) := by
  rw [emitMethod]
  split
  · exact ⟨h, kout_of_ksil (ksil_rfl st)⟩
  · next hmem =>
      split
      · exact ⟨h, kout_of_ksil (ksil_rfl st)⟩
      · have h1 : KInv gs { st with emittedSymbols := m :: st.emittedSymbols } :=
          kinv_insert h hmem
        have hsil1 : KSil st { st with emittedSymbols := m :: st.emittedSymbols } :=
          ⟨kstep_insert st m, rfl, rfl, rfl⟩
        split
        · exact ⟨h1, kout_of_ksil hsil1⟩
        · have harg : KInv gs ((gs.syms m).arguments.foldl
              (fun (s : EmitState) (arg : ArgInfo) =>
                match arg.type with
                | some t => enqueueSymbolsInType gs ctx s t
                | none => s)
              { st with emittedSymbols := m :: st.emittedSymbols }) := by
            rw [argfold_eq_foldl]
            exact foldl_mE_K hwf ctx _ _
              (fun x hx => methodArgSyms_notBad hwf m x hx) h1
          have hsil2 : KSil { st with emittedSymbols := m :: st.emittedSymbols }
              ((gs.syms m).arguments.foldl
                (fun (s : EmitState) (arg : ArgInfo) =>
                  match arg.type with
                  | some t => enqueueSymbolsInType gs ctx s t
                  | none => s)
                { st with emittedSymbols := m :: st.emittedSymbols }) := by
            rw [argfold_eq_foldl]
            exact foldl_mE_ksil gs ctx _ _
          have hsil12 := ksil_trans hsil1 hsil2
          have hmm : m ∈ ((gs.syms m).arguments.foldl
              (fun (s : EmitState) (arg : ArgInfo) =>
                match arg.type with
                | some t => enqueueSymbolsInType gs ctx s t
                | none => s)
              { st with emittedSymbols := m :: st.emittedSymbols }).emittedSymbols :=
            hsil2.1.1 m (List.mem_cons_self _ _)
          have hfr2 : m ∉ ((gs.syms m).arguments.foldl
              (fun (s : EmitState) (arg : ArgInfo) =>
                match arg.type with
                | some t => enqueueSymbolsInType gs ctx s t
                | none => s)
              { st with emittedSymbols := m :: st.emittedSymbols }).rendered := by
            rw [hsil12.2.2.2]
            exact hfr hmem
          have hrj : RenderJust gs ((gs.syms m).arguments.foldl
              (fun (s : EmitState) (arg : ArgInfo) =>
                match arg.type with
                | some t => enqueueSymbolsInType gs ctx s t
                | none => s)
              { st with emittedSymbols := m :: st.emittedSymbols }) m := by
            unfold RenderJust
            rw [hkm]
            exact Or.inl ⟨hmm, directJust_mono hJ hsil12.1.2.1⟩
          have h3 := kinv_mark_rendered harg hfr2 hrj
          have kout3 : KOut (fun x => x = m) st _ :=
            kout_comp (kout_of_ksil hsil12) (kout_mark_rendered _ m)
          split
          · refine ⟨kinv_withOut (kinv_withOut (prettySig_K hwf ctx _ m h3) _) _, ?_⟩
            exact kout_comp kout3 (kout_comp (kout_of_ksil (prettySig_ksil gs ctx _ m _))
              (kout_comp (kout_of_ksil (ksil_withOut _ _)) (kout_of_ksil (ksil_withOut _ _))))
          · exact ⟨kinv_withOut h3 _,
              kout_comp kout3 (kout_of_ksil (ksil_withOut _ _))⟩

theorem emitField_K {gs : GlobalState} {st : EmitState} {f : Nat}
    (isCVar : Bool) (h : KInv gs st)
    (hkf : (gs.syms f).kind = SymKind.fieldOrStaticField)
    (hfr : f ∉ st.rendered)
    (hj : if badFieldSym gs f then DirectJust gs st f
          else f ∈ st.emittedSymbols ∧ f ∉ st.toEmit) :
    KInv gs (emitField gs st f isCVar) ∧
    KOut (fun x => x = f) st (emitField gs st f isCVar) := by
  have hrj : RenderJust gs st f := by
    unfold RenderJust
    rw [hkf]
    exact hj
  have h1 := kinv_mark_rendered h hfr hrj
  rw [emitField]
  split
  · split
    · exact ⟨h, kout_of_ksil (ksil_rfl st)⟩
    · split
      · exact ⟨kinv_withOut h1 _,
          kout_comp (kout_mark_rendered st f) (kout_of_ksil (ksil_withOut _ _))⟩
      · exact ⟨kinv_withOut h1 _,
          kout_comp (kout_mark_rendered st f) (kout_of_ksil (ksil_withOut _ _))⟩
  · exact ⟨kinv_withOut h1 _,
      kout_comp (kout_mark_rendered st f) (kout_of_ksil (ksil_withOut _ _))⟩

theorem emitTypeMember_K {gs : GlobalState} {st : EmitState} {tm : Nat}
    (h : KInv gs st) (hk : (gs.syms tm).kind = SymKind.typeMember) :
    KInv gs (emitTypeMember gs st tm) ∧
    KOut (fun x => (gs.syms x).kind = SymKind.typeMember) st
      (emitTypeMember gs st tm) := by
  rw [emitTypeMember]
  split
  · exact ⟨h, kout_of_ksil (ksil_rfl st)⟩
  · next hmem =>
      have h1 := kinv_insert h hmem
      have hsil1 : KSil st { st with emittedSymbols := tm :: st.emittedSymbols } :=
        ⟨kstep_insert st tm, rfl, rfl, rfl⟩
      split
      · exact ⟨h1, kout_of_ksil hsil1⟩
      · have hfr : tm ∉ st.rendered := by
          intro hm
          have hje := h.just tm hm
          unfold RenderJust at hje
          rw [hk] at hje
          exact hmem hje
        have hrj : RenderJust gs { st with emittedSymbols := tm :: st.emittedSymbols } tm := by
          unfold RenderJust
          rw [hk]
          exact List.mem_cons_self _ _
        have h2 := kinv_mark_rendered h1 hfr hrj
        have kout2 : KOut (fun x => (gs.syms x).kind = SymKind.typeMember) st
            { { st with emittedSymbols := tm :: st.emittedSymbols } with
              rendered := tm :: st.rendered } := by
          refine ⟨kstep_trans hsil1.1 (kstep_mark_rendered _ tm), rfl, rfl, ?_⟩
          intro x hx
          rcases List.mem_cons.mp hx with hx' | hx'
          · subst hx'
            exact Or.inl hk
          · exact Or.inr hx'
        split
        · exact ⟨kinv_withOut h2 _, kout_comp kout2 (kout_of_ksil (ksil_withOut _ _))⟩
        · exact ⟨kinv_withOut h2 _, kout_comp kout2 (kout_of_ksil (ksil_withOut _ _))⟩

theorem emitTypeMembersList_K {gs : GlobalState} :
    ∀ (l : List Nat) (st : EmitState),
    (∀ tm ∈ l, (gs.syms tm).kind = SymKind.typeMember) → KInv gs st →
    KInv gs (emitTypeMembersList gs st l) ∧
    KOut (fun x => (gs.syms x).kind = SymKind.typeMember) st
      (emitTypeMembersList gs st l) := by
  intro l
  induction l with
  | nil => intro st _ h; exact ⟨h, kout_of_ksil (ksil_rfl st)⟩
  | cons tm rest ih =>
      intro st hk h
      rw [emitTypeMembersList]
      have h1 := emitTypeMember_K h (hk tm (List.mem_cons_self _ _))
      have h2 := ih (emitTypeMember gs st tm)
        (fun x hx => hk x (List.mem_cons_of_mem _ hx)) h1.1
      exact ⟨h2.1, kout_comp h1.2 h2.2⟩

theorem emitMixins_K {gs : GlobalState} {pkg : PackageInfo}
    (hwf : SymTableWF gs pkg) (ctx : PkgCtx) :
    ∀ (l : List Nat) (st : EmitState), (∀ x ∈ l, badFieldSym gs x = false) →
    KInv gs st →
    KInv gs (emitMixins gs ctx st l) ∧ KSil st (emitMixins gs ctx st l) := by
  intro l
  induction l with
  | nil => intro st _ h; exact ⟨h, ksil_rfl st⟩
  | cons x rest ih =>
      intro st hnb h
      rw [emitMixins]
      have h1 := kinv_withOut h (fun o =>
        o.printlnRaw ((if (gs.syms x).isSingletonClass then "extend" else "include")
          ++ " " ++ (gs.syms x).showStr))
      have h2 := maybeEmit_K hwf ctx x _ (hnb x (List.mem_cons_self _ _)) h1
      have h3 := ih _ (fun y hy => hnb y (List.mem_cons_of_mem _ hy)) h2
      refine ⟨h3.1, ksil_trans (ksil_withOut st _)
        (ksil_trans (maybeEmit_ksil gs ctx _ x) h3.2)⟩

theorem emitSingletonMixins_K {gs : GlobalState} {pkg : PackageInfo}
    (hwf : SymTableWF gs pkg) (ctx : PkgCtx) :
    ∀ (l : List Nat) (st : EmitState), (∀ x ∈ l, badFieldSym gs x = false) →
    KInv gs st →
    KInv gs (emitSingletonMixins gs ctx st l) ∧
    KSil st (emitSingletonMixins gs ctx st l) := by
  intro l
  induction l with
  | nil => intro st _ h; exact ⟨h, ksil_rfl st⟩
  | cons x rest ih =>
      intro st hnb h
      rw [emitSingletonMixins]
      have h1 := kinv_withOut h (fun o =>
        o.printlnRaw ("extend " ++ (gs.syms x).showStr))
      have h2 := maybeEmit_K hwf ctx x _ (hnb x (List.mem_cons_self _ _)) h1
      have h3 := ih _ (fun y hy => hnb y (List.mem_cons_of_mem _ hy)) h2
      exact ⟨h3.1, ksil_trans (ksil_withOut st _)
        (ksil_trans (maybeEmit_ksil gs ctx _ x) h3.2)⟩

theorem emitEnumValues_K {gs : GlobalState} :
    ∀ (l : List Nat) (st : EmitState), KInv gs st →
    KInv gs (emitEnumValues gs st l) ∧ KSil st (emitEnumValues gs st l) := by
  intro l
  induction l with
  | nil => intro st h; exact ⟨h, ksil_rfl st⟩
  | cons x rest ih =>
      intro st h
      rw [emitEnumValues]
      have h1 := kinv_withOut h (fun o =>
        o.printlnRaw ((gs.syms x).name.str ++ " = new"))
      have h2 := ih _ h1
      exact ⟨h2.1, ksil_trans (ksil_withOut st _) h2.2⟩

theorem classSuperLine_K {gs : GlobalState} {pkg : PackageInfo}
    (hwf : SymTableWF gs pkg) (ctx : PkgCtx) (st : EmitState) (klass : Nat)
    (h : KInv gs st) :
    KInv gs (classSuperLine gs ctx st klass) ∧
    KSil st (classSuperLine gs ctx st klass) := by
  rw [classSuperLine]
  cases hsup : (gs.syms klass).superClass with
  | some sup =>
      by_cases hns : sup ≠ implicitModuleSuperClassSym
      · simp only [if_pos hns]
        exact ⟨kinv_withOut
          (maybeEmit_K hwf ctx sup st (hwf.superNotBad klass sup hsup) h) _,
          ksil_trans (maybeEmit_ksil gs ctx st sup) (ksil_withOut _ _)⟩
      · simp only [if_neg hns]
        exact ⟨kinv_withOut h _, ksil_withOut st _⟩
  | none => exact ⟨kinv_withOut h _, ksil_withOut st _⟩

theorem kinv_ite_withOut {gs : GlobalState} {a : EmitState} (c : Prop)
    [Decidable c] (f : Output → Output) (h : KInv gs a) :
    KInv gs (if c then a.withOut f else a) := by
  split
  · exact kinv_withOut h f
  · exact h

theorem ksil_ite_withOut (a : EmitState) (c : Prop) [Decidable c]
    (f : Output → Output) : KSil a (if c then a.withOut f else a) := by
  split
  · exact ksil_withOut a f
  · exact ksil_rfl a

theorem classFlagLines_K {gs : GlobalState} (st : EmitState) (klass : Nat)
    (h : KInv gs st) :
    KInv gs (classFlagLines gs st klass) ∧
    KSil st (classFlagLines gs st klass) := by
  rw [classFlagLines]
  refine ⟨kinv_ite_withOut _ _ (kinv_ite_withOut _ _ (kinv_ite_withOut _ _
    (kinv_ite_withOut _ _ h))), ?_⟩
  exact ksil_trans (ksil_ite_withOut _ _ _) (ksil_trans (ksil_ite_withOut _ _ _)
    (ksil_trans (ksil_ite_withOut _ _ _) (ksil_ite_withOut _ _ _)))

theorem bad_of_flag {gs : GlobalState} {f : Nat}
    (hk : (gs.syms f).kind = SymKind.fieldOrStaticField)
    (hf : (gs.syms f).isFieldFlag = true) : badFieldSym gs f = true := by
  unfold badFieldSym
  rw [hk, hf]
  simp

theorem bad_of_atat {gs : GlobalState} {f : Nat}
    (hk : (gs.syms f).kind = SymKind.fieldOrStaticField)
    (ha : (gs.syms f).name.str.startsWith "@@" = true) :
    badFieldSym gs f = true := by
  unfold badFieldSym
  rw [hk, ha]
  simp

theorem bad_false_of_static {gs : GlobalState} {f : Nat}
    (hf : (gs.syms f).isFieldFlag = false)
    (ha : (gs.syms f).name.str.startsWith "@@" = false) :
    badFieldSym gs f = false := by
  unfold badFieldSym
  rw [hf, ha]
  simp

theorem initFieldsFold_K {gs : GlobalState} (klass : Nat) :
    ∀ (fields : List Nat) (st : EmitState), KInv gs st → fields.Nodup →
    klass ∈ st.bodyDone →
    (∀ f ∈ fields, (∃ n, (n, f) ∈ (gs.syms klass).members) ∧
      badFieldSym gs f = true ∧ f ∉ st.rendered) →
    KInv gs (fields.foldl (fun s f => emitField gs s f false) st) ∧
    KOut (fun x => ∃ n, (n, x) ∈ (gs.syms klass).members) st
      (fields.foldl (fun s f => emitField gs s f false) st) := by
  intro fields
  induction fields with
  | nil => intro st h _ _ _; exact ⟨h, kout_of_ksil (ksil_rfl st)⟩
  | cons f fs ih =>
      intro st h hN hbd hf
      rw [List.foldl_cons]
      have hff := hf f (List.mem_cons_self _ _)
      obtain ⟨⟨n, hpos⟩, hb, hfr⟩ := hff
      have hkf := bad_kind hb
      have hj : if badFieldSym gs f then DirectJust gs st f
          else f ∈ st.emittedSymbols ∧ f ∉ st.toEmit := by
        rw [if_pos hb]
        exact ⟨klass, hbd, Or.inl ⟨n, hpos,
          fun hmm => absurd (hkf.symm.trans hmm) (by decide)⟩⟩
      have h1 := emitField_K false h hkf hfr hj
      have hbd1 : klass ∈ (emitField gs st f false).bodyDone := by
        rw [h1.2.2.1]
        exact hbd
      have hfs : ∀ g ∈ fs, (∃ n, (n, g) ∈ (gs.syms klass).members) ∧
          badFieldSym gs g = true ∧ g ∉ (emitField gs st f false).rendered := by
        intro g hg
        obtain ⟨hp, hbg, hfrg⟩ := hf g (List.mem_cons_of_mem _ hg)
        refine ⟨hp, hbg, fun hmem => ?_⟩
        rcases h1.2.2.2.2 g hmem with hgf | hgo
        · subst hgf
          exact (List.nodup_cons.mp hN).1 hg
        · exact hfrg hgo
      have h2 := ih (emitField gs st f false) h1.1 (List.nodup_cons.mp hN).2
        hbd1 hfs
      refine ⟨h2.1, kout_trans h1.2 h2.2 ?_ (fun x hx => hx)⟩
      intro x hx
      subst hx
      exact ⟨n, hpos⟩

theorem renderInitBody_K {gs : GlobalState} (klass : Nat) {st : EmitState}
    (methodDef : String) (fields : List Nat) (h : KInv gs st)
    (hbd : klass ∈ st.bodyDone) (hfN : fields.Nodup)
    (hf : ∀ f ∈ fields, (∃ n, (n, f) ∈ (gs.syms klass).members) ∧
      badFieldSym gs f = true ∧ f ∉ st.rendered) :
    KInv gs (renderInitBody gs st methodDef fields) ∧
    KOut (fun x => ∃ n, (n, x) ∈ (gs.syms klass).members) st
      (renderInitBody gs st methodDef fields) := by
  rw [renderInitBody]
  split
  · exact ⟨kinv_withOut h _, kout_of_ksil (ksil_withOut st _)⟩
  · have h1 : KInv gs ((st.withOut (fun o => o.printlnInd methodDef)).withOut
        Output.tab) := kinv_withOut (kinv_withOut h _) _
    have hs1 : KSil st ((st.withOut (fun o => o.printlnInd methodDef)).withOut
        Output.tab) := ksil_trans (ksil_withOut st _) (ksil_withOut _ _)
    have hbd1 : klass ∈ ((st.withOut (fun o => o.printlnInd methodDef)).withOut
        Output.tab).bodyDone := by
      rw [hs1.2.1]
      exact hbd
    have hf1 : ∀ f ∈ fields, (∃ n, (n, f) ∈ (gs.syms klass).members) ∧
        badFieldSym gs f = true ∧
        f ∉ ((st.withOut (fun o => o.printlnInd methodDef)).withOut
          Output.tab).rendered := by
      intro f hfm
      obtain ⟨hp, hb, hfr⟩ := hf f hfm
      refine ⟨hp, hb, ?_⟩
      rw [hs1.2.2.2]
      exact hfr
    have h2 := initFieldsFold_K klass fields _ h1 hfN hbd1 hf1
    refine ⟨kinv_withOut (kinv_withOut h2.1 _) _, ?_⟩
    refine kout_comp (kout_of_ksil hs1) (kout_comp h2.2
      (kout_of_ksil (ksil_trans (ksil_withOut _ _) (ksil_withOut _ _))))

theorem maybeEmitInitialized_K {gs : GlobalState} {pkg : PackageInfo}
    (hwf : SymTableWF gs pkg) (ctx : PkgCtx) (klass : Nat) {st : EmitState}
    (method : Option Nat) (fields : List Nat)
    (hK : KInv gs st) (hbd : klass ∈ st.bodyDone) (hirk : klass ∈ st.initRan)
    (hm : ∀ m, method = some m → (initializeName, m) ∈ (gs.syms klass).members
      ∧ (gs.syms m).kind = SymKind.method ∧ m ∉ st.rendered)
    (hfN : fields.Nodup)
    (hf : ∀ f ∈ fields, (∃ n, (n, f) ∈ (gs.syms klass).members) ∧
      badFieldSym gs f = true ∧ f ∉ st.rendered) :
    KInv gs (maybeEmitInitialized gs ctx st method fields) ∧
    KOut (fun x => ∃ n, (n, x) ∈ (gs.syms klass).members) st
      (maybeEmitInitialized gs ctx st method fields) := by
  cases method with
  | none =>
      rw [maybeEmitInitialized]
      split
      · exact ⟨hK, kout_of_ksil (ksil_rfl st)⟩
      · have h1 : KInv gs (st.withOut (fun o => o.printlnInd "sig \x7bvoid\x7d")) :=
          kinv_withOut hK _
        have hs1 := ksil_withOut st (fun o => o.printlnInd "sig \x7bvoid\x7d")
        have hbd1 : klass ∈ (st.withOut
            (fun o => o.printlnInd "sig \x7bvoid\x7d")).bodyDone := hbd
        have hf1 : ∀ f ∈ fields, (∃ n, (n, f) ∈ (gs.syms klass).members) ∧
            badFieldSym gs f = true ∧ f ∉ (st.withOut
              (fun o => o.printlnInd "sig \x7bvoid\x7d")).rendered := hf
        have h2 := renderInitBody_K klass "def initialize" fields h1 hbd1 hfN hf1
        exact ⟨h2.1, kout_comp (kout_of_ksil hs1) h2.2⟩
  | some m =>
      rw [maybeEmitInitialized]
      split
      · exact ⟨hK, kout_of_ksil (ksil_rfl st)⟩
      · obtain ⟨hpos, hkm, hfrm⟩ := hm m rfl
        have hsig : KInv gs (if (gs.syms m).hasSig then
            ((prettySigForMethod gs ctx st m (gs.syms m).resultType).2.withOut
              (fun o => o.printlnInd
                (prettySigForMethod gs ctx st m (gs.syms m).resultType).1))
            else st) := by
          split
          · exact kinv_withOut (prettySig_K hwf ctx st m hK) _
          · exact hK
        have hssig : KSil st (if (gs.syms m).hasSig then
            ((prettySigForMethod gs ctx st m (gs.syms m).resultType).2.withOut
              (fun o => o.printlnInd
                (prettySigForMethod gs ctx st m (gs.syms m).resultType).1))
            else st) := by
          split
          · exact ksil_trans (prettySig_ksil gs ctx st m _) (ksil_withOut _ _)
          · exact ksil_rfl st
        have hfrm1 : m ∉ (if (gs.syms m).hasSig then
            ((prettySigForMethod gs ctx st m (gs.syms m).resultType).2.withOut
              (fun o => o.printlnInd
                (prettySigForMethod gs ctx st m (gs.syms m).resultType).1))
            else st).rendered := by
          rw [hssig.2.2.2]
          exact hfrm
        have hrj : RenderJust gs (if (gs.syms m).hasSig then
            ((prettySigForMethod gs ctx st m (gs.syms m).resultType).2.withOut
              (fun o => o.printlnInd
                (prettySigForMethod gs ctx st m (gs.syms m).resultType).1))
            else st) m := by
          unfold RenderJust
          rw [hkm]
          exact Or.inr ⟨klass, hssig.1.2.2.1 klass hirk, hpos⟩
        have h2 := kinv_mark_rendered hsig hfrm1 hrj
        have hbd2 : klass ∈ ({ (if (gs.syms m).hasSig then
            ((prettySigForMethod gs ctx st m (gs.syms m).resultType).2.withOut
              (fun o => o.printlnInd
                (prettySigForMethod gs ctx st m (gs.syms m).resultType).1))
            else st) with rendered := m :: (if (gs.syms m).hasSig then
            ((prettySigForMethod gs ctx st m (gs.syms m).resultType).2.withOut
              (fun o => o.printlnInd
                (prettySigForMethod gs ctx st m (gs.syms m).resultType).1))
            else st).rendered } : EmitState).bodyDone :=
          hssig.1.2.1 klass hbd
        have hf2 : ∀ f ∈ fields, (∃ n, (n, f) ∈ (gs.syms klass).members) ∧
            badFieldSym gs f = true ∧
            f ∉ ({ (if (gs.syms m).hasSig then
              ((prettySigForMethod gs ctx st m (gs.syms m).resultType).2.withOut
                (fun o => o.printlnInd
                  (prettySigForMethod gs ctx st m (gs.syms m).resultType).1))
              else st) with rendered := m :: (if (gs.syms m).hasSig then
              ((prettySigForMethod gs ctx st m (gs.syms m).resultType).2.withOut
                (fun o => o.printlnInd
                  (prettySigForMethod gs ctx st m (gs.syms m).resultType).1))
              else st).rendered } : EmitState).rendered := by
          intro f hfm
          obtain ⟨hp, hb, hfr⟩ := hf f hfm
          refine ⟨hp, hb, fun hmem => ?_⟩
          rcases List.mem_cons.mp hmem with hfm' | hfm'
          · subst hfm'
            exact absurd ((bad_kind hb).symm.trans hkm) (by decide)
          · rw [hssig.2.2.2] at hfm'
            exact hfr hfm'
        have h3 := renderInitBody_K klass (prettyDefForMethod gs m) fields h2
          hbd2 hfN hf2
        refine ⟨h3.1, ?_⟩
        refine kout_comp (kout_of_ksil hssig) (kout_comp ?_ h3.2)
        refine ⟨kstep_mark_rendered _ m, rfl, rfl, ?_⟩
        intro x hx
        rcases List.mem_cons.mp hx with hx' | hx'
        · subst hx'
          exact Or.inl ⟨initializeName, hpos⟩
        · exact Or.inr hx'

theorem classEnumBlock_K {gs : GlobalState} (isEnum : Bool)
    (pendingEnums : List Nat) (st : EmitState) (h : KInv gs st) :
    KInv gs (classEnumBlock gs isEnum pendingEnums st) ∧
    KSil st (classEnumBlock gs isEnum pendingEnums st) := by
  rw [classEnumBlock]
  split
  · have h1 : KInv gs ((st.withOut (fun o => o.printlnInd "enums do")).withOut
        Output.tab) := kinv_withOut (kinv_withOut h _) _
    have hs1 : KSil st ((st.withOut (fun o => o.printlnInd "enums do")).withOut
        Output.tab) := ksil_trans (ksil_withOut st _) (ksil_withOut _ _)
    have h2 := emitEnumValues_K pendingEnums _ h1
    exact ⟨kinv_withOut (kinv_withOut h2.1 _) _,
      ksil_trans hs1 (ksil_trans h2.2
        (ksil_trans (ksil_withOut _ _) (ksil_withOut _ _)))⟩
  · exact ⟨h, ksil_rfl st⟩

set_option maxHeartbeats 3200000 in
theorem processMembers_K {gs : GlobalState} {pkg : PackageInfo}
    (hwf : SymTableWF gs pkg) (ctx : PkgCtx) (klass : Nat) (isEnum : Bool) :
    ∀ (L : List (NRef × Nat)) (acc : MemberAcc),
    KInv gs acc.st →
    (∀ p ∈ L, p ∈ (gs.syms klass).members) →
    (List.map Prod.snd L).Nodup →
    klass ∈ acc.st.bodyDone →
    klass ∉ acc.st.initRan →
    (∀ p ∈ L, badFieldSym gs p.2 = true → p.2 ∉ acc.st.rendered) →
    acc.pendingFields.Nodup →
    (∀ f ∈ acc.pendingFields, (∃ n, (n, f) ∈ (gs.syms klass).members) ∧
      badFieldSym gs f = true ∧ f ∉ acc.st.rendered) →
    (∀ p ∈ L, p.2 ∉ acc.pendingFields) →
    (∀ m, acc.initMethod = some m →
      (initializeName, m) ∈ (gs.syms klass).members ∧
      (gs.syms m).kind = SymKind.method) →
    KInv gs (processMembers gs ctx klass isEnum acc L).st ∧
    KOut (fun x => ∃ n, (n, x) ∈ (gs.syms klass).members) acc.st
      (processMembers gs ctx klass isEnum acc L).st ∧
    (processMembers gs ctx klass isEnum acc L).pendingFields.Nodup ∧
    (∀ f ∈ (processMembers gs ctx klass isEnum acc L).pendingFields,
      (∃ n, (n, f) ∈ (gs.syms klass).members) ∧ badFieldSym gs f = true ∧
      f ∉ (processMembers gs ctx klass isEnum acc L).st.rendered) ∧
    (∀ m, (processMembers gs ctx klass isEnum acc L).initMethod = some m →
      (initializeName, m) ∈ (gs.syms klass).members ∧
      (gs.syms m).kind = SymKind.method) := by
  intro L
  induction L with
  | nil =>
      intro acc h _ _ _ _ _ hpfN hpf _ hinit
      rw [processMembers]
      exact ⟨h, kout_of_ksil (ksil_rfl _), hpfN, hpf, hinit⟩
  | cons p rest ih =>
      obtain ⟨nm, member⟩ := p
      intro acc h hLm hLn hbd hir hLf hpfN hpf hpfL hinit
      rw [List.map_cons] at hLn
      have hmemN : member ∉ List.map Prod.snd rest := (List.nodup_cons.mp hLn).1
      have hLn' := (List.nodup_cons.mp hLn).2
      have hLm' : ∀ q ∈ rest, q ∈ (gs.syms klass).members :=
        fun q hq => hLm q (List.mem_cons_of_mem _ hq)
      have hposh : (nm, member) ∈ (gs.syms klass).members :=
        hLm _ (List.mem_cons_self _ _)
      rw [processMembers]
      by_cases hskip : shouldSkipMember nm = true
      · simp only [if_pos hskip]
        exact ih acc h hLm' hLn' hbd hir
          (fun q hq => hLf q (List.mem_cons_of_mem _ hq)) hpfN hpf
          (fun q hq => hpfL q (List.mem_cons_of_mem _ hq)) hinit
      · simp only [if_neg hskip]
        cases hk : (gs.syms member).kind with
        | classOrModule =>
            by_cases hen : isEnum = true ∧ (gs.syms member).superClass = some klass
            · simp only [if_pos hen]
              exact ih { acc with pendingEnums := acc.pendingEnums ++ [member] }
                h hLm' hLn' hbd hir
                (fun q hq => hLf q (List.mem_cons_of_mem _ hq)) hpfN hpf
                (fun q hq => hpfL q (List.mem_cons_of_mem _ hq)) hinit
            · simp only [if_neg hen]
              have hbadm : badFieldSym gs member = false :=
                bad_of_kind (by rw [hk]; decide)
              have h1 := maybeEmit_K hwf ctx member acc.st hbadm h
              have hs1 := maybeEmit_ksil gs ctx acc.st member
              have hres := ih { acc with st := maybeEmit gs ctx acc.st member }
                h1 hLm' hLn'
                (by rw [show ({ acc with st := maybeEmit gs ctx acc.st member } : MemberAcc).st.bodyDone = acc.st.bodyDone from hs1.2.1]; exact hbd)
                (by rw [show ({ acc with st := maybeEmit gs ctx acc.st member } : MemberAcc).st.initRan = acc.st.initRan from hs1.2.2.1]; exact hir)
                (by
                  intro q hq hbq
                  rw [show ({ acc with st := maybeEmit gs ctx acc.st member } : MemberAcc).st.rendered = acc.st.rendered from hs1.2.2.2]
                  exact hLf q (List.mem_cons_of_mem _ hq) hbq)
                hpfN
                (by
                  intro f hf
                  obtain ⟨hp, hb, hfr⟩ := hpf f hf
                  refine ⟨hp, hb, ?_⟩
                  rw [show ({ acc with st := maybeEmit gs ctx acc.st member } : MemberAcc).st.rendered = acc.st.rendered from hs1.2.2.2]
                  exact hfr)
                (fun q hq => hpfL q (List.mem_cons_of_mem _ hq)) hinit
              exact ⟨hres.1, kout_comp (kout_of_ksil hs1) hres.2.1,
                hres.2.2.1, hres.2.2.2.1, hres.2.2.2.2⟩
        | typeMember =>
            exact ih acc h hLm' hLn' hbd hir
              (fun q hq => hLf q (List.mem_cons_of_mem _ hq)) hpfN hpf
              (fun q hq => hpfL q (List.mem_cons_of_mem _ hq)) hinit
        | typeArgument =>
            exact ih acc h hLm' hLn' hbd hir
              (fun q hq => hLf q (List.mem_cons_of_mem _ hq)) hpfN hpf
              (fun q hq => hpfL q (List.mem_cons_of_mem _ hq)) hinit
        | method =>
            by_cases hni : nm = initializeName
            · simp only [if_pos hni]
              refine ih { acc with initMethod := some member } h hLm' hLn' hbd
                hir (fun q hq => hLf q (List.mem_cons_of_mem _ hq)) hpfN hpf
                (fun q hq => hpfL q (List.mem_cons_of_mem _ hq)) ?_
              intro m hm
              injection hm with hm'
              subst hm'
              rw [hni] at hposh
              exact ⟨hposh, hk⟩
            · simp only [if_neg hni]
              have hJ : DirectJust gs acc.st member :=
                ⟨klass, hbd, Or.inl ⟨nm, hposh, fun _ => hni⟩⟩
              have hfr : member ∉ acc.st.emittedSymbols →
                  member ∉ acc.st.rendered :=
                fun hne => method_fresh hwf h hposh hni hne hk
              have h1 := emitMethod_K hwf ctx h hk hJ hfr
              have hres := ih { acc with st := emitMethod gs ctx acc.st member }
                h1.1 hLm' hLn'
                (by rw [show ({ acc with st := emitMethod gs ctx acc.st member } : MemberAcc).st.bodyDone = acc.st.bodyDone from h1.2.2.1]; exact hbd)
                (by rw [show ({ acc with st := emitMethod gs ctx acc.st member } : MemberAcc).st.initRan = acc.st.initRan from h1.2.2.2.1]; exact hir)
                (by
                  intro q hq hbq hmem
                  rcases h1.2.2.2.2 q.2 hmem with he | ho
                  · exact hmemN (he ▸ List.mem_map.mpr ⟨q, hq, rfl⟩)
                  · exact hLf q (List.mem_cons_of_mem _ hq) hbq ho)
                hpfN
                (by
                  intro f hf
                  obtain ⟨hp, hb, hfro⟩ := hpf f hf
                  refine ⟨hp, hb, fun hmem => ?_⟩
                  rcases h1.2.2.2.2 f hmem with he | ho
                  · exact hpfL (nm, member) (List.mem_cons_self _ _) (he ▸ hf)
                  · exact hfro ho)
                (fun q hq => hpfL q (List.mem_cons_of_mem _ hq)) hinit
              refine ⟨hres.1, ?_, hres.2.2.1, hres.2.2.2.1, hres.2.2.2.2⟩
              refine kout_trans h1.2 hres.2.1 ?_ (fun x hx => hx)
              intro x hx
              subst hx
              exact ⟨nm, hposh⟩
        | fieldOrStaticField =>
            by_cases hff : (gs.syms member).isFieldFlag = true
            · simp only [if_pos hff]
              have hbm := bad_of_flag hk hff
              refine ih { acc with pendingFields := acc.pendingFields ++ [member] }
                h hLm' hLn' hbd hir
                (fun q hq => hLf q (List.mem_cons_of_mem _ hq)) ?_ ?_ ?_ hinit
              · rw [List.nodup_append]
                refine ⟨hpfN, List.nodup_singleton _, ?_⟩
                intro a ha hb
                rw [List.mem_singleton] at hb
                rw [hb] at ha
                exact hpfL (nm, member) (List.mem_cons_self _ _) ha
              · intro f hf
                rcases List.mem_append.mp hf with hf' | hf'
                · exact hpf f hf'
                · rw [List.mem_singleton] at hf'
                  rw [hf']
                  exact ⟨⟨nm, hposh⟩, hbm,
                    hLf (nm, member) (List.mem_cons_self _ _) hbm⟩
              · intro q hq hqm
                rcases List.mem_append.mp hqm with hq' | hq'
                · exact hpfL q (List.mem_cons_of_mem _ hq) hq'
                · rw [List.mem_singleton] at hq'
                  exact hmemN (hq' ▸ List.mem_map.mpr ⟨q, hq, rfl⟩)
            · simp only [if_neg hff]
              by_cases hat : (gs.syms member).name.str.startsWith "@@" = true
              · simp only [if_pos hat]
                have hbm := bad_of_atat hk hat
                have hfrm := hLf (nm, member) (List.mem_cons_self _ _) hbm
                have hj : if badFieldSym gs member then DirectJust gs acc.st member
                    else member ∈ acc.st.emittedSymbols ∧
                      member ∉ acc.st.toEmit := by
                  rw [if_pos hbm]
                  exact ⟨klass, hbd, Or.inl ⟨nm, hposh,
                    fun hmm => absurd (hk.symm.trans hmm) (by decide)⟩⟩
                have h1 := emitField_K true h hk hfrm hj
                have hres := ih { acc with st := emitField gs acc.st member true }
                  h1.1 hLm' hLn'
                  (by rw [show ({ acc with st := emitField gs acc.st member true } : MemberAcc).st.bodyDone = acc.st.bodyDone from h1.2.2.1]; exact hbd)
                  (by rw [show ({ acc with st := emitField gs acc.st member true } : MemberAcc).st.initRan = acc.st.initRan from h1.2.2.2.1]; exact hir)
                  (by
                    intro q hq hbq hmem
                    rcases h1.2.2.2.2 q.2 hmem with he | ho
                    · exact hmemN (he ▸ List.mem_map.mpr ⟨q, hq, rfl⟩)
                    · exact hLf q (List.mem_cons_of_mem _ hq) hbq ho)
                  hpfN
                  (by
                    intro f hf
                    obtain ⟨hp, hb, hfro⟩ := hpf f hf
                    refine ⟨hp, hb, fun hmem => ?_⟩
                    rcases h1.2.2.2.2 f hmem with he | ho
                    · exact hpfL (nm, member) (List.mem_cons_self _ _) (he ▸ hf)
                    · exact hfro ho)
                  (fun q hq => hpfL q (List.mem_cons_of_mem _ hq)) hinit
                refine ⟨hres.1, ?_, hres.2.2.1, hres.2.2.2.1, hres.2.2.2.2⟩
                refine kout_trans h1.2 hres.2.1 ?_ (fun x hx => hx)
                intro x hx
                subst hx
                exact ⟨nm, hposh⟩
              · simp only [if_neg hat]
                have hbadm : badFieldSym gs member = false :=
                  bad_false_of_static (Bool.eq_false_iff.mpr hff)
                    (Bool.eq_false_iff.mpr hat)
                have h1 := maybeEmit_K hwf ctx member acc.st hbadm h
                have hs1 := maybeEmit_ksil gs ctx acc.st member
                have hres := ih { acc with st := maybeEmit gs ctx acc.st member }
                  h1 hLm' hLn'
                  (by rw [show ({ acc with st := maybeEmit gs ctx acc.st member } : MemberAcc).st.bodyDone = acc.st.bodyDone from hs1.2.1]; exact hbd)
                  (by rw [show ({ acc with st := maybeEmit gs ctx acc.st member } : MemberAcc).st.initRan = acc.st.initRan from hs1.2.2.1]; exact hir)
                  (by
                    intro q hq hbq
                    rw [show ({ acc with st := maybeEmit gs ctx acc.st member } : MemberAcc).st.rendered = acc.st.rendered from hs1.2.2.2]
                    exact hLf q (List.mem_cons_of_mem _ hq) hbq)
                  hpfN
                  (by
                    intro f hf
                    obtain ⟨hp, hb, hfr⟩ := hpf f hf
                    refine ⟨hp, hb, ?_⟩
                    rw [show ({ acc with st := maybeEmit gs ctx acc.st member } : MemberAcc).st.rendered = acc.st.rendered from hs1.2.2.2]
                    exact hfr)
                  (fun q hq => hpfL q (List.mem_cons_of_mem _ hq)) hinit
                exact ⟨hres.1, kout_comp (kout_of_ksil hs1) hres.2.1,
                  hres.2.2.1, hres.2.2.2.1, hres.2.2.2.2⟩

set_option maxHeartbeats 3200000 in
theorem processSingletonMembers_K {gs : GlobalState} {pkg : PackageInfo}
    (hwf : SymTableWF gs pkg) (ctx : PkgCtx) (klass sc : Nat) (isEnum : Bool)
    (hsc : (gs.syms klass).singletonClassOf = some sc) :
    ∀ (L : List (NRef × Nat)) (st : EmitState),
    KInv gs st →
    (∀ p ∈ L, p ∈ (gs.syms sc).members) →
    (List.map Prod.snd L).Nodup →
    klass ∈ st.bodyDone →
    (∀ p ∈ L, badFieldSym gs p.2 = true → p.2 ∉ st.rendered) →
    KInv gs (processSingletonMembers gs ctx isEnum st L) ∧
    KStep st (processSingletonMembers gs ctx isEnum st L) := by
  intro L
  induction L with
  | nil =>
      intro st h _ _ _ _
      rw [processSingletonMembers]
      exact ⟨h, kstep_rfl st⟩
  | cons p rest ih =>
      obtain ⟨nm, member⟩ := p
      intro st h hLm hLn hbd hLf
      rw [List.map_cons] at hLn
      have hmemN : member ∉ List.map Prod.snd rest := (List.nodup_cons.mp hLn).1
      have hLn' := (List.nodup_cons.mp hLn).2
      have hLm' : ∀ q ∈ rest, q ∈ (gs.syms sc).members :=
        fun q hq => hLm q (List.mem_cons_of_mem _ hq)
      have hposh : (nm, member) ∈ (gs.syms sc).members :=
        hLm _ (List.mem_cons_self _ _)
      rw [processSingletonMembers]
      by_cases hskip : shouldSkipMember nm = true
      · simp only [if_pos hskip]
        exact ih st h hLm' hLn' hbd
          (fun q hq => hLf q (List.mem_cons_of_mem _ hq))
      · simp only [if_neg hskip]
        cases hk : (gs.syms member).kind with
        | classOrModule =>
            have hbadm : badFieldSym gs member = false :=
              bad_of_kind (by rw [hk]; decide)
            have h1 := maybeEmit_K hwf ctx member st hbadm h
            have hs1 := maybeEmit_ksil gs ctx st member
            have hres := ih (maybeEmit gs ctx st member) h1 hLm' hLn'
              (by rw [hs1.2.1]; exact hbd)
              (by
                intro q hq hbq
                rw [hs1.2.2.2]
                exact hLf q (List.mem_cons_of_mem _ hq) hbq)
            exact ⟨hres.1, kstep_trans hs1.1 hres.2⟩
        | typeMember =>
            exact ih st h hLm' hLn' hbd
              (fun q hq => hLf q (List.mem_cons_of_mem _ hq))
        | typeArgument =>
            exact ih st h hLm' hLn' hbd
              (fun q hq => hLf q (List.mem_cons_of_mem _ hq))
        | method =>
            by_cases hse : isEnum = true ∧ nm = sealedSubclassesName
            · simp only [if_pos hse]
              exact ih st h hLm' hLn' hbd
                (fun q hq => hLf q (List.mem_cons_of_mem _ hq))
            · simp only [if_neg hse]
              have hJ : DirectJust gs st member :=
                ⟨klass, hbd, Or.inr ⟨sc, hsc, nm, hposh⟩⟩
              have hfr : member ∉ st.emittedSymbols → member ∉ st.rendered :=
                fun hne => method_fresh_singleton hwf h hsc hposh hne hk
              have h1 := emitMethod_K hwf ctx h hk hJ hfr
              have hres := ih (emitMethod gs ctx st member) h1.1 hLm' hLn'
                (by rw [h1.2.2.1]; exact hbd)
                (by
                  intro q hq hbq hmem
                  rcases h1.2.2.2.2 q.2 hmem with he | ho
                  · exact hmemN (he ▸ List.mem_map.mpr ⟨q, hq, rfl⟩)
                  · exact hLf q (List.mem_cons_of_mem _ hq) hbq ho)
              exact ⟨hres.1, kstep_trans h1.2.1 hres.2⟩
        | fieldOrStaticField =>
            by_cases hff : (gs.syms member).isFieldFlag = true
            · simp only [if_pos hff]
              have hbm := bad_of_flag hk hff
              have hfrm := hLf (nm, member) (List.mem_cons_self _ _) hbm
              have hj : if badFieldSym gs member then DirectJust gs st member
                  else member ∈ st.emittedSymbols ∧ member ∉ st.toEmit := by
                rw [if_pos hbm]
                exact ⟨klass, hbd, Or.inr ⟨sc, hsc, nm, hposh⟩⟩
              have h1 := emitField_K false h hk hfrm hj
              have hres := ih (emitField gs st member false) h1.1 hLm' hLn'
                (by rw [h1.2.2.1]; exact hbd)
                (by
                  intro q hq hbq hmem
                  rcases h1.2.2.2.2 q.2 hmem with he | ho
                  · exact hmemN (he ▸ List.mem_map.mpr ⟨q, hq, rfl⟩)
                  · exact hLf q (List.mem_cons_of_mem _ hq) hbq ho)
              exact ⟨hres.1, kstep_trans h1.2.1 hres.2⟩
            · simp only [if_neg hff]
              by_cases hat : (gs.syms member).name.str.startsWith "@@" = true
              · simp only [if_pos hat]
                have hbm := bad_of_atat hk hat
                have hfrm := hLf (nm, member) (List.mem_cons_self _ _) hbm
                have hj : if badFieldSym gs member then DirectJust gs st member
                    else member ∈ st.emittedSymbols ∧ member ∉ st.toEmit := by
                  rw [if_pos hbm]
                  exact ⟨klass, hbd, Or.inr ⟨sc, hsc, nm, hposh⟩⟩
                have h1 := emitField_K true h hk hfrm hj
                have hres := ih (emitField gs st member true) h1.1 hLm' hLn'
                  (by rw [h1.2.2.1]; exact hbd)
                  (by
                    intro q hq hbq hmem
                    rcases h1.2.2.2.2 q.2 hmem with he | ho
                    · exact hmemN (he ▸ List.mem_map.mpr ⟨q, hq, rfl⟩)
                    · exact hLf q (List.mem_cons_of_mem _ hq) hbq ho)
                exact ⟨hres.1, kstep_trans h1.2.1 hres.2⟩
              · simp only [if_neg hat]
                have hbadm : badFieldSym gs member = false :=
                  bad_false_of_static (Bool.eq_false_iff.mpr hff)
                    (Bool.eq_false_iff.mpr hat)
                have h1 := maybeEmit_K hwf ctx member st hbadm h
                have hs1 := maybeEmit_ksil gs ctx st member
                have hres := ih (maybeEmit gs ctx st member) h1 hLm' hLn'
                  (by rw [hs1.2.1]; exact hbd)
                  (by
                    intro q hq hbq
                    rw [hs1.2.2.2]
                    exact hLf q (List.mem_cons_of_mem _ hq) hbq)
                exact ⟨hres.1, kstep_trans hs1.1 hres.2⟩

theorem classSingletonSection_K {gs : GlobalState} {pkg : PackageInfo}
    (hwf : SymTableWF gs pkg) (ctx : PkgCtx) (isEnum : Bool) (klass : Nat)
    {st st₀ : EmitState}
    (hK : KInv gs st) (hbd : klass ∈ st.bodyDone)
    (hkindk : (gs.syms klass).kind = SymKind.classOrModule)
    (hK₀ : KInv gs st₀) (hnbd₀ : klass ∉ st₀.bodyDone)
    (hsub : ∀ x ∈ st.rendered, (x = klass ∨
      (∃ n, (n, x) ∈ (gs.syms klass).members) ∨
      (gs.syms x).kind = SymKind.typeMember) ∨ x ∈ st₀.rendered) :
    KInv gs (classSingletonSection gs ctx isEnum st klass) ∧
    KStep st (classSingletonSection gs ctx isEnum st klass) := by
  rw [classSingletonSection]
  cases hsc : (gs.syms klass).singletonClassOf with
  | none => exact ⟨hK, kstep_rfl st⟩
  | some sc =>
      have h1 := emitSingletonMixins_K hwf ctx (gs.syms sc).mixins st
        (fun x hx => hwf.mixinsNotBad sc x hx) hK
      have h2 := emitTypeMembersList_K (gs.syms sc).typeMembers
        (emitSingletonMixins gs ctx st (gs.syms sc).mixins)
        (fun tm htm => hwf.typeMembersKind sc tm htm) h1.1
      have hbd2 : klass ∈ (emitTypeMembersList gs
          (emitSingletonMixins gs ctx st (gs.syms sc).mixins)
          (gs.syms sc).typeMembers).bodyDone := by
        rw [h2.2.2.1, h1.2.2.1]
        exact hbd
      have hLf2 : ∀ p ∈ (gs.syms sc).members, badFieldSym gs p.2 = true →
          p.2 ∉ (emitTypeMembersList gs
            (emitSingletonMixins gs ctx st (gs.syms sc).mixins)
            (gs.syms sc).typeMembers).rendered := by
        intro p hp hbp hmem
        have hp' : (p.1, p.2) ∈ (gs.syms sc).members := by
          rw [Prod.mk.eta]
          exact hp
        rcases h2.2.2.2.2 p.2 hmem with htm | ho
        · exact absurd ((bad_kind hbp).symm.trans htm) (by decide)
        · rw [h1.2.2.2.2] at ho
          rcases hsub p.2 ho with (hcl | ⟨n, hpk⟩ | htm) | h0
          · have hx := bad_kind hbp
            rw [hcl, hkindk] at hx
            exact absurd hx (by decide)
          · have hinj := hwf.membersInj klass sc n p.1 p.2 hpk hp'
            exact (hwf.singletonNe klass sc hsc).1 hinj.1.symm
          · exact absurd ((bad_kind hbp).symm.trans htm) (by decide)
          · exact badfield_fresh_singleton hwf hK₀ hnbd₀ hsc hp' hbp h0
      have h3 := processSingletonMembers_K hwf ctx klass sc isEnum hsc
        (gs.syms sc).members _ h2.1 (fun p hp => hp)
        (hwf.membersSndNodup sc) hbd2 hLf2
      exact ⟨h3.1, kstep_trans h1.2.1 (kstep_trans h2.2.1 h3.2)⟩

set_option maxHeartbeats 3200000 in
theorem classBodyTail_K {gs : GlobalState} {pkg : PackageInfo}
    (hwf : SymTableWF gs pkg) (ctx : PkgCtx) (klass : Nat) (isE : Bool)
    {st₀ st₇ : EmitState}
    (h7 : KInv gs st₇)
    (hkind : (gs.syms klass).kind = SymKind.classOrModule)
    (hsing : (gs.syms klass).isSingletonClass = false)
    (hbd7 : klass ∈ st₇.bodyDone) (hir7 : klass ∉ st₇.initRan)
    (hK₀ : KInv gs st₀) (hnbd₀ : klass ∉ st₀.bodyDone)
    (hsub7 : ∀ x ∈ st₇.rendered, (x = klass ∨
      (∃ n, (n, x) ∈ (gs.syms klass).members) ∨
      (gs.syms x).kind = SymKind.typeMember) ∨ x ∈ st₀.rendered)
    (hLf7 : ∀ p ∈ (gs.syms klass).members, badFieldSym gs p.2 = true →
      p.2 ∉ st₇.rendered) :
    KInv gs (((classEnumBlock gs isE
      (processMembers gs ctx klass isE ⟨st₇, none, [], []⟩
        (gs.syms klass).members).pendingEnums
      (classSingletonSection gs ctx isE
        (maybeEmitInitialized gs ctx
          { (processMembers gs ctx klass isE ⟨st₇, none, [], []⟩
              (gs.syms klass).members).st with
            initRan := klass :: (processMembers gs ctx klass isE
              ⟨st₇, none, [], []⟩ (gs.syms klass).members).st.initRan }
          (processMembers gs ctx klass isE ⟨st₇, none, [], []⟩
            (gs.syms klass).members).initMethod
          (processMembers gs ctx klass isE ⟨st₇, none, [], []⟩
            (gs.syms klass).members).pendingFields) klass)).withOut
      Output.untab).withOut (fun o => o.printlnInd "end")) ∧
    KStep st₇ (((classEnumBlock gs isE
      (processMembers gs ctx klass isE ⟨st₇, none, [], []⟩
        (gs.syms klass).members).pendingEnums
      (classSingletonSection gs ctx isE
        (maybeEmitInitialized gs ctx
          { (processMembers gs ctx klass isE ⟨st₇, none, [], []⟩
              (gs.syms klass).members).st with
            initRan := klass :: (processMembers gs ctx klass isE
              ⟨st₇, none, [], []⟩ (gs.syms klass).members).st.initRan }
          (processMembers gs ctx klass isE ⟨st₇, none, [], []⟩
            (gs.syms klass).members).initMethod
          (processMembers gs ctx klass isE ⟨st₇, none, [], []⟩
            (gs.syms klass).members).pendingFields) klass)).withOut
      Output.untab).withOut (fun o => o.printlnInd "end")) := by
  obtain ⟨hK8, hOut8, hpfN8, hpf8, hinit8⟩ :=
    processMembers_K hwf ctx klass isE (gs.syms klass).members
      ⟨st₇, none, [], []⟩ h7 (fun p hp => hp) (hwf.membersSndNodup klass)
      hbd7 hir7 hLf7 List.nodup_nil
      (fun f hf => absurd hf (List.not_mem_nil f))
      (fun q _ => List.not_mem_nil q.2)
      (fun m hm => Option.noConfusion hm)
  have hbd8 : klass ∈ (processMembers gs ctx klass isE ⟨st₇, none, [], []⟩
      (gs.syms klass).members).st.bodyDone := by
    rw [hOut8.2.1]
    exact hbd7
  have hir8 : klass ∉ (processMembers gs ctx klass isE ⟨st₇, none, [], []⟩
      (gs.syms klass).members).st.initRan := by
    rw [hOut8.2.2.1]
    exact hir7
  have hminit : ∀ m, (processMembers gs ctx klass isE ⟨st₇, none, [], []⟩
      (gs.syms klass).members).initMethod = some m →
      (initializeName, m) ∈ (gs.syms klass).members ∧
      (gs.syms m).kind = SymKind.method ∧
      m ∉ (processMembers gs ctx klass isE ⟨st₇, none, [], []⟩
        (gs.syms klass).members).st.rendered := by
    intro m hm
    obtain ⟨hp, hkm⟩ := hinit8 m hm
    exact ⟨hp, hkm, init_fresh hwf hK8 hsing hir8 hp hkm⟩
  have h9 := kinv_mark_initRan hK8 hbd8
  have h10 := maybeEmitInitialized_K hwf ctx klass
    (processMembers gs ctx klass isE ⟨st₇, none, [], []⟩
      (gs.syms klass).members).initMethod
    (processMembers gs ctx klass isE ⟨st₇, none, [], []⟩
      (gs.syms klass).members).pendingFields
    h9 hbd8 (List.mem_cons_self _ _) hminit hpfN8 hpf8
  have hbd10 : klass ∈ (maybeEmitInitialized gs ctx
      { (processMembers gs ctx klass isE ⟨st₇, none, [], []⟩
          (gs.syms klass).members).st with
        initRan := klass :: (processMembers gs ctx klass isE
          ⟨st₇, none, [], []⟩ (gs.syms klass).members).st.initRan }
      (processMembers gs ctx klass isE ⟨st₇, none, [], []⟩
        (gs.syms klass).members).initMethod
      (processMembers gs ctx klass isE ⟨st₇, none, [], []⟩
        (gs.syms klass).members).pendingFields).bodyDone := by
    rw [h10.2.2.1]
    exact hbd8
  have hsub10 : ∀ x ∈ (maybeEmitInitialized gs ctx
      { (processMembers gs ctx klass isE ⟨st₇, none, [], []⟩
          (gs.syms klass).members).st with
        initRan := klass :: (processMembers gs ctx klass isE
          ⟨st₇, none, [], []⟩ (gs.syms klass).members).st.initRan }
      (processMembers gs ctx klass isE ⟨st₇, none, [], []⟩
        (gs.syms klass).members).initMethod
      (processMembers gs ctx klass isE ⟨st₇, none, [], []⟩
        (gs.syms klass).members).pendingFields).rendered,
      (x = klass ∨ (∃ n, (n, x) ∈ (gs.syms klass).members) ∨
        (gs.syms x).kind = SymKind.typeMember) ∨ x ∈ st₀.rendered := by
    intro x hx
    rcases h10.2.2.2.2 x hx with hposx | hx9
    · exact Or.inl (Or.inr (Or.inl hposx))
    · rcases hOut8.2.2.2 x hx9 with hposx | hx7
      · exact Or.inl (Or.inr (Or.inl hposx))
      · exact hsub7 x hx7
  have h11 := classSingletonSection_K hwf ctx isE klass h10.1 hbd10 hkind
    hK₀ hnbd₀ hsub10
  have h12 := classEnumBlock_K isE
    (processMembers gs ctx klass isE ⟨st₇, none, [], []⟩
      (gs.syms klass).members).pendingEnums _ h11.1
  refine ⟨kinv_withOut (kinv_withOut h12.1 _) _, ?_⟩
  exact kstep_trans hOut8.1 (kstep_trans (kstep_mark_initRan _ klass)
    (kstep_trans h10.2.1 (kstep_trans h11.2 (kstep_trans h12.2.1
      (kstep_trans (kstep_withOut _ _) (kstep_withOut _ _))))))

theorem withOut_bodyDone (x : EmitState) (f : Output → Output) :
    (x.withOut f).bodyDone = x.bodyDone := rfl

theorem withOut_initRan (x : EmitState) (f : Output → Output) :
    (x.withOut f).initRan = x.initRan := rfl

set_option maxHeartbeats 3200000 in
theorem emitClassBody_K {gs : GlobalState} {pkg : PackageInfo}
    (hwf : SymTableWF gs pkg) (ctx : PkgCtx) {st : EmitState} {klass : Nat}
    (hK : KInv gs st)
    (hkind : (gs.syms klass).kind = SymKind.classOrModule)
    (hsing : (gs.syms klass).isSingletonClass = false)
    (hmem : klass ∈ st.emittedSymbols) (hnt : klass ∉ st.toEmit)
    (hnbd : klass ∉ st.bodyDone) :
    KInv gs (emitClassBody gs ctx st klass) ∧
    KStep st (emitClassBody gs ctx st klass) := by
  have h1 := kinv_mark_bodyDone hK hmem hnt hnbd hsing
  rw [emitClassBody]
  by_cases hco : ((gs.syms klass).superClass.bind
      (fun s => (gs.syms s).superClass)) = some tEnumSym
  · rw [if_pos hco]
    exact ⟨h1, kstep_mark_bodyDone st klass⟩
  · rw [if_neg hco]
    have hclfr : klass ∉ st.rendered := by
      intro hmemr
      have hj := hK.just klass hmemr
      unfold RenderJust at hj
      rw [hkind] at hj
      exact hnbd hj
    have hrj2 : RenderJust gs { st with bodyDone := klass :: st.bodyDone }
        klass := by
      unfold RenderJust
      rw [hkind]
      exact List.mem_cons_self _ _
    have h2 : KInv gs { { st with bodyDone := klass :: st.bodyDone } with
        rendered := klass :: st.rendered } := kinv_mark_rendered h1 hclfr hrj2
    have h3 := classSuperLine_K hwf ctx _ klass h2
    have h4 := kinv_withOut h3.1 Output.tab
    have h5 := classFlagLines_K _ klass h4
    have h6 := emitMixins_K hwf ctx (gs.syms klass).mixins _
      (fun x hx => hwf.mixinsNotBad klass x hx) h5.1
    have h7 := emitTypeMembersList_K (gs.syms klass).typeMembers _
      (fun tm htm => hwf.typeMembersKind klass tm htm) h6.1
    have ern6 : (emitMixins gs ctx (classFlagLines gs ((classSuperLine gs ctx
        { { st with bodyDone := klass :: st.bodyDone } with
          rendered := klass :: st.rendered } klass).withOut Output.tab) klass)
        (gs.syms klass).mixins).rendered = klass :: st.rendered := by
      rw [h6.2.2.2.2, h5.2.2.2.2, withOut_rendered, h3.2.2.2.2]
    have hbd7 : klass ∈ (emitTypeMembersList gs (emitMixins gs ctx
        (classFlagLines gs ((classSuperLine gs ctx
          { { st with bodyDone := klass :: st.bodyDone } with
            rendered := klass :: st.rendered } klass).withOut Output.tab) klass)
        (gs.syms klass).mixins) (gs.syms klass).typeMembers).bodyDone := by
      rw [h7.2.2.1, h6.2.2.1, h5.2.2.1, withOut_bodyDone, h3.2.2.1]
      exact List.mem_cons_self _ _
    have hir7 : klass ∉ (emitTypeMembersList gs (emitMixins gs ctx
        (classFlagLines gs ((classSuperLine gs ctx
          { { st with bodyDone := klass :: st.bodyDone } with
            rendered := klass :: st.rendered } klass).withOut Output.tab) klass)
        (gs.syms klass).mixins) (gs.syms klass).typeMembers).initRan := by
      rw [h7.2.2.2.1, h6.2.2.2.1, h5.2.2.2.1, withOut_initRan, h3.2.2.2.1]
      intro hmi
      exact hnbd (hK.irB klass hmi)
    have hLf7 : ∀ p ∈ (gs.syms klass).members, badFieldSym gs p.2 = true →
        p.2 ∉ (emitTypeMembersList gs (emitMixins gs ctx
          (classFlagLines gs ((classSuperLine gs ctx
            { { st with bodyDone := klass :: st.bodyDone } with
              rendered := klass :: st.rendered } klass).withOut Output.tab)
            klass) (gs.syms klass).mixins)
          (gs.syms klass).typeMembers).rendered := by
      intro p hp hbp hmem
      have hp' : (p.1, p.2) ∈ (gs.syms klass).members := by
        rw [Prod.mk.eta]
        exact hp
      rcases h7.2.2.2.2 p.2 hmem with htm | ho
      · exact absurd ((bad_kind hbp).symm.trans htm) (by decide)
      · rw [ern6] at ho
        rcases List.mem_cons.mp ho with hcl | hxs
        · have hx := bad_kind hbp
          rw [hcl, hkind] at hx
          exact absurd hx (by decide)
        · exact badfield_fresh hwf hK hnbd hsing hp' hbp hxs
    have hsub7 : ∀ x ∈ (emitTypeMembersList gs (emitMixins gs ctx
        (classFlagLines gs ((classSuperLine gs ctx
          { { st with bodyDone := klass :: st.bodyDone } with
            rendered := klass :: st.rendered } klass).withOut Output.tab) klass)
        (gs.syms klass).mixins) (gs.syms klass).typeMembers).rendered,
        (x = klass ∨ (∃ n, (n, x) ∈ (gs.syms klass).members) ∨
          (gs.syms x).kind = SymKind.typeMember) ∨ x ∈ st.rendered := by
      intro x hx
      rcases h7.2.2.2.2 x hx with htm | ho
      · exact Or.inl (Or.inr (Or.inr htm))
      · rw [ern6] at ho
        rcases List.mem_cons.mp ho with hcl | hxs
        · exact Or.inl (Or.inl hcl)
        · exact Or.inr hxs
    have htail := fun (iE : Bool) => classBodyTail_K hwf ctx klass iE h7.1
      hkind hsing hbd7 hir7 hK hnbd hsub7 hLf7
    refine ⟨(htail _).1, ?_⟩
    exact kstep_trans (kstep_mark_bodyDone st klass)
      (kstep_trans (kstep_mark_rendered _ klass)
        (kstep_trans h3.2.1 (kstep_trans (kstep_withOut _ _)
          (kstep_trans h5.2.1 (kstep_trans h6.2.1
            (kstep_trans h7.2.1 (htail _).2))))))

theorem emitMethod_of_mem {gs : GlobalState} {ctx : PkgCtx} {st : EmitState}
    {m : Nat} (h : m ∈ st.emittedSymbols) : emitMethod gs ctx st m = st := by
  rw [emitMethod, if_pos h]

set_option maxHeartbeats 1600000 in
theorem emitLoop_K {gs : GlobalState} {pkg : PackageInfo}
    (hwf : SymTableWF gs pkg) (ctx : PkgCtx) :
    ∀ (fuel : Nat) (st st' : EmitState), KInv gs st →
    emitLoop gs ctx fuel st = Except.ok st' → KInv gs st' := by
  intro fuel
  induction fuel with
  | zero =>
      intro st st' h heq
      rw [emitLoop] at heq
      injection heq with h'
      rw [← h']
      exact h
  | succ fuel ih =>
      intro st st' h heq
      rw [emitLoop] at heq
      cases hte : st.toEmit with
      | nil =>
          rw [hte] at heq
          injection heq with h'
          rw [← h']
          exact h
      | cons s rest =>
          rw [hte] at heq
          have hpop := kinv_pop h hte
          have hsT : s ∈ st.toEmit := by
            rw [hte]
            exact List.mem_cons_self _ _
          have hsmem : s ∈ st.emittedSymbols := h.teE s hsT
          have hntr : s ∉ rest := by
            have hn := h.teN
            rw [hte] at hn
            exact (List.nodup_cons.mp hn).1
          cases hk : (gs.syms s).kind with
          | classOrModule =>
              simp only [hk] at heq
              rw [emitClass] at heq
              by_cases hg : ¬(isInPackage gs ctx s = true ∧
                  s ∈ ({ st with toEmit := rest } : EmitState).emittedSymbols)
              · rw [if_pos hg] at heq
                have heq2 : (Except.error () : Except Unit EmitState) =
                    Except.ok st' := heq
                exact Except.noConfusion heq2
              · rw [if_neg hg] at heq
                have heq2 : emitLoop gs ctx fuel
                    (emitClassBody gs ctx { st with toEmit := rest } s) =
                    Except.ok st' := heq
                have hsg : (gs.syms s).isSingletonClass = false := by
                  have hx := h.teS s hsT
                  unfold isSingletonCoM isCoM at hx
                  rw [hk] at hx
                  simpa using hx
                have hnbd : s ∉ st.bodyDone := fun hb => h.bdT s hb hsT
                have hbody := emitClassBody_K hwf ctx hpop hk hsg hsmem hntr hnbd
                exact ih _ st' hbody.1 heq2
          | method =>
              simp only [hk] at heq
              rw [emitMethod_of_mem (show s ∈
                ({ st with toEmit := rest } : EmitState).emittedSymbols
                from hsmem)] at heq
              exact ih _ st' hpop heq
          | fieldOrStaticField =>
              simp only [hk] at heq
              have hbs : badFieldSym gs s = false := h.teB s hsT
              have hbsn : ¬(badFieldSym gs s = true) := by
                rw [hbs]
                decide
              have hfr : s ∉ st.rendered := by
                intro hmemr
                have hj := h.just s hmemr
                unfold RenderJust at hj
                rw [hk, if_neg hbsn] at hj
                exact hj.2 hsT
              have hj' : if badFieldSym gs s then
                  DirectJust gs { st with toEmit := rest } s
                  else s ∈ ({ st with toEmit := rest } : EmitState).emittedSymbols ∧
                    s ∉ ({ st with toEmit := rest } : EmitState).toEmit := by
                rw [if_neg hbsn]
                exact ⟨hsmem, hntr⟩
              have hfld := emitField_K false hpop hk hfr hj'
              exact ih _ st' hfld.1 heq
          | typeMember =>
              simp only [hk] at heq
              exact ih _ st' hpop heq
          | typeArgument =>
              simp only [hk] at heq
              exact ih _ st' hpop heq

theorem routeExports_test_sources (gs : GlobalState) (ctx : PkgCtx) :
    ∀ (paths : List (List NRef)) (acc : List Nat × List Nat) (x : Nat),
    x ∈ (paths.foldl
      (fun acc e =>
        match lookupFQN gs e with
        | some exportSymbol =>
            if isInTestPackage gs ctx exportSymbol then
              (acc.1, acc.2 ++ [exportSymbol])
            else (acc.1 ++ [exportSymbol], acc.2)
        | none => acc)
      acc).2 →
    x ∈ acc.2 ∨ ∃ p, p ∈ paths ∧ lookupFQN gs p = some x := by
  intro paths
  induction paths with
  | nil => intro acc x hx; exact Or.inl hx
  | cons p rest ih =>
      intro acc x hx
      rw [List.foldl_cons] at hx
      rcases ih _ x hx with hx' | ⟨q, hq, hlq⟩
      · cases hlp : lookupFQN gs p with
        | none =>
            simp only [hlp] at hx'
            exact Or.inl hx'
        | some e =>
            simp only [hlp] at hx'
            by_cases hte : isInTestPackage gs ctx e = true
            · rw [if_pos hte] at hx'
              rcases (by simpa using hx' : x ∈ acc.2 ∨ x = e) with hx'' | hx''
              · exact Or.inl hx''
              · subst hx''
                exact Or.inr ⟨p, by simp, hlp⟩
            · rw [if_neg hte] at hx'
              exact Or.inl (by simpa using hx')
      · exact Or.inr ⟨q, by simp [hq], hlq⟩

theorem kinv_initial (gs : GlobalState) : KInv gs initialEmitState :=
  ⟨List.nodup_nil, List.nodup_nil,
    fun x hx => absurd hx (List.not_mem_nil x),
    fun x hx => absurd hx (List.not_mem_nil x),
    fun x hx => absurd hx (List.not_mem_nil x),
    List.nodup_nil, List.nodup_nil,
    fun x hx => absurd hx (List.not_mem_nil x),
    fun x hx => absurd hx (List.not_mem_nil x),
    fun x hx => absurd hx (List.not_mem_nil x),
    fun x hx => absurd hx (List.not_mem_nil x),
    fun x hx => absurd hx (List.not_mem_nil x)⟩

theorem regularPass_K {gs : GlobalState} {pkg : PackageInfo}
    (hwf : SymTableWF gs pkg) (ctx : PkgCtx) (exportsR : List Nat)
    (fuel : Nat) (p : String × EmitState)
    (hnb : ∀ x ∈ exportsR, badFieldSym gs x = false)
    (heq : regularPass gs ctx exportsR fuel = Except.ok p) : KInv gs p.2 := by
  rw [regularPass] at heq
  by_cases hemp : exportsR.isEmpty = true
  · rw [if_pos hemp] at heq
    injection heq with h'
    rw [← h']
    exact kinv_initial gs
  · rw [if_neg hemp] at heq
    cases hloop : emitLoop gs ctx fuel
        (exportsR.foldl (maybeEmit gs ctx) initialEmitState) with
    | error e =>
        rw [hloop] at heq
        exact Except.noConfusion heq
    | ok stL =>
        rw [hloop] at heq
        injection heq with h'
        rw [← h']
        exact kinv_out_set (emitLoop_K hwf ctx fuel _ stL
          (foldl_mE_K hwf ctx exportsR initialEmitState hnb
            (kinv_initial gs)) hloop) _

theorem testPass_K {gs : GlobalState} {pkg : PackageInfo}
    (hwf : SymTableWF gs pkg) (ctx : PkgCtx) (testExports : List Nat)
    (fuel : Nat) (st1 : EmitState) (p : String × EmitState)
    (h1 : KInv gs st1)
    (hnb : ∀ x ∈ testExports, badFieldSym gs x = false)
    (heq : testPass gs ctx testExports fuel st1 = Except.ok p) :
    KInv gs p.2 := by
  rw [testPass] at heq
  by_cases hemp : testExports.isEmpty = true
  · rw [if_pos hemp] at heq
    injection heq with h'
    rw [← h']
    exact h1
  · rw [if_neg hemp] at heq
    cases hloop : emitLoop gs ctx fuel
        (testExports.foldl (maybeEmit gs ctx) st1) with
    | error e =>
        rw [hloop] at heq
        exact Except.noConfusion heq
    | ok stL =>
        rw [hloop] at heq
        injection heq with h'
        rw [← h']
        exact kinv_out_set (emitLoop_K hwf ctx fuel _ stL
          (foldl_mE_K hwf ctx testExports st1 hnb h1) hloop) _

/-- C2: no duplicates.  On a well-formed symbol table every generation run
that completes inserts each symbol into the visited (emitted) set at most
once and renders each symbol's declaration at most once, over all paths by
which emission happens: the two ghost traces of the final state are
duplicate-free. -/
theorem C2_no_duplicates (gs : GlobalState) (pkg : PackageInfo)
    (namespaces : List Nat) (fuel : Nat) (o : RBIOutput)
    (hwf : SymTableWF gs pkg)
    (heq : exporterEmit gs pkg namespaces fuel = Except.ok o) :
    o.finalState.emittedSymbols.Nodup ∧ o.finalState.rendered.Nodup := by
  rw [exporterEmit] at heq
  have hregnb : ∀ x ∈ (routeExports gs (mkPkgCtx gs pkg namespaces)
      pkg.exportsL).1, badFieldSym gs x = false := by
    intro x hx
    rcases routeExports_reg_sources gs (mkPkgCtx gs pkg namespaces)
      pkg.exportsL ([], []) x hx with hx' | ⟨q, hq, hlq, _⟩
    · exact absurd hx' (List.not_mem_nil x)
    · exact hwf.seedsNotBad q x (List.mem_append_left _ hq) hlq
  have htestnb : ∀ x ∈ (routeExports gs (mkPkgCtx gs pkg namespaces)
      pkg.exportsL).2 ++ pkg.testExportsL.filterMap (lookupFQN gs),
      badFieldSym gs x = false := by
    intro x hx
    rcases List.mem_append.mp hx with hx' | hx'
    · rcases routeExports_test_sources gs (mkPkgCtx gs pkg namespaces)
        pkg.exportsL ([], []) x hx' with hx'' | ⟨q, hq, hlq⟩
      · exact absurd hx'' (List.not_mem_nil x)
      · exact hwf.seedsNotBad q x (List.mem_append_left _ hq) hlq
    · rw [List.mem_filterMap] at hx'
      obtain ⟨q, hq, hlq⟩ := hx'
      exact hwf.seedsNotBad q x (List.mem_append_right _ hq) hlq
  cases hreg : regularPass gs (mkPkgCtx gs pkg namespaces)
      (routeExports gs (mkPkgCtx gs pkg namespaces) pkg.exportsL).1 fuel with
  | error e =>
      simp only [hreg] at heq
      exact Except.noConfusion heq
  | ok p1 =>
      simp only [hreg] at heq
      cases htp : testPass gs (mkPkgCtx gs pkg namespaces)
          ((routeExports gs (mkPkgCtx gs pkg namespaces) pkg.exportsL).2 ++
            pkg.testExportsL.filterMap (lookupFQN gs)) fuel p1.2 with
      | error e =>
          simp only [htp] at heq
          exact Except.noConfusion heq
      | ok p2 =>
          simp only [htp] at heq
          injection heq with h'
          rw [← h']
          have hK1 := regularPass_K hwf (mkPkgCtx gs pkg namespaces) _ fuel p1
            hregnb hreg
          have hK2 := testPass_K hwf (mkPkgCtx gs pkg namespaces) _ fuel p1.2
            p2 hK1 htestnb htp
          exact ⟨hK2.emN, hK2.rnN⟩

theorem gsA_syms_default {c : Nat} (hc : 13 ≤ c) : gsA.syms c = defaultSymData := by
  show tableA.getD c defaultSymData = defaultSymData
  refine List.getD_eq_default _ _ ?_
  have hlen : tableA.length = 13 := by rfl
  rw [hlen]
  exact hc

theorem gsA_mixins (c : Nat) : (gsA.syms c).mixins = [] := by
  by_cases hc : c < 13
  · interval_cases c <;> rfl
  · rw [gsA_syms_default (by omega)]
    rfl

theorem gsA_tms (c : Nat) : (gsA.syms c).typeMembers = [] := by
  by_cases hc : c < 13
  · interval_cases c <;> rfl
  · rw [gsA_syms_default (by omega)]
    rfl

theorem gsA_args (c : Nat) : (gsA.syms c).arguments = [] := by
  by_cases hc : c < 13
  · interval_cases c <;> rfl
  · rw [gsA_syms_default (by omega)]
    rfl

theorem gsA_ret (c : Nat) : (gsA.syms c).resultType = none := by
  by_cases hc : c < 13
  · interval_cases c <;> rfl
  · rw [gsA_syms_default (by omega)]
    rfl

theorem gsA_att (c : Nat) : (gsA.syms c).attachedClass = none := by
  by_cases hc : c < 13
  · interval_cases c <;> rfl
  · rw [gsA_syms_default (by omega)]
    rfl

theorem gsA_single (c : Nat) : (gsA.syms c).singletonClassOf = none := by
  by_cases hc : c < 13
  · interval_cases c <;> rfl
  · rw [gsA_syms_default (by omega)]
    rfl

theorem gsA_members_nodup (c : Nat) :
    ((gsA.syms c).members.map Prod.snd).Nodup := by
  by_cases hc : c < 13
  · interval_cases c <;> decide
  · rw [gsA_syms_default (by omega)]
    decide

theorem gsA_super_cases (c sup : Nat) (h : (gsA.syms c).superClass = some sup) :
    (c = 9 ∧ sup = 10) ∨ (c = 10 ∧ sup = 4) := by
  by_cases hc : c < 13
  · interval_cases c
    · exact Option.noConfusion (show (none : Option Nat) = some sup from h)
    · exact Option.noConfusion (show (none : Option Nat) = some sup from h)
    · exact Option.noConfusion (show (none : Option Nat) = some sup from h)
    · exact Option.noConfusion (show (none : Option Nat) = some sup from h)
    · exact Option.noConfusion (show (none : Option Nat) = some sup from h)
    · exact Option.noConfusion (show (none : Option Nat) = some sup from h)
    · exact Option.noConfusion (show (none : Option Nat) = some sup from h)
    · exact Option.noConfusion (show (none : Option Nat) = some sup from h)
    · exact Option.noConfusion (show (none : Option Nat) = some sup from h)
    · have h' : some 10 = some sup := h
      injection h' with h''
      exact Or.inl ⟨rfl, h''.symm⟩
    · have h' : some 4 = some sup := h
      injection h' with h''
      exact Or.inr ⟨rfl, h''.symm⟩
    · exact Option.noConfusion (show (none : Option Nat) = some sup from h)
    · exact Option.noConfusion (show (none : Option Nat) = some sup from h)
  · rw [gsA_syms_default (by omega)] at h
    exact Option.noConfusion (show (none : Option Nat) = some sup from h)

theorem memA {c m : Nat} {n : NRef} (h : (n, m) ∈ (gsA.syms c).members) :
    (c = 0 ∧ ((n = nP ∧ m = 6) ∨ (n = nTest ∧ m = 7) ∨ (n = nQ ∧ m = 12))) ∨
    (c = 6 ∧ n = nR ∧ m = 9) ∨ (c = 7 ∧ n = nP ∧ m = 8) ∨
    (c = 8 ∧ n = nE ∧ m = 10) := by
  by_cases hc : c < 13
  · interval_cases c
    · refine Or.inl ⟨rfl, ?_⟩
      have hm : (n, m) ∈ [(nP, 6), (nTest, 7), (nQ, 12)] := h
      simpa using hm
    · exact absurd h (List.not_mem_nil _)
    · exact absurd h (List.not_mem_nil _)
    · exact absurd h (List.not_mem_nil _)
    · exact absurd h (List.not_mem_nil _)
    · exact absurd h (List.not_mem_nil _)
    · refine Or.inr (Or.inl ⟨rfl, ?_⟩)
      have hm : (n, m) ∈ [(nR, 9)] := h
      simpa using hm
    · refine Or.inr (Or.inr (Or.inl ⟨rfl, ?_⟩))
      have hm : (n, m) ∈ [(nP, 8)] := h
      simpa using hm
    · refine Or.inr (Or.inr (Or.inr ⟨rfl, ?_⟩))
      have hm : (n, m) ∈ [(nE, 10)] := h
      simpa using hm
    · exact absurd h (List.not_mem_nil _)
    · exact absurd h (List.not_mem_nil _)
    · exact absurd h (List.not_mem_nil _)
    · exact absurd h (List.not_mem_nil _)
  · rw [gsA_syms_default (by omega)] at h
    exact absurd h (List.not_mem_nil _)

set_option maxHeartbeats 1600000 in
theorem wfA : SymTableWF gsA pkgARR := by
  refine ⟨gsA_members_nodup, ?_, ?_, ?_, ?_, ?_, ?_, ?_, ?_, ?_, ?_⟩
  · intro c c' n n' m h h'
    rcases memA h with ⟨hc1, ⟨hn1, hm1⟩ | ⟨hn1, hm1⟩ | ⟨hn1, hm1⟩⟩ |
        ⟨hc1, hn1, hm1⟩ | ⟨hc1, hn1, hm1⟩ | ⟨hc1, hn1, hm1⟩ <;>
      rcases memA h' with ⟨hc2, ⟨hn2, hm2⟩ | ⟨hn2, hm2⟩ | ⟨hn2, hm2⟩⟩ |
        ⟨hc2, hn2, hm2⟩ | ⟨hc2, hn2, hm2⟩ | ⟨hc2, hn2, hm2⟩ <;>
      simp_all
  · intro c sc h
    rw [gsA_single c] at h
    exact Option.noConfusion h
  · intro c c' sc h h'
    rw [gsA_single c] at h
    exact Option.noConfusion h
  · intro c sup h
    rcases gsA_super_cases c sup h with ⟨_, hs⟩ | ⟨_, hs⟩
    · rw [hs]
      decide
    · rw [hs]
      decide
  · intro c x hx
    rw [gsA_mixins c] at hx
    exact absurd hx (List.not_mem_nil x)
  · intro c a h
    rw [gsA_att c] at h
    exact Option.noConfusion h
  · intro m a ha t ht x hx
    rw [gsA_args m] at ha
    exact absurd ha (List.not_mem_nil a)
  · intro m t h x hx
    rw [gsA_ret m] at h
    exact Option.noConfusion h
  · intro p s hp hlk
    have hp' : p = [nP, nR] := by
      rcases List.mem_append.mp hp with h1 | h1 <;> simpa [pkgARR] using h1
    subst hp'
    have h9 : some 9 = some s :=
      (show lookupFQN gsA [nP, nR] = some 9 from rfl).symm.trans hlk
    injection h9 with h9'
    rw [← h9']
    decide
  · intro c tm htm
    rw [gsA_tms c] at htm
    exact absurd htm (List.not_mem_nil tm)

/-- C2 witness: the concrete run of package pkgARR (exporting P::R both
regularly and as a test export) on model A: the symbol table satisfies the
well-formedness conditions and the completed run's visited set and
rendering trace are duplicate-free. -/
theorem C2_witness :
    oARR.finalState.emittedSymbols.Nodup ∧
    oARR.finalState.rendered.Nodup :=
  C2_no_duplicates gsA pkgARR pkgNamespacesA 50 oARR wfA (by rfl)

-- Boundary closure of the rendering trace (claim C1) -------------------------

theorem emitMixins_rendered (gs : GlobalState) (ctx : PkgCtx) :
    ∀ (l : List Nat) (st : EmitState),
    (emitMixins gs ctx st l).rendered = st.rendered := by
  intro l
  induction l with
  | nil => intro st; rfl
  | cons x rest ih =>
      intro st
      rw [emitMixins, ih, (maybeEmit_fields gs ctx _ x).2.1, withOut_rendered]

theorem emitSingletonMixins_rendered (gs : GlobalState) (ctx : PkgCtx) :
    ∀ (l : List Nat) (st : EmitState),
    (emitSingletonMixins gs ctx st l).rendered = st.rendered := by
  intro l
  induction l with
  | nil => intro st; rfl
  | cons x rest ih =>
      intro st
      rw [emitSingletonMixins, ih, (maybeEmit_fields gs ctx _ x).2.1,
        withOut_rendered]

theorem emitEnumValues_rendered (gs : GlobalState) :
    ∀ (l : List Nat) (st : EmitState),
    (emitEnumValues gs st l).rendered = st.rendered := by
  intro l
  induction l with
  | nil => intro st; rfl
  | cons x rest ih =>
      intro st
      rw [emitEnumValues, ih, withOut_rendered]

theorem classSuperLine_rendered (gs : GlobalState) (ctx : PkgCtx)
    (st : EmitState) (klass : Nat) :
    (classSuperLine gs ctx st klass).rendered = st.rendered := by
  rw [classSuperLine]
  cases hsup : (gs.syms klass).superClass with
  | some sup =>
      by_cases hns : sup ≠ implicitModuleSuperClassSym
      · simp only [if_pos hns]
        rw [withOut_rendered, (maybeEmit_fields gs ctx st sup).2.1]
      · simp only [if_neg hns]
        rfl
  | none => rfl

theorem classFlagLines_rendered (gs : GlobalState) (st : EmitState)
    (klass : Nat) : (classFlagLines gs st klass).rendered = st.rendered := by
  rw [classFlagLines]
  split
  · split
    · split
      · split <;> rfl
      · split <;> rfl
    · split
      · split <;> rfl
      · split <;> rfl
  · split
    · split
      · split <;> rfl
      · split <;> rfl
    · split
      · split <;> rfl
      · split <;> rfl

theorem classEnumBlock_rendered (gs : GlobalState) (isEnum : Bool)
    (pendingEnums : List Nat) (st : EmitState) :
    (classEnumBlock gs isEnum pendingEnums st).rendered = st.rendered := by
  rw [classEnumBlock]
  split
  · rw [withOut_rendered, withOut_rendered, emitEnumValues_rendered,
      withOut_rendered, withOut_rendered]
  · rfl

theorem emitMethod_rsub (gs : GlobalState) (ctx : PkgCtx) (st : EmitState)
    (m : Nat) :
    ∀ x ∈ (emitMethod gs ctx st m).rendered, x = m ∨ x ∈ st.rendered := by
  intro x hx
  rw [emitMethod] at hx
  split at hx
  · exact Or.inr hx
  · split at hx
    · exact Or.inr hx
    · split at hx
      · exact Or.inr hx
      · split at hx
        · rw [withOut_rendered, withOut_rendered,
            (prettySig_ksil gs ctx _ m _).2.2.2] at hx
          rcases List.mem_cons.mp hx with h | h
          · exact Or.inl h
          · rw [argfold_eq_foldl, foldl_mE_rendered] at h
            exact Or.inr h
        · rw [withOut_rendered] at hx
          rcases List.mem_cons.mp hx with h | h
          · exact Or.inl h
          · rw [argfold_eq_foldl, foldl_mE_rendered] at h
            exact Or.inr h

theorem emitField_rsub (gs : GlobalState) (st : EmitState) (f : Nat)
    (isCVar : Bool) :
    ∀ x ∈ (emitField gs st f isCVar).rendered, x = f ∨ x ∈ st.rendered := by
  intro x hx
  rw [emitField] at hx
  split at hx
  · split at hx
    · exact Or.inr hx
    · split at hx
      · rw [withOut_rendered] at hx
        exact List.mem_cons.mp hx
      · rw [withOut_rendered] at hx
        exact List.mem_cons.mp hx
  · rw [withOut_rendered] at hx
    exact List.mem_cons.mp hx

theorem emitTypeMember_rsub (gs : GlobalState) (st : EmitState) (tm : Nat) :
    ∀ x ∈ (emitTypeMember gs st tm).rendered, x = tm ∨ x ∈ st.rendered := by
  intro x hx
  rw [emitTypeMember] at hx
  split at hx
  · exact Or.inr hx
  · split at hx
    · exact Or.inr hx
    · split at hx
      · rw [withOut_rendered] at hx
        exact List.mem_cons.mp hx
      · rw [withOut_rendered] at hx
        exact List.mem_cons.mp hx

theorem emitTypeMembersList_rsub (gs : GlobalState) :
    ∀ (l : List Nat) (st : EmitState),
    ∀ x ∈ (emitTypeMembersList gs st l).rendered, x ∈ l ∨ x ∈ st.rendered := by
  intro l
  induction l with
  | nil => intro st x hx; exact Or.inr hx
  | cons tm rest ih =>
      intro st x hx
      rw [emitTypeMembersList] at hx
      rcases ih _ x hx with h | h
      · exact Or.inl (List.mem_cons_of_mem _ h)
      · rcases emitTypeMember_rsub gs st tm x h with h' | h'
        · exact Or.inl (h' ▸ List.mem_cons_self _ _)
        · exact Or.inr h'

theorem initFold_rsub (gs : GlobalState) :
    ∀ (fields : List Nat) (st : EmitState),
    ∀ x ∈ (fields.foldl (fun s f => emitField gs s f false) st).rendered,
    x ∈ fields ∨ x ∈ st.rendered := by
  intro fields
  induction fields with
  | nil => intro st x hx; exact Or.inr hx
  | cons f fs ih =>
      intro st x hx
      rw [List.foldl_cons] at hx
      rcases ih _ x hx with h | h
      · exact Or.inl (List.mem_cons_of_mem _ h)
      · rcases emitField_rsub gs st f false x h with h' | h'
        · exact Or.inl (h' ▸ List.mem_cons_self _ _)
        · exact Or.inr h'

theorem renderInitBody_rsub (gs : GlobalState) (st : EmitState)
    (methodDef : String) (fields : List Nat) :
    ∀ x ∈ (renderInitBody gs st methodDef fields).rendered,
    x ∈ fields ∨ x ∈ st.rendered := by
  intro x hx
  rw [renderInitBody] at hx
  split at hx
  · exact Or.inr hx
  · rw [withOut_rendered, withOut_rendered] at hx
    rcases initFold_rsub gs fields _ x hx with h | h
    · exact Or.inl h
    · exact Or.inr h

theorem maybeEmitInitialized_rsub (gs : GlobalState) (ctx : PkgCtx)
    (st : EmitState) (method : Option Nat) (fields : List Nat) :
    ∀ x ∈ (maybeEmitInitialized gs ctx st method fields).rendered,
    (∃ m, method = some m ∧ x = m) ∨ x ∈ fields ∨ x ∈ st.rendered := by
  intro x hx
  cases method with
  | none =>
      rw [maybeEmitInitialized] at hx
      split at hx
      · exact Or.inr (Or.inr hx)
      · rcases renderInitBody_rsub gs _ _ fields x hx with h | h
        · exact Or.inr (Or.inl h)
        · exact Or.inr (Or.inr h)
  | some m =>
      rw [maybeEmitInitialized] at hx
      split at hx
      · exact Or.inr (Or.inr hx)
      · rcases renderInitBody_rsub gs _ _ fields x hx with h | h
        · exact Or.inr (Or.inl h)
        · rcases List.mem_cons.mp h with h' | h'
          · exact Or.inl ⟨m, rfl, h'⟩
          · split at h'
            · rw [withOut_rendered, (prettySig_ksil gs ctx st m _).2.2.2] at h'
              exact Or.inr (Or.inr h')
            · exact Or.inr (Or.inr h')

set_option maxHeartbeats 1600000 in
theorem processMembers_rsub (gs : GlobalState) (ctx : PkgCtx) (klass : Nat)
    (isEnum : Bool) :
    ∀ (L : List (NRef × Nat)) (acc : MemberAcc),
    (∀ x ∈ (processMembers gs ctx klass isEnum acc L).st.rendered,
      (∃ n, (n, x) ∈ L ∧ ((gs.syms x).kind = SymKind.method ∨
        (gs.syms x).kind = SymKind.fieldOrStaticField)) ∨
      x ∈ acc.st.rendered) ∧
    (∀ f ∈ (processMembers gs ctx klass isEnum acc L).pendingFields,
      f ∈ acc.pendingFields ∨ (∃ n, (n, f) ∈ L ∧
        (gs.syms f).kind = SymKind.fieldOrStaticField)) ∧
    (∀ m, (processMembers gs ctx klass isEnum acc L).initMethod = some m →
      acc.initMethod = some m ∨ ((initializeName, m) ∈ L ∧
        (gs.syms m).kind = SymKind.method)) := by
  intro L
  induction L with
  | nil =>
      intro acc
      rw [processMembers]
      exact ⟨fun x hx => Or.inr hx, fun f hf => Or.inl hf,
        fun m hm => Or.inl hm⟩
  | cons p rest ih =>
      obtain ⟨nm, member⟩ := p
      intro acc
      rw [processMembers]
      by_cases hskip : shouldSkipMember nm = true
      · simp only [if_pos hskip]
        obtain ⟨ihr, ihp, ihi⟩ := ih acc
        refine ⟨fun x hx => ?_, fun f hf => ?_, fun m hm => ?_⟩
        · rcases ihr x hx with ⟨n, hn, hk⟩ | h
          · exact Or.inl ⟨n, List.mem_cons_of_mem _ hn, hk⟩
          · exact Or.inr h
        · rcases ihp f hf with h | ⟨n, hn, hk⟩
          · exact Or.inl h
          · exact Or.inr ⟨n, List.mem_cons_of_mem _ hn, hk⟩
        · rcases ihi m hm with h | ⟨hn, hk⟩
          · exact Or.inl h
          · exact Or.inr ⟨List.mem_cons_of_mem _ hn, hk⟩
      · simp only [if_neg hskip]
        cases hk : (gs.syms member).kind with
        | classOrModule =>
            by_cases hen : isEnum = true ∧ (gs.syms member).superClass = some klass
            · simp only [if_pos hen]
              obtain ⟨ihr, ihp, ihi⟩ :=
                ih { acc with pendingEnums := acc.pendingEnums ++ [member] }
              refine ⟨fun x hx => ?_, fun f hf => ?_, fun m hm => ?_⟩
              · rcases ihr x hx with ⟨n, hn, hkk⟩ | h
                · exact Or.inl ⟨n, List.mem_cons_of_mem _ hn, hkk⟩
                · exact Or.inr h
              · rcases ihp f hf with h | ⟨n, hn, hkk⟩
                · exact Or.inl h
                · exact Or.inr ⟨n, List.mem_cons_of_mem _ hn, hkk⟩
              · rcases ihi m hm with h | ⟨hn, hkk⟩
                · exact Or.inl h
                · exact Or.inr ⟨List.mem_cons_of_mem _ hn, hkk⟩
            · simp only [if_neg hen]
              obtain ⟨ihr, ihp, ihi⟩ :=
                ih { acc with st := maybeEmit gs ctx acc.st member }
              refine ⟨fun x hx => ?_, fun f hf => ?_, fun m hm => ?_⟩
              · rcases ihr x hx with ⟨n, hn, hkk⟩ | h
                · exact Or.inl ⟨n, List.mem_cons_of_mem _ hn, hkk⟩
                · rw [show ({ acc with st := maybeEmit gs ctx acc.st member } : MemberAcc).st.rendered = acc.st.rendered from (maybeEmit_fields gs ctx acc.st member).2.1] at h
                  exact Or.inr h
              · rcases ihp f hf with h | ⟨n, hn, hkk⟩
                · exact Or.inl h
                · exact Or.inr ⟨n, List.mem_cons_of_mem _ hn, hkk⟩
              · rcases ihi m hm with h | ⟨hn, hkk⟩
                · exact Or.inl h
                · exact Or.inr ⟨List.mem_cons_of_mem _ hn, hkk⟩
        | typeMember =>
            obtain ⟨ihr, ihp, ihi⟩ := ih acc
            refine ⟨fun x hx => ?_, fun f hf => ?_, fun m hm => ?_⟩
            · rcases ihr x hx with ⟨n, hn, hkk⟩ | h
              · exact Or.inl ⟨n, List.mem_cons_of_mem _ hn, hkk⟩
              · exact Or.inr h
            · rcases ihp f hf with h | ⟨n, hn, hkk⟩
              · exact Or.inl h
              · exact Or.inr ⟨n, List.mem_cons_of_mem _ hn, hkk⟩
            · rcases ihi m hm with h | ⟨hn, hkk⟩
              · exact Or.inl h
              · exact Or.inr ⟨List.mem_cons_of_mem _ hn, hkk⟩
        | typeArgument =>
            obtain ⟨ihr, ihp, ihi⟩ := ih acc
            refine ⟨fun x hx => ?_, fun f hf => ?_, fun m hm => ?_⟩
            · rcases ihr x hx with ⟨n, hn, hkk⟩ | h
              · exact Or.inl ⟨n, List.mem_cons_of_mem _ hn, hkk⟩
              · exact Or.inr h
            · rcases ihp f hf with h | ⟨n, hn, hkk⟩
              · exact Or.inl h
              · exact Or.inr ⟨n, List.mem_cons_of_mem _ hn, hkk⟩
            · rcases ihi m hm with h | ⟨hn, hkk⟩
              · exact Or.inl h
              · exact Or.inr ⟨List.mem_cons_of_mem _ hn, hkk⟩
        | method =>
            by_cases hni : nm = initializeName
            · simp only [if_pos hni]
              obtain ⟨ihr, ihp, ihi⟩ := ih { acc with initMethod := some member }
              refine ⟨fun x hx => ?_, fun f hf => ?_, fun m hm => ?_⟩
              · rcases ihr x hx with ⟨n, hn, hkk⟩ | h
                · exact Or.inl ⟨n, List.mem_cons_of_mem _ hn, hkk⟩
                · exact Or.inr h
              · rcases ihp f hf with h | ⟨n, hn, hkk⟩
                · exact Or.inl h
                · exact Or.inr ⟨n, List.mem_cons_of_mem _ hn, hkk⟩
              · rcases ihi m hm with h | ⟨hn, hkk⟩
                · have h' : member = m := by
                    injection h
                  rw [← h', ← hni]
                  exact Or.inr ⟨List.mem_cons_self _ _, hk⟩
                · exact Or.inr ⟨List.mem_cons_of_mem _ hn, hkk⟩
            · simp only [if_neg hni]
              obtain ⟨ihr, ihp, ihi⟩ :=
                ih { acc with st := emitMethod gs ctx acc.st member }
              refine ⟨fun x hx => ?_, fun f hf => ?_, fun m hm => ?_⟩
              · rcases ihr x hx with ⟨n, hn, hkk⟩ | h
                · exact Or.inl ⟨n, List.mem_cons_of_mem _ hn, hkk⟩
                · rcases emitMethod_rsub gs ctx acc.st member x h with h' | h'
                  · rw [h']
                    exact Or.inl ⟨nm, List.mem_cons_self _ _, Or.inl hk⟩
                  · exact Or.inr h'
              · rcases ihp f hf with h | ⟨n, hn, hkk⟩
                · exact Or.inl h
                · exact Or.inr ⟨n, List.mem_cons_of_mem _ hn, hkk⟩
              · rcases ihi m hm with h | ⟨hn, hkk⟩
                · exact Or.inl h
                · exact Or.inr ⟨List.mem_cons_of_mem _ hn, hkk⟩
        | fieldOrStaticField =>
            by_cases hff : (gs.syms member).isFieldFlag = true
            · simp only [if_pos hff]
              obtain ⟨ihr, ihp, ihi⟩ :=
                ih { acc with pendingFields := acc.pendingFields ++ [member] }
              refine ⟨fun x hx => ?_, fun f hf => ?_, fun m hm => ?_⟩
              · rcases ihr x hx with ⟨n, hn, hkk⟩ | h
                · exact Or.inl ⟨n, List.mem_cons_of_mem _ hn, hkk⟩
                · exact Or.inr h
              · rcases ihp f hf with h | ⟨n, hn, hkk⟩
                · rcases List.mem_append.mp h with h' | h'
                  · exact Or.inl h'
                  · rw [List.mem_singleton] at h'
                    rw [h']
                    exact Or.inr ⟨nm, List.mem_cons_self _ _, hk⟩
                · exact Or.inr ⟨n, List.mem_cons_of_mem _ hn, hkk⟩
              · rcases ihi m hm with h | ⟨hn, hkk⟩
                · exact Or.inl h
                · exact Or.inr ⟨List.mem_cons_of_mem _ hn, hkk⟩
            · simp only [if_neg hff]
              by_cases hat : (gs.syms member).name.str.startsWith "@@" = true
              · simp only [if_pos hat]
                obtain ⟨ihr, ihp, ihi⟩ :=
                  ih { acc with st := emitField gs acc.st member true }
                refine ⟨fun x hx => ?_, fun f hf => ?_, fun m hm => ?_⟩
                · rcases ihr x hx with ⟨n, hn, hkk⟩ | h
                  · exact Or.inl ⟨n, List.mem_cons_of_mem _ hn, hkk⟩
                  · rcases emitField_rsub gs acc.st member true x h with h' | h'
                    · rw [h']
                      exact Or.inl ⟨nm, List.mem_cons_self _ _, Or.inr hk⟩
                    · exact Or.inr h'
                · rcases ihp f hf with h | ⟨n, hn, hkk⟩
                  · exact Or.inl h
                  · exact Or.inr ⟨n, List.mem_cons_of_mem _ hn, hkk⟩
                · rcases ihi m hm with h | ⟨hn, hkk⟩
                  · exact Or.inl h
                  · exact Or.inr ⟨List.mem_cons_of_mem _ hn, hkk⟩
              · simp only [if_neg hat]
                obtain ⟨ihr, ihp, ihi⟩ :=
                  ih { acc with st := maybeEmit gs ctx acc.st member }
                refine ⟨fun x hx => ?_, fun f hf => ?_, fun m hm => ?_⟩
                · rcases ihr x hx with ⟨n, hn, hkk⟩ | h
                  · exact Or.inl ⟨n, List.mem_cons_of_mem _ hn, hkk⟩
                  · rw [show ({ acc with st := maybeEmit gs ctx acc.st member } : MemberAcc).st.rendered = acc.st.rendered from (maybeEmit_fields gs ctx acc.st member).2.1] at h
                    exact Or.inr h
                · rcases ihp f hf with h | ⟨n, hn, hkk⟩
                  · exact Or.inl h
                  · exact Or.inr ⟨n, List.mem_cons_of_mem _ hn, hkk⟩
                · rcases ihi m hm with h | ⟨hn, hkk⟩
                  · exact Or.inl h
                  · exact Or.inr ⟨List.mem_cons_of_mem _ hn, hkk⟩

theorem processSingletonMembers_rsub (gs : GlobalState) (ctx : PkgCtx)
    (isEnum : Bool) :
    ∀ (L : List (NRef × Nat)) (st : EmitState),
    ∀ x ∈ (processSingletonMembers gs ctx isEnum st L).rendered,
    (∃ n, (n, x) ∈ L) ∨ x ∈ st.rendered := by
  intro L
  induction L with
  | nil =>
      intro st x hx
      rw [processSingletonMembers] at hx
      exact Or.inr hx
  | cons p rest ih =>
      obtain ⟨nm, member⟩ := p
      intro st x hx
      rw [processSingletonMembers] at hx
      have hlift : ((∃ n, (n, x) ∈ rest) ∨ x ∈ st.rendered) →
          (∃ n, (n, x) ∈ (nm, member) :: rest) ∨ x ∈ st.rendered := by
        intro h
        rcases h with ⟨n, hn⟩ | h
        · exact Or.inl ⟨n, List.mem_cons_of_mem _ hn⟩
        · exact Or.inr h
      by_cases hskip : shouldSkipMember nm = true
      · simp only [if_pos hskip] at hx
        exact hlift (ih st x hx)
      · simp only [if_neg hskip] at hx
        cases hk : (gs.syms member).kind with
        | classOrModule =>
            simp only [hk] at hx
            rcases ih _ x hx with ⟨n, hn⟩ | h
            · exact Or.inl ⟨n, List.mem_cons_of_mem _ hn⟩
            · rw [(maybeEmit_fields gs ctx st member).2.1] at h
              exact Or.inr h
        | typeMember =>
            simp only [hk] at hx
            exact hlift (ih st x hx)
        | typeArgument =>
            simp only [hk] at hx
            exact hlift (ih st x hx)
        | method =>
            simp only [hk] at hx
            split at hx
            · exact hlift (ih st x hx)
            · rcases ih _ x hx with ⟨n, hn⟩ | h
              · exact Or.inl ⟨n, List.mem_cons_of_mem _ hn⟩
              · rcases emitMethod_rsub gs ctx st member x h with h' | h'
                · rw [h']
                  exact Or.inl ⟨nm, List.mem_cons_self _ _⟩
                · exact Or.inr h'
        | fieldOrStaticField =>
            simp only [hk] at hx
            split at hx
            · rcases ih _ x hx with ⟨n, hn⟩ | h
              · exact Or.inl ⟨n, List.mem_cons_of_mem _ hn⟩
              · rcases emitField_rsub gs st member false x h with h' | h'
                · rw [h']
                  exact Or.inl ⟨nm, List.mem_cons_self _ _⟩
                · exact Or.inr h'
            · split at hx
              · rcases ih _ x hx with ⟨n, hn⟩ | h
                · exact Or.inl ⟨n, List.mem_cons_of_mem _ hn⟩
                · rcases emitField_rsub gs st member true x h with h' | h'
                  · rw [h']
                    exact Or.inl ⟨nm, List.mem_cons_self _ _⟩
                  · exact Or.inr h'
              · rcases ih _ x hx with ⟨n, hn⟩ | h
                · exact Or.inl ⟨n, List.mem_cons_of_mem _ hn⟩
                · rw [(maybeEmit_fields gs ctx st member).2.1] at h
                  exact Or.inr h

theorem classSingletonSection_rsub (gs : GlobalState) (ctx : PkgCtx)
    (isEnum : Bool) (st : EmitState) (klass : Nat) :
    ∀ x ∈ (classSingletonSection gs ctx isEnum st klass).rendered,
    (∃ sc, (gs.syms klass).singletonClassOf = some sc ∧
      ((∃ n, (n, x) ∈ (gs.syms sc).members) ∨ x ∈ (gs.syms sc).typeMembers)) ∨
    x ∈ st.rendered := by
  intro x hx
  rw [classSingletonSection] at hx
  cases hsc : (gs.syms klass).singletonClassOf with
  | none =>
      simp only [hsc] at hx
      exact Or.inr hx
  | some sc =>
      simp only [hsc] at hx
      rcases processSingletonMembers_rsub gs ctx isEnum _ _ x hx with ⟨n, hn⟩ | h
      · exact Or.inl ⟨sc, rfl, Or.inl ⟨n, hn⟩⟩
      · rcases emitTypeMembersList_rsub gs _ _ x h with h' | h'
        · exact Or.inl ⟨sc, rfl, Or.inr h'⟩
        · rw [emitSingletonMixins_rendered] at h'
          exact Or.inr h'

theorem emitClassBody_rsub (gs : GlobalState) (ctx : PkgCtx) (st : EmitState)
    (klass : Nat) :
    ∀ x ∈ (emitClassBody gs ctx st klass).rendered,
    BodyPos gs klass x ∨ x ∈ st.rendered := by
  intro x hx
  rw [emitClassBody] at hx
  split at hx
  · exact Or.inr hx
  · rw [withOut_rendered, withOut_rendered, classEnumBlock_rendered] at hx
    rcases classSingletonSection_rsub gs ctx _ _ klass x hx with hsing | hx2
    · exact Or.inl (Or.inr (Or.inr (Or.inr hsing)))
    · rcases maybeEmitInitialized_rsub gs ctx _ _ _ x hx2 with
        ⟨m, him, hxm⟩ | hx3 | hx4
      · subst hxm
        rcases (processMembers_rsub gs ctx klass _ _ _).2.2 x him with
          h | ⟨hn, hkk⟩
        · exact Option.noConfusion h
        · exact Or.inl (Or.inr (Or.inl ⟨⟨initializeName, hn⟩, Or.inl hkk⟩))
      · rcases (processMembers_rsub gs ctx klass _ _ _).2.1 x hx3 with
          h | ⟨n, hn, hkk⟩
        · exact absurd h (List.not_mem_nil x)
        · exact Or.inl (Or.inr (Or.inl ⟨⟨n, hn⟩, Or.inr hkk⟩))
      · rcases (processMembers_rsub gs ctx klass _ _ _).1 x hx4 with
          ⟨n, hn, hkk⟩ | hx5
        · exact Or.inl (Or.inr (Or.inl ⟨⟨n, hn⟩, hkk⟩))
        · rcases emitTypeMembersList_rsub gs _ _ x hx5 with h | hx6
          · exact Or.inl (Or.inr (Or.inr (Or.inl h)))
          · rw [emitMixins_rendered, classFlagLines_rendered, withOut_rendered,
              classSuperLine_rendered] at hx6
            rcases List.mem_cons.mp hx6 with h | h
            · exact Or.inl (Or.inl h)
            · exact Or.inr h

theorem owner_inPkg (gs : GlobalState) (ctx : PkgCtx) {x c : Nat}
    (hr : x ≠ rootSym) (hp : x ≠ pkgRegistrySym)
    (hk : isCoM gs x = false) (ho : (gs.syms x).owner = c)
    (hc : isInPackage gs ctx c = true) :
    isInPackage gs ctx x = true := by
  rw [isInPackage]
  rw [if_neg (by rintro (h | h); exacts [hr h, hp h])]
  by_cases hns : some x = ctx.pkgNamespace ∨ some x = ctx.pkgTestNamespace
  · rw [if_pos hns]
  · rw [if_neg hns]
    rw [if_neg (by simp [hk])]
    rw [ho]
    exact hc

theorem bodyPos_inPkg {gs : GlobalState} {pkg : PackageInfo} (ctx : PkgCtx)
    (hwf : SymTableWF gs pkg) (howf : OwnerWF gs) {klass x : Nat}
    (hin : isInPackage gs ctx klass = true) (hb : BodyPos gs klass x) :
    InPkgRender gs ctx x := by
  rcases hb with rfl | ⟨⟨n, hn⟩, hk⟩ | htm | ⟨sc, hsc, hmem⟩
  · exact Or.inl hin
  · obtain ⟨ho, hr, hp⟩ := howf.membersOwner klass n x hn
    refine Or.inl (owner_inPkg gs ctx hr hp ?_ ho hin)
    rcases hk with hk | hk <;> simp [isCoM, hk]
  · obtain ⟨ho, hr, hp⟩ := howf.typeMembersOwner klass x htm
    refine Or.inl (owner_inPkg gs ctx hr hp ?_ ho hin)
    simp [isCoM, hwf.typeMembersKind klass x htm]
  · exact Or.inr ⟨klass, sc, hsc, hmem, hin⟩

theorem emitLoop_closure {gs : GlobalState} {pkg : PackageInfo} {ctx : PkgCtx}
    (hwf : SymTableWF gs pkg) (howf : OwnerWF gs) :
    ∀ (fuel : Nat) (st st' : EmitState), WorklistInv gs ctx st →
    (∀ s ∈ st.rendered, InPkgRender gs ctx s) →
    emitLoop gs ctx fuel st = Except.ok st' →
    ∀ s ∈ st'.rendered, InPkgRender gs ctx s := by
  intro fuel
  induction fuel with
  | zero =>
      intro st st' hinv hcl heq
      rw [emitLoop] at heq
      injection heq with h'
      rw [← h']
      exact hcl
  | succ fuel ih =>
      intro st st' hinv hcl heq
      rw [emitLoop] at heq
      cases hte : st.toEmit with
      | nil =>
          rw [hte] at heq
          injection heq with h'
          rw [← h']
          exact hcl
      | cons s rest =>
          rw [hte] at heq
          have hs := hinv s (by rw [hte]; exact List.mem_cons_self _ _)
          have hpop : WorklistInv gs ctx { st with toEmit := rest } :=
            inv_pop hinv hte
          have hclP : ∀ x ∈ ({ st with toEmit := rest } : EmitState).rendered,
              InPkgRender gs ctx x := hcl
          cases hk : (gs.syms s).kind with
          | classOrModule =>
              simp only [hk] at heq
              rw [emitClass] at heq
              by_cases hg : ¬(isInPackage gs ctx s = true ∧
                  s ∈ ({ st with toEmit := rest } : EmitState).emittedSymbols)
              · rw [if_pos hg] at heq
                exact Except.noConfusion
                  (show (Except.error () : Except Unit EmitState) =
                    Except.ok st' from heq)
              · rw [if_neg hg] at heq
                have heq2 : emitLoop gs ctx fuel
                    (emitClassBody gs ctx { st with toEmit := rest } s) =
                    Except.ok st' := heq
                refine ih _ st' (emitClassBody_inv s hpop) ?_ heq2
                intro x hx
                rcases emitClassBody_rsub gs ctx _ s x hx with hb | hx'
                · exact bodyPos_inPkg ctx hwf howf hs.2 hb
                · exact hclP x hx'
          | method =>
              simp only [hk] at heq
              rw [emitMethod_of_mem (show s ∈
                ({ st with toEmit := rest } : EmitState).emittedSymbols
                from hs.1)] at heq
              exact ih _ st' hpop hclP heq
          | fieldOrStaticField =>
              simp only [hk] at heq
              refine ih _ st' (emitField_inv s false hpop) ?_ heq
              intro x hx
              rcases emitField_rsub gs _ s false x hx with rfl | hx'
              · exact Or.inl hs.2
              · exact hclP x hx'
          | typeMember =>
              simp only [hk] at heq
              exact ih _ st' hpop hclP heq
          | typeArgument =>
              simp only [hk] at heq
              exact ih _ st' hpop hclP heq

theorem regularPass_closure {gs : GlobalState} {pkg : PackageInfo}
    {ctx : PkgCtx} (hwf : SymTableWF gs pkg) (howf : OwnerWF gs)
    (exportsR : List Nat) (fuel : Nat) (p : String × EmitState)
    (heq : regularPass gs ctx exportsR fuel = Except.ok p) :
    WorklistInv gs ctx p.2 ∧ ∀ s ∈ p.2.rendered, InPkgRender gs ctx s := by
  rw [regularPass] at heq
  split at heq
  · injection heq with heq
    rw [← heq]
    refine ⟨initial_inv gs ctx, ?_⟩
    intro s hs
    simp [initialEmitState] at hs
  · split at heq
    · cases heq
    · next st hloop =>
        injection heq with heq
        rw [← heq]
        have hseed : WorklistInv gs ctx
            (exportsR.foldl (maybeEmit gs ctx) initialEmitState) :=
          seeds_inv gs ctx exportsR initialEmitState (initial_inv gs ctx)
        have hseedr : ∀ s ∈ (exportsR.foldl (maybeEmit gs ctx)
            initialEmitState).rendered, InPkgRender gs ctx s := by
          intro s hs
          rw [foldl_mE_rendered] at hs
          simp [initialEmitState] at hs
        obtain ⟨st2, hok2, hinv2⟩ := emitLoop_ok_of_inv gs ctx fuel _ hseed
        rw [hloop] at hok2
        injection hok2 with he
        refine ⟨inv_out_set (he ▸ hinv2) _, ?_⟩
        intro s hs
        exact emitLoop_closure hwf howf fuel _ st hseed hseedr hloop s hs

theorem testPass_closure {gs : GlobalState} {pkg : PackageInfo}
    {ctx : PkgCtx} (hwf : SymTableWF gs pkg) (howf : OwnerWF gs)
    (testExports : List Nat) (fuel : Nat) (st1 : EmitState)
    (p : String × EmitState) (hinv1 : WorklistInv gs ctx st1)
    (hcl1 : ∀ s ∈ st1.rendered, InPkgRender gs ctx s)
    (heq : testPass gs ctx testExports fuel st1 = Except.ok p) :
    WorklistInv gs ctx p.2 ∧ ∀ s ∈ p.2.rendered, InPkgRender gs ctx s := by
  rw [testPass] at heq
  split at heq
  · injection heq with heq
    rw [← heq]
    exact ⟨hinv1, hcl1⟩
  · split at heq
    · cases heq
    · next st hloop =>
        injection heq with heq
        rw [← heq]
        have hseed : WorklistInv gs ctx
            (testExports.foldl (maybeEmit gs ctx) st1) :=
          seeds_inv gs ctx testExports st1 hinv1
        have hseedr : ∀ s ∈ (testExports.foldl (maybeEmit gs ctx)
            st1).rendered, InPkgRender gs ctx s := by
          intro s hs
          rw [foldl_mE_rendered] at hs
          exact hcl1 s hs
        obtain ⟨st2, hok2, hinv2⟩ := emitLoop_ok_of_inv gs ctx fuel _ hseed
        rw [hloop] at hok2
        injection hok2 with he
        refine ⟨inv_out_set (he ▸ hinv2) _, ?_⟩
        intro s hs
        exact emitLoop_closure hwf howf fuel _ st hseed hseedr hloop s hs

theorem ownerWfA : OwnerWF gsA := by
  refine ⟨?_, ?_⟩
  · intro c n s h
    rcases memA h with ⟨hc, ⟨hn, hm⟩ | ⟨hn, hm⟩ | ⟨hn, hm⟩⟩ |
        ⟨hc, hn, hm⟩ | ⟨hc, hn, hm⟩ | ⟨hc, hn, hm⟩ <;>
      subst hc <;> subst hm <;> exact ⟨by decide, by decide, by decide⟩
  · intro c tm h
    rw [gsA_tms c] at h
    exact absurd h (List.not_mem_nil tm)

/-- C1: boundary closure, as the generator actually guarantees it.  A
whole-package run never aborts — the "Invalid klass" raise is unreachable,
because maybeEmit inserts a symbol into `emitted` and the worklist only
when isInPackage holds — and every symbol in the final rendering trace is
either in-package or a member of the singleton scope of an in-package
class (the one body scope emitted with no in-package check whose owner
chain does not pass through the emitting class). -/
theorem C1_boundary (gs : GlobalState) (pkg : PackageInfo)
    (namespaces : List Nat) (fuel : Nat)
    (hwf : SymTableWF gs pkg) (howf : OwnerWF gs) :
    (exporterEmit gs pkg namespaces fuel).isOk = true ∧
    ∀ o, exporterEmit gs pkg namespaces fuel = Except.ok o →
      ∀ s ∈ o.finalState.rendered,
        InPkgRender gs (mkPkgCtx gs pkg namespaces) s := by
  refine ⟨exporterEmit_isOk gs pkg namespaces fuel, ?_⟩
  intro o h s hs
  rw [exporterEmit] at h
  cases hr : regularPass gs (mkPkgCtx gs pkg namespaces)
      (routeExports gs (mkPkgCtx gs pkg namespaces) pkg.exportsL).1 fuel with
  | error e => rw [hr] at h; cases h
  | ok p1 =>
      rw [hr] at h
      dsimp only at h
      cases ht : testPass gs (mkPkgCtx gs pkg namespaces)
          ((routeExports gs (mkPkgCtx gs pkg namespaces) pkg.exportsL).2 ++
            pkg.testExportsL.filterMap (lookupFQN gs)) fuel p1.2 with
      | error e => rw [ht] at h; cases h
      | ok p2 =>
          rw [ht] at h
          injection h with h
          obtain ⟨hinv1, hcl1⟩ := regularPass_closure hwf howf _ fuel p1 hr
          obtain ⟨hinv2, hcl2⟩ :=
            testPass_closure hwf howf _ fuel p1.2 p2 hinv1 hcl1 ht
          apply hcl2
          rw [← h] at hs
          exact hs

/-- C1 witness: the concrete run of package pkgARR on model A satisfies
the amended boundary statement outright. -/
theorem C1_witness :
    (exporterEmit gsA pkgARR pkgNamespacesA 50).isOk = true ∧
    ∀ o, exporterEmit gsA pkgARR pkgNamespacesA 50 = Except.ok o →
      ∀ s ∈ o.finalState.rendered,
        InPkgRender gsA (mkPkgCtx gsA pkgARR pkgNamespacesA) s :=
  C1_boundary gsA pkgARR pkgNamespacesA 50 wfA ownerWfA

theorem gsC_syms_default {c : Nat} (hc : 9 ≤ c) :
    gsC.syms c = defaultSymData := by
  show tableC.getD c defaultSymData = defaultSymData
  refine List.getD_eq_default _ _ ?_
  have hlen : tableC.length = 9 := by rfl
  rw [hlen]
  exact hc

theorem gsC_mixins (c : Nat) : (gsC.syms c).mixins = [] := by
  by_cases hc : c < 9
  · interval_cases c <;> rfl
  · rw [gsC_syms_default (by omega)]
    rfl

theorem gsC_tms (c : Nat) : (gsC.syms c).typeMembers = [] := by
  by_cases hc : c < 9
  · interval_cases c <;> rfl
  · rw [gsC_syms_default (by omega)]
    rfl

theorem gsC_args (c : Nat) : (gsC.syms c).arguments = [] := by
  by_cases hc : c < 9
  · interval_cases c <;> rfl
  · rw [gsC_syms_default (by omega)]
    rfl

theorem gsC_ret (c : Nat) : (gsC.syms c).resultType = none := by
  by_cases hc : c < 9
  · interval_cases c <;> rfl
  · rw [gsC_syms_default (by omega)]
    rfl

theorem gsC_super (c : Nat) : (gsC.syms c).superClass = none := by
  by_cases hc : c < 9
  · interval_cases c <;> rfl
  · rw [gsC_syms_default (by omega)]
    rfl

theorem gsC_att_cases (c a : Nat) (h : (gsC.syms c).attachedClass = some a) :
    c = 7 ∧ a = 6 := by
  by_cases hc : c < 9
  · interval_cases c
    · exact Option.noConfusion (show (none : Option Nat) = some a from h)
    · exact Option.noConfusion (show (none : Option Nat) = some a from h)
    · exact Option.noConfusion (show (none : Option Nat) = some a from h)
    · exact Option.noConfusion (show (none : Option Nat) = some a from h)
    · exact Option.noConfusion (show (none : Option Nat) = some a from h)
    · exact Option.noConfusion (show (none : Option Nat) = some a from h)
    · exact Option.noConfusion (show (none : Option Nat) = some a from h)
    · have h' : some 6 = some a := h
      injection h' with h''
      exact ⟨rfl, h''.symm⟩
    · exact Option.noConfusion (show (none : Option Nat) = some a from h)
  · rw [gsC_syms_default (by omega)] at h
    exact Option.noConfusion (show (none : Option Nat) = some a from h)

theorem gsC_single_cases (c sc : Nat)
    (h : (gsC.syms c).singletonClassOf = some sc) : c = 6 ∧ sc = 7 := by
  by_cases hc : c < 9
  · interval_cases c
    · exact Option.noConfusion (show (none : Option Nat) = some sc from h)
    · exact Option.noConfusion (show (none : Option Nat) = some sc from h)
    · exact Option.noConfusion (show (none : Option Nat) = some sc from h)
    · exact Option.noConfusion (show (none : Option Nat) = some sc from h)
    · exact Option.noConfusion (show (none : Option Nat) = some sc from h)
    · exact Option.noConfusion (show (none : Option Nat) = some sc from h)
    · have h' : some 7 = some sc := h
      injection h' with h''
      exact ⟨rfl, h''.symm⟩
    · exact Option.noConfusion (show (none : Option Nat) = some sc from h)
    · exact Option.noConfusion (show (none : Option Nat) = some sc from h)
  · rw [gsC_syms_default (by omega)] at h
    exact Option.noConfusion (show (none : Option Nat) = some sc from h)

theorem gsC_members_nodup (c : Nat) :
    ((gsC.syms c).members.map Prod.snd).Nodup := by
  by_cases hc : c < 9
  · interval_cases c <;> decide
  · rw [gsC_syms_default (by omega)]
    decide

theorem memC {c m : Nat} {n : NRef} (h : (n, m) ∈ (gsC.syms c).members) :
    (c = 0 ∧ n = nP ∧ m = 6) ∨ (c = 7 ∧ n = nFoo ∧ m = 8) := by
  by_cases hc : c < 9
  · interval_cases c
    · refine Or.inl ⟨rfl, ?_⟩
      have hm : (n, m) ∈ [(nP, 6)] := h
      simpa using hm
    · exact absurd h (List.not_mem_nil _)
    · exact absurd h (List.not_mem_nil _)
    · exact absurd h (List.not_mem_nil _)
    · exact absurd h (List.not_mem_nil _)
    · exact absurd h (List.not_mem_nil _)
    · exact absurd h (List.not_mem_nil _)
    · refine Or.inr ⟨rfl, ?_⟩
      have hm : (n, m) ∈ [(nFoo, 8)] := h
      simpa using hm
    · exact absurd h (List.not_mem_nil _)
  · rw [gsC_syms_default (by omega)] at h
    exact absurd h (List.not_mem_nil _)

theorem wfC : SymTableWF gsC pkgC := by
  refine ⟨gsC_members_nodup, ?_, ?_, ?_, ?_, ?_, ?_, ?_, ?_, ?_, ?_⟩
  · intro c c' n n' m h h'
    rcases memC h with ⟨hc1, hn1, hm1⟩ | ⟨hc1, hn1, hm1⟩ <;>
      rcases memC h' with ⟨hc2, hn2, hm2⟩ | ⟨hc2, hn2, hm2⟩ <;>
      simp_all
  · intro c sc h
    obtain ⟨hc, hsc⟩ := gsC_single_cases c sc h
    subst hc; subst hsc
    exact ⟨by decide, by decide⟩
  · intro c c' sc h h'
    obtain ⟨hc, _⟩ := gsC_single_cases c sc h
    obtain ⟨hc', _⟩ := gsC_single_cases c' sc h'
    rw [hc, hc']
  · intro c sup h
    rw [gsC_super c] at h
    exact Option.noConfusion h
  · intro c x hx
    rw [gsC_mixins c] at hx
    exact absurd hx (List.not_mem_nil x)
  · intro c a h
    obtain ⟨_, ha⟩ := gsC_att_cases c a h
    rw [ha]
    decide
  · intro m a ha t ht x hx
    rw [gsC_args m] at ha
    exact absurd ha (List.not_mem_nil a)
  · intro m t h x hx
    rw [gsC_ret m] at h
    exact Option.noConfusion h
  · intro p s hp hlk
    have hp' : p = [nP] := by
      rcases List.mem_append.mp hp with h1 | h1
      · simpa [pkgC] using h1
      · simp [pkgC] at h1
    subst hp'
    have h6 : some 6 = some s :=
      (show lookupFQN gsC [nP] = some 6 from rfl).symm.trans hlk
    injection h6 with h6'
    rw [← h6']
    decide
  · intro c tm htm
    rw [gsC_tms c] at htm
    exact absurd htm (List.not_mem_nil tm)

theorem ownerWfC : OwnerWF gsC := by
  refine ⟨?_, ?_⟩
  · intro c n s h
    rcases memC h with ⟨hc, hn, hm⟩ | ⟨hc, hn, hm⟩ <;>
      subst hc <;> subst hm <;> exact ⟨by decide, by decide, by decide⟩
  · intro c tm h
    rw [gsC_tms c] at h
    exact absurd h (List.not_mem_nil tm)

/-- C1 counterexample: model C satisfies every well-formedness assumption,
yet the run of package P renders symbol 8 (the static method P.foo, a
member of P's singleton class 7) while isInPackage is false for 8: the
owner chain of 8 goes through the singleton class, a sibling of P, and
reaches the root without ever meeting P.  So "isInPackage holds for every
rendered symbol" fails as stated. -/
theorem C1_counterexample :
    SymTableWF gsC pkgC ∧ OwnerWF gsC ∧
    outRenderedRegOf (exporterEmit gsC pkgC nsC 50) = some [8, 6] ∧
    isInPackage gsC (mkPkgCtx gsC pkgC nsC) 6 = true ∧
    isInPackage gsC (mkPkgCtx gsC pkgC nsC) 8 = false ∧
    (gsC.syms 6).singletonClassOf = some 7 ∧
    (nFoo, 8) ∈ (gsC.syms 7).members :=
  ⟨wfC, ownerWfC, by decide, by decide, by decide, by rfl, by decide⟩
